import Mathlib

/-! gcollapse: the grouping-and-aggregation pipeline of `src/plugin/gcollapse.c`

A shallow embedding of `stata_call` and of the properties of its phases:
the overflow pre-check of the integer bijection, the per-group gather pass,
the statistic reducer and the output assembler, the run on one integer
by-variable against a mapping-based reference, and the run with the log of its
host accesses, for the properties of failing runs.

Conventions of the embedding

* `size_t` values are natural numbers; where the C arithmetic can wrap the
  reduction modulo `2 ^ 64` is written out.
* `int` values are integers; `int` arithmetic is written without wrap-around
  (signed overflow is undefined in C).
* C arrays are total maps `Nat → α` updated with `Function.update`; `calloc`
  gives the constant-zero map.
* `ST_double` values are rationals; a numeric cell of the host data store is
  `Option ST_double`, `none` being a Stata missing value, so that
  `SF_is_missing z` is `z.isNone` and `SV_missval` is `none`.
-/

namespace Gcollapse

/-! ## Machine constants -/

/-- The largest `unsigned long`, `limits.h` on an LP64 platform. -/
def ULONG_MAX : Nat := 2 ^ 64 - 1

/-- Conversion of an `int` expression to `size_t`. -/
def to_size_t (x : Int) : Nat := (x % 2 ^ 64).toNat

/-- Multiplication of two `size_t` values. -/
def mul_size_t (a b : Nat) : Nat := (a * b) % 2 ^ 64

/-! ## Overflow pre-check of the bijection (gcollapse.c, lines 147-172) -/

/-- Modelled from the spec: `mf_max_signed` of `gtools_math.c`, which is not under
`src/`; the largest of the first `n` entries of a signed array (a by-column is
integer-valued exactly when its length entry is negative, so "every by-column
is integer-valued" is `mf_max_signed byvars_lens byvars_k < 0`). -/
def mf_max_signed (x : List Int) (n : Nat) : Int :=
  (List.range n).foldl (fun m i => max m (x.getD i 0)) (x.getD 0 0)

/-- Modelled from the spec: `mf_min_signed` of `gtools_math.c`, which is not under
`src/`; the smallest of the first `n` entries of a signed array. -/
def mf_min_signed (x : List Int) (n : Nat) : Int :=
  (List.range n).foldl (fun m i => min m (x.getD i 0)) (x.getD 0 0)

/-- The C expression `byvars_maxs[k] - byvars_mins[k] + (k < (byvars_k - 1))`
converted to `size_t`. -/
def next_range (byvars_k : Nat) (byvars_mins byvars_maxs : List Int) (k : Nat) : Nat :=
  to_size_t (byvars_maxs.getD k 0 - byvars_mins.getD k 0
    + (if (k : Int) < (byvars_k : Int) - 1 then 1 else 0))

/-- The loop `for (k = 1; k < byvars_k; k++)` of the pre-check, run over the
list of the remaining values of `k` from the current `worst` and `range`.
`some true` is `integers_ok = 1` at loop exit, `some false` is the `break`
with `integers_ok = 0`, and `none` is the division `ULONG_MAX / range` with
`range = 0`, which has no defined result in C. -/
def worst_loop (byvars_k : Nat) (byvars_mins byvars_maxs : List Int) :
    List Nat → Nat → Nat → Option Bool
  | [], _, _ => some true
  | k :: ks, worst, range =>
    if range = 0 then none
    else if worst > ULONG_MAX / range then some false
    else worst_loop byvars_k byvars_mins byvars_maxs ks (mul_size_t worst range)
      (next_range byvars_k byvars_mins byvars_maxs k)

/-- The value of `integers_ok` computed by lines 147-172. -/
def integers_ok_check (byvars_k : Nat) (byvars_lens byvars_mins byvars_maxs : List Int) :
    Option Bool :=
  if mf_max_signed byvars_lens byvars_k < 0 then
    if byvars_k > 1 then
      worst_loop byvars_k byvars_mins byvars_maxs (List.range' 1 (byvars_k - 1))
        (to_size_t (byvars_maxs.getD 0 0 - byvars_mins.getD 0 0 + 1))
        (to_size_t (byvars_maxs.getD 1 0 - byvars_mins.getD 1 0
          + (if (1 : Int) < (byvars_k : Int) - 1 then 1 else 0)))
    else some true
  else some false

/-- The exact product over all `byvars_k` columns of the ranges
`max_i - min_i + 1`. -/
def range_product (byvars_k : Nat) (byvars_mins byvars_maxs : List Int) : Int :=
  ((List.range byvars_k).map
    (fun i => byvars_maxs.getD i 0 - byvars_mins.getD i 0 + 1)).prod

/-! ## The host collaborator (Stata plugin interface, `spi/stplugin.h`) -/

/-- An `ST_double`, in exact arithmetic. -/
abbrev ST_double := ℚ

/-- The state of the host as seen through the plugin interface: the row range,
the numeric and text cells of the data store, the parameters exchanged with
the control layer and, for every access, the return code the host gives
(`0` is success). -/
structure Host where
  /-- Result of `SF_in1()`. -/
  in1 : Nat
  /-- Result of `SF_in2()`. -/
  in2 : Nat
  /-- Result of `sf_get_vector_length` for a named vector. -/
  vec_len : String → Int
  /-- Return code of `sf_get_vector` for a named vector. -/
  vec_rc : String → Nat
  /-- Entries of a named vector. -/
  vec : String → List ST_double
  /-- Return code of `SF_scal_use` for a named scalar. -/
  scal_rc : String → Nat
  /-- Value of a named scalar. -/
  scal : String → ST_double
  /-- Return code of `SF_macro_use` for a named text parameter. -/
  text_rc : String → Nat
  /-- Space-delimited tokens of a named text parameter. -/
  text : String → List String
  /-- Return code of `SF_vdata (var, obs, &z)`. -/
  vdata_rc : Nat → Nat → Nat
  /-- Numeric cell `(var, obs)`; `none` is a missing value. -/
  num : Nat → Nat → Option ST_double
  /-- Return code of `SF_vstore (var, obs, z)`. -/
  vstore_rc : Nat → Nat → Nat
  /-- Return code of `SF_sdata (var, obs, s)`. -/
  sdata_rc : Nat → Nat → Nat
  /-- Text cell `(var, obs)`. -/
  str : Nat → Nat → String
  /-- Return code of `SF_sstore (var, obs, s)`. -/
  sstore_rc : Nat → Nat → Nat
  /-- Return code of `SF_scal_save` for a named scalar. -/
  scal_save_rc : String → Nat
  /-- Scalars saved by the plugin with `SF_scal_save`. -/
  saved : String → Option ST_double

/-- Numeric read `SF_vdata (i, j, &z)`: the return code, or the cell. -/
def SF_vdata (h : Host) (i j : Nat) : Except Nat (Option ST_double) :=
  if h.vdata_rc i j = 0 then .ok (h.num i j) else .error (h.vdata_rc i j)

/-- Numeric write `SF_vstore (i, j, z)`: the return code, or the host with the
cell replaced. -/
def SF_vstore (h : Host) (i j : Nat) (z : Option ST_double) : Except Nat Host :=
  if h.vstore_rc i j = 0 then
    .ok { h with num := Function.update h.num i (Function.update (h.num i) j z) }
  else .error (h.vstore_rc i j)

/-- Text read `SF_sdata (i, j, s)`. -/
def SF_sdata (h : Host) (i j : Nat) : Except Nat String :=
  if h.sdata_rc i j = 0 then .ok (h.str i j) else .error (h.sdata_rc i j)

/-- Text write `SF_sstore (i, j, s)`. -/
def SF_sstore (h : Host) (i j : Nat) (s : String) : Except Nat Host :=
  if h.sstore_rc i j = 0 then
    .ok { h with str := Function.update h.str i (Function.update (h.str i) j s) }
  else .error (h.sstore_rc i j)

/-- A C `for` loop whose body may `return` a status code: the body is run on
the successive values of the loop variable until one of them fails. -/
def for_loop {ι σ ε : Type} (body : ι → σ → Except ε σ) : List ι → σ → Except ε σ
  | [], s => .ok s
  | i :: is, s =>
    match body i s with
    | .error e => .error e
    | .ok s' => for_loop body is s'

/-! ## Gather pass (gcollapse.c, lines 427-467) -/

/-- The arrays filled by the gather pass and its running offsets. -/
structure Gather where
  all_buffer : Nat → ST_double
  all_firstmiss : Nat → Bool
  all_lastmiss : Nat → Bool
  all_nonmiss : Nat → Nat
  offsets_buffer : Nat → Nat
  offset_buffer : Nat
  offset_source : Nat

/-- The arrays after `calloc` and the zeroing loop of lines 438-439, with
`offset_buffer = offset_source = 0`. -/
def Gather.init : Gather where
  all_buffer := fun _ => 0
  all_firstmiss := fun _ => false
  all_lastmiss := fun _ => false
  all_nonmiss := fun _ => 0
  offsets_buffer := fun _ => 0
  offset_buffer := 0
  offset_source := 0

/-- Lines 453-459: what is done with the value `z` read for variable `k` in
row `i` of the group `[start, end)`. -/
def gather_put (i start end_ nj : Nat) (k : Nat) (z : Option ST_double) (g : Gather) : Gather :=
  match z with
  | none =>
    { g with
      all_firstmiss :=
        if i = start then Function.update g.all_firstmiss (g.offset_source + k) true
        else g.all_firstmiss
      all_lastmiss :=
        if i = end_ - 1 then Function.update g.all_lastmiss (g.offset_source + k) true
        else g.all_lastmiss }
  | some z =>
    { g with
      all_buffer := Function.update g.all_buffer
        (g.offset_buffer + nj * k + g.all_nonmiss (g.offset_source + k)) z
      all_nonmiss := Function.update g.all_nonmiss (g.offset_source + k)
        (g.all_nonmiss (g.offset_source + k) + 1) }

/-- Body of `for (k = 0; k < k_uniq_vars; k++)`, lines 452-459, for row `i` of
the group `[start, end)` with `sel = index[i] + in1`. -/
def gather_cell (h : Host) (collapse_from sel i start end_ nj : Nat) (k : Nat)
    (g : Gather) : Except Nat Gather :=
  match SF_vdata h (k + collapse_from) sel with
  | .error rc => .error rc
  | .ok z => .ok (gather_put i start end_ nj k z g)

/-- Body of `for (i = start; i < end; i++)`, lines 450-460. -/
def gather_row (h : Host) (index : Nat → Nat) (collapse_from k_uniq_vars start end_ nj : Nat)
    (i : Nat) (g : Gather) : Except Nat Gather :=
  for_loop (gather_cell h collapse_from (index i + h.in1) i start end_ nj)
    (List.range k_uniq_vars) g

/-- Body of `for (j = 0; j < J; j++)`, lines 446-466. -/
def gather_group (h : Host) (index info : Nat → Nat) (collapse_from k_uniq_vars : Nat)
    (j : Nat) (g : Gather) : Except Nat Gather :=
  let start := info j
  let end_ := info (j + 1)
  let nj := end_ - start
  match for_loop (gather_row h index collapse_from k_uniq_vars start end_ nj)
      (List.range' start (end_ - start)) g with
  | .error rc => .error rc
  | .ok g' =>
    .ok { g' with
      offsets_buffer := Function.update g'.offsets_buffer j g'.offset_buffer
      offset_buffer := g'.offset_buffer + nj * k_uniq_vars
      offset_source := g'.offset_source + k_uniq_vars }

/-- The gather pass, lines 444-467. -/
def gather (h : Host) (index info : Nat → Nat) (collapse_from k_uniq_vars J : Nat) :
    Except Nat Gather :=
  for_loop (gather_group h index info collapse_from k_uniq_vars) (List.range J) Gather.init

/-- The accumulation of `nmfreq`, lines 471-473, from the zeros of line 419. -/
def nmfreq_of (all_nonmiss : Nat → Nat) (k_uniq_vars J : Nat) : Nat → Nat :=
  (List.range J).foldl
    (fun nmfreq j =>
      (List.range k_uniq_vars).foldl
        (fun nmfreq k =>
          Function.update nmfreq k (nmfreq k + all_nonmiss (j * k_uniq_vars + k)))
        nmfreq)
    (fun _ => 0)

/-! ## Statistic reducer (gcollapse.c, lines 495-545) -/

/-- Modelled from the spec: `mf_strcmp_wrapper` of `gtools_utils.c`, which is not
under `src/`; the "string-to-behavior dispatch via repeated string
comparisons": `1` exactly when the statistic name is the compared name. -/
def mf_strcmp_wrapper (fname compare : String) : Bool := decide (fname = compare)

/-- The branches of the `if`/`else if` chain of lines 508-534, in its order. -/
inductive Branch where
  | count
  | percent
  | first_missing
  | last_missing
  | first
  | last
  | sd_missing
  | empty_missing
  | switch_fun
  deriving DecidableEq, Repr

/-- The conditions of the chain of lines 508-534: which branch is taken for the
statistic name `stat_k`, the flags `all_firstmiss[sel]`, `all_lastmiss[sel]`
and `end = all_nonmiss[sel]`. -/
def reduce_branch (stat_k : String) (firstmiss lastmiss : Bool) (end_ : Nat) : Branch :=
  if mf_strcmp_wrapper stat_k "count" then .count
  else if mf_strcmp_wrapper stat_k "percent" then .percent
  else if firstmiss && mf_strcmp_wrapper stat_k "first" then .first_missing
  else if lastmiss && mf_strcmp_wrapper stat_k "last" then .last_missing
  else if mf_strcmp_wrapper stat_k "first" || mf_strcmp_wrapper stat_k "firstnm" then .first
  else if mf_strcmp_wrapper stat_k "last" || mf_strcmp_wrapper stat_k "lastnm" then .last
  else if mf_strcmp_wrapper stat_k "sd" && decide (end_ < 2) then .sd_missing
  else if end_ = 0 then .empty_missing
  else .switch_fun

/-- The index expression `start + end - 1` of line 524, in `size_t`. -/
def last_index (start end_ : Nat) : Nat := (start + end_ + (2 ^ 64 - 1)) % 2 ^ 64

/-- The arrays `output` and `outmiss`. -/
structure Output where
  output : Nat → ST_double
  outmiss : Nat → Bool

/-- The arrays `output` and `outmiss` after `calloc` and lines 415-416. -/
def Output.init : Output where
  output := fun _ => 0
  outmiss := fun _ => false

/-- Body of `for (k = 0; k < k_targets; k++)`, lines 504-534. The numeric
reductions of `gtools_math.c` enter as the parameter `mf_switch_fun`. -/
def reduce_target (mf_switch_fun : String → (Nat → ST_double) → Nat → Nat → ST_double)
    (stat : Nat → String) (pos_targets : Nat → Nat) (g : Gather)
    (offset offset_source offset_buffer nj : Nat) (k : Nat) (o : Output) : Output :=
  let sel := offset_source + pos_targets k
  let start := offset_buffer + nj * pos_targets k
  let end_ := g.all_nonmiss sel
  match reduce_branch (stat k) (g.all_firstmiss sel) (g.all_lastmiss sel) end_ with
  | .count => { o with output := Function.update o.output (offset + k) (end_ : ℚ) }
  | .percent =>
    { o with output := Function.update o.output (offset + k) ((mul_size_t 100 end_ : Nat) : ℚ) }
  | .first_missing => { o with outmiss := Function.update o.outmiss (offset + k) true }
  | .last_missing => { o with outmiss := Function.update o.outmiss (offset + k) true }
  | .first => { o with output := Function.update o.output (offset + k) (g.all_buffer start) }
  | .last =>
    { o with
      output := Function.update o.output (offset + k) (g.all_buffer (last_index start end_)) }
  | .sd_missing => { o with outmiss := Function.update o.outmiss (offset + k) true }
  | .empty_missing => { o with outmiss := Function.update o.outmiss (offset + k) true }
  | .switch_fun =>
    let z := mf_switch_fun (stat k) g.all_buffer start (start + end_)
    { o with output := Function.update o.output (offset + k) z }

/-- Body of `for (j = 0; j < J; j++)`, lines 495-545. -/
def reduce_group (mf_switch_fun : String → (Nat → ST_double) → Nat → Nat → ST_double)
    (stat : Nat → String) (pos_targets : Nat → Nat) (info : Nat → Nat) (g : Gather)
    (k_targets k_uniq_vars : Nat) (j : Nat) (o : Output) : Output :=
  (List.range k_targets).foldl
    (fun o k =>
      reduce_target mf_switch_fun stat pos_targets g (j * k_targets) (j * k_uniq_vars)
        (g.offsets_buffer j) (info (j + 1) - info j) k o)
    o

/-- The reducer, lines 495-545. -/
def reduce (mf_switch_fun : String → (Nat → ST_double) → Nat → Nat → ST_double)
    (stat : Nat → String) (pos_targets : Nat → Nat) (info : Nat → Nat) (g : Gather)
    (k_targets k_uniq_vars J : Nat) : Output :=
  (List.range J).foldl
    (fun o j => reduce_group mf_switch_fun stat pos_targets info g k_targets k_uniq_vars j o)
    Output.init

/-! ## Representative by-values (gcollapse.c, lines 558-575) -/

/-- The host and the locals written by the loop of lines 558-575. -/
structure ByRead where
  host : Host
  bynum : Nat → ST_double
  bymiss : Nat → Bool
  offset_bynum : Nat
  s : String

/-- Body of `for (k = 0; k < byvars_kstr; k++)`, lines 562-563. A failure
returns the status code; the host at that point is kept with it. -/
def byread_str (in1 : Nat) (index info str_byvars : Nat → Nat) (str_from j : Nat) (k : Nat)
    (b : ByRead) : Except (Nat × Host) ByRead :=
  match SF_sdata b.host (str_byvars k) (index (info j) + in1) with
  | .error rc => .error (rc, b.host)
  | .ok s =>
    match SF_sstore b.host (k + str_from) (j + 1) s with
    | .error rc => .error (rc, b.host)
    | .ok h' => .ok { b with host := h', s := s }

/-- Body of `for (k = 0; k < byvars_knum; k++)`, lines 566-572. -/
def byread_num (in1 : Nat) (index info num_byvars : Nat → Nat) (j : Nat) (k : Nat)
    (b : ByRead) : Except (Nat × Host) ByRead :=
  match SF_vdata b.host (num_byvars k) (index (info j) + in1) with
  | .error rc => .error (rc, b.host)
  | .ok none => .ok { b with bymiss := Function.update b.bymiss (b.offset_bynum + k) true }
  | .ok (some z) => .ok { b with bynum := Function.update b.bynum (b.offset_bynum + k) z }

/-- Body of `for (j = 0; j < J; j++)`, lines 560-574. -/
def byread_group (in1 : Nat) (index info str_byvars num_byvars : Nat → Nat)
    (str_from byvars_kstr byvars_knum : Nat) (j : Nat) (b : ByRead) :
    Except (Nat × Host) ByRead :=
  match for_loop (byread_str in1 index info str_byvars str_from j) (List.range byvars_kstr) b with
  | .error e => .error e
  | .ok b1 =>
    match for_loop (byread_num in1 index info num_byvars j) (List.range byvars_knum) b1 with
    | .error e => .error e
    | .ok b2 => .ok { b2 with offset_bynum := b2.offset_bynum + byvars_knum }

/-- The loop of lines 558-575, from `bynum`, `bymiss` after `calloc` and
lines 412-413. -/
def byread (in1 : Nat) (index info str_byvars num_byvars : Nat → Nat)
    (str_from byvars_kstr byvars_knum J : Nat) (h : Host) : Except (Nat × Host) ByRead :=
  for_loop (byread_group in1 index info str_byvars num_byvars str_from byvars_kstr byvars_knum)
    (List.range J)
    { host := h, bynum := fun _ => 0, bymiss := fun _ => false, offset_bynum := 0, s := "" }

/-! ## Output assembler (gcollapse.c, lines 671-688) -/

/-- The host and the locals written by the loop of lines 671-688. -/
structure Store where
  host : Host
  output : Nat → ST_double
  offset : Nat
  offset_bynum : Nat
  s : String

/-- Body of `for (k = 0; k < k_targets; k++)`, lines 674-676. The division by
`nmfreq` is the division of rationals. -/
def store_target (stat : Nat → String) (pos_targets nmfreq : Nat → Nat) (outmiss : Nat → Bool)
    (targets_from j : Nat) (k : Nat) (t : Store) : Except (Nat × Host) Store :=
  let sel := t.offset + k
  let output :=
    if mf_strcmp_wrapper (stat k) "percent" then
      Function.update t.output sel (t.output sel / (nmfreq (pos_targets k) : ℚ))
    else t.output
  match SF_vstore t.host (k + targets_from) (j + 1)
      (if outmiss sel then none else some (output sel)) with
  | .error rc => .error (rc, t.host)
  | .ok h' => .ok { t with host := h', output := output }

/-- Body of `for (k = 0; k < byvars_kstr; k++)`, lines 679-680. -/
def store_str (str_byvars : Nat → Nat) (str_from j : Nat) (k : Nat) (t : Store) :
    Except (Nat × Host) Store :=
  match SF_sdata t.host (k + str_from) (j + 1) with
  | .error rc => .error (rc, t.host)
  | .ok s =>
    match SF_sstore t.host (str_byvars k) (j + 1) s with
    | .error rc => .error (rc, t.host)
    | .ok h' => .ok { t with host := h', s := s }

/-- Body of `for (k = 0; k < byvars_knum; k++)`, lines 683-684. -/
def store_num (num_byvars : Nat → Nat) (bynum : Nat → ST_double) (bymiss : Nat → Bool)
    (j : Nat) (k : Nat) (t : Store) : Except (Nat × Host) Store :=
  let sel := t.offset_bynum + k
  match SF_vstore t.host (num_byvars k) (j + 1) (if bymiss sel then none else some (bynum sel)) with
  | .error rc => .error (rc, t.host)
  | .ok h' => .ok { t with host := h' }

/-- Body of `for (j = 0; j < J; j++)`, lines 673-687. -/
def store_group (stat : Nat → String) (pos_targets nmfreq str_byvars num_byvars : Nat → Nat)
    (outmiss : Nat → Bool) (bynum : Nat → ST_double) (bymiss : Nat → Bool)
    (targets_from str_from k_targets byvars_kstr byvars_knum : Nat) (j : Nat) (t : Store) :
    Except (Nat × Host) Store :=
  match for_loop (store_target stat pos_targets nmfreq outmiss targets_from j)
      (List.range k_targets) t with
  | .error e => .error e
  | .ok t1 =>
    match for_loop (store_str str_byvars str_from j) (List.range byvars_kstr) t1 with
    | .error e => .error e
    | .ok t2 =>
      match for_loop (store_num num_byvars bynum bymiss j) (List.range byvars_knum) t2 with
      | .error e => .error e
      | .ok t3 =>
        .ok { t3 with
          offset := t3.offset + k_targets
          offset_bynum := t3.offset_bynum + byvars_knum }

/-- The loop of lines 671-688. -/
def store (stat : Nat → String) (pos_targets nmfreq str_byvars num_byvars : Nat → Nat)
    (o : Output) (bynum : Nat → ST_double) (bymiss : Nat → Bool)
    (targets_from str_from k_targets byvars_kstr byvars_knum J : Nat) (s : String) (h : Host) :
    Except (Nat × Host) Store :=
  for_loop
    (store_group stat pos_targets nmfreq str_byvars num_byvars o.outmiss bynum bymiss
      targets_from str_from k_targets byvars_kstr byvars_knum)
    (List.range J)
    { host := h, output := o.output, offset := 0, offset_bynum := 0, s := s }

/-! ## Collapse phase (gcollapse.c, lines 374-697) -/

/-- Scalar write `SF_scal_save (name, z)`: the return code, or the host with
the scalar saved. -/
def SF_scal_save (h : Host) (name : String) (z : ST_double) : Except Nat Host :=
  if h.scal_save_rc name = 0 then .ok { h with saved := Function.update h.saved name (some z) }
  else .error (h.scal_save_rc name)

/-- The locals of `stata_call` that the collapse phase reads, as parsed from
the host parameters in lines 84-271. -/
structure Locals where
  collapse_from : Nat
  k_uniq_vars : Nat
  k_targets : Nat
  targets_from : Nat
  str_from : Nat
  byvars_kstr : Nat
  byvars_knum : Nat
  pos_targets : Nat → Nat
  str_byvars : Nat → Nat
  num_byvars : Nat → Nat
  stat : Nat → String

/-- Lines 374-697 of `stata_call`: gather, `nmfreq`, reducer, representative
by-values, output assembler and `SF_scal_save ("__gtools_J", J)`, whose return
code is not looked at. The result is the status code returned by `stata_call`
and the host at that point. -/
def collapse_data (mf_switch_fun : String → (Nat → ST_double) → Nat → Nat → ST_double)
    (p : Locals) (index info : Nat → Nat) (J : Nat) (h : Host) : Nat × Host :=
  match gather h index info p.collapse_from p.k_uniq_vars J with
  | .error rc => (rc, h)
  | .ok g =>
    let nmfreq := nmfreq_of g.all_nonmiss p.k_uniq_vars J
    let o := reduce mf_switch_fun p.stat p.pos_targets info g p.k_targets p.k_uniq_vars J
    match byread h.in1 index info p.str_byvars p.num_byvars p.str_from p.byvars_kstr
        p.byvars_knum J h with
    | .error e => e
    | .ok b =>
      match store p.stat p.pos_targets nmfreq p.str_byvars p.num_byvars o b.bynum b.bymiss
          p.targets_from p.str_from p.k_targets p.byvars_kstr p.byvars_knum J b.s b.host with
      | .error e => e
      | .ok t =>
        match SF_scal_save t.host "__gtools_J" (J : ℚ) with
        | .error _ => (0, t.host)
        | .ok h' => (0, h')

/-! ## Parameter exchange (gcollapse.c, lines 80-271) -/

/-- The cast `(int) x` of a double: truncation toward zero. -/
def to_int (x : ST_double) : Int := x.num.tdiv x.den

/-- Scalar read `SF_scal_use (name, &z)`. -/
def SF_scal_use (h : Host) (name : String) : Except Nat ST_double :=
  if h.scal_rc name = 0 then .ok (h.scal name) else .error (h.scal_rc name)

/-- Text read `SF_macro_use (name, buf, len)` followed by the split of the
buffer at spaces (`strtok_r`): the return code, or the tokens. -/
def SF_macro_use (h : Host) (name : String) : Except Nat (List String) :=
  if h.text_rc name = 0 then .ok (h.text name) else .error (h.text_rc name)

/-- Modelled from the spec: `sf_get_vector` of `spt/st_gentools.c`, which is not
under `src/`; the fetch of an array parameter from the host, which gives a
status code or the entries. -/
def sf_get_vector (h : Host) (name : String) : Except Nat (List ST_double) :=
  if h.vec_rc name = 0 then .ok (h.vec name) else .error (h.vec_rc name)

/-- Modelled from the spec: `sf_get_vector_length` of `spt/st_gentools.c`, which
is not under `src/`; the length of an array parameter, negative when the host
cannot give it. -/
def sf_get_vector_length (h : Host) (name : String) : Int := h.vec_len name

/-- The `size_t` subtraction `a - b`. -/
def sub_size_t (a b : Nat) : Nat := (a + (2 ^ 64 - b % 2 ^ 64)) % 2 ^ 64

/-! ## Key encoder, row indexer, group locator (spec, sections 4.1-4.3) -/

/-- The cast of a double to `uint64_t`: truncation, then reduction modulo
`2 ^ 64`. -/
def to_uint64 (x : ST_double) : Nat := to_size_t (to_int x)

/-- Modelled from the spec: the key of one row in `sf_get_variable_ashash`;
section 4.1, bijection mode for `K = 1`: "the key is `value - min`". A missing
by-value has no key in the spec; it is given key `0`. -/
def ashash_key (z : Option ST_double) (min : Int) : Nat :=
  match z with
  | none => 0
  | some z => to_uint64 (z - (min : ℚ))

/-- Modelled from the spec: `sf_get_variable_ashash` of `spt/st_gentools.c`, which
is not under `src/`; section 4.1, bijection mode for `K = 1`: the key of each
row of the range, its value being read with `SF_vdata`, whose failure is
returned. -/
def sf_get_variable_ashash (h : Host) (k in1 N : Nat) (min : Int) : Except Nat (Nat → Nat) :=
  for_loop
    (fun i (ghash : Nat → Nat) =>
      match SF_vdata h k (i + in1) with
      | .error rc => .error rc
      | .ok z => .ok (Function.update ghash i (ashash_key z min)))
    (List.range N) (fun _ => 0)

/-- The stride of column `i` among `K` columns: the product of the ranges
`max - min + 1` of all later columns, in `size_t`. -/
def bijection_stride (K : Nat) (mins maxs : List Int) (i : Nat) : Nat :=
  (List.range' (i + 1) (K - (i + 1))).foldl
    (fun acc c => mul_size_t acc (to_size_t (maxs.getD c 0 - mins.getD c 0 + 1))) 1

/-- Modelled from the spec: `sf_get_varlist_bijection` of `spt/st_gentools.c`,
which is not under `src/`; section 4.1, bijection mode for `K > 1`: "key = Σ
over columns of `(value_i - min_i) * stride_i`, where `stride_i` is the
product of the ranges of all later columns", the columns being the variables
`k1 .. k2` read with `SF_vdata`. A missing by-value contributes `0`. -/
def sf_get_varlist_bijection (h : Host) (k1 k2 in1 N : Nat) (mins maxs : List Int) :
    Except Nat (Nat → Nat) :=
  for_loop
    (fun i (ghash : Nat → Nat) =>
      match for_loop
          (fun c (acc : Nat) =>
            match SF_vdata h (k1 + c) (i + in1) with
            | .error rc => .error rc
            | .ok none => .ok acc
            | .ok (some z) =>
              .ok ((acc + mul_size_t (to_uint64 (z - (mins.getD c 0 : ℚ)))
                (bijection_stride (k2 + 1 - k1) mins maxs c)) % 2 ^ 64))
          (List.range (k2 + 1 - k1)) 0 with
      | .error rc => .error rc
      | .ok key => .ok (Function.update ghash i key))
    (List.range N) (fun _ => 0)

/-- The value of one by-column in one row, as it enters the content hash. -/
inductive ByVal where
  | num (z : Option ST_double)
  | str (s : String)

/-- Modelled from the spec: `sf_get_varlist_hash` and `sf_get_variable_hash` of
`spt/st_gentools.c`, which are not under `src/`; section 4.1, hash mode: "a
128-bit content hash (two 64-bit words) over the concatenated canonical byte
representation of all by-column values for the row". The hash function is the
parameter `hash128`; column `c` is text when `byvars_lens[c] > 0`. -/
def sf_get_varlist_hash (hash128 : List ByVal → Nat × Nat) (h : Host) (k1 k2 in1 N : Nat)
    (byvars_lens : List Int) : Except Nat (Nat → Nat × Nat) :=
  for_loop
    (fun i (ghash : Nat → Nat × Nat) =>
      match for_loop
          (fun c (acc : List ByVal) =>
            if byvars_lens.getD c 0 > 0 then
              match SF_sdata h (k1 + c) (i + in1) with
              | .error rc => .error rc
              | .ok s => .ok (acc ++ [ByVal.str s])
            else
              match SF_vdata h (k1 + c) (i + in1) with
              | .error rc => .error rc
              | .ok z => .ok (acc ++ [ByVal.num z]))
          (List.range (k2 + 1 - k1)) [] with
      | .error rc => .error rc
      | .ok vals => .ok (Function.update ghash i (hash128 vals)))
    (List.range N) (fun _ => (0, 0))

/-- The radix of the sort, `#define RADIX_SHIFT 16`. -/
def RADIX_SHIFT : Nat := 16

/-- The digit of `key` in the window of `shift` bits number `pass`, counted
from the least significant. -/
def radix_digit (shift pass key : Nat) : Nat := (key / 2 ^ (shift * pass)) % 2 ^ shift

/-- Insertion of position `a` in a list of positions ordered by `d`, before the
first position whose digit is not smaller. -/
def stable_insert (d : Nat → Nat) (a : Nat) : List Nat → List Nat
  | [] => [a]
  | b :: l => if d a ≤ d b then a :: b :: l else b :: stable_insert d a l

/-- Modelled from the spec: one pass of `mf_radix_sort_index` of `gtools_sort.c`,
which is not under `src/`; section 4.2: "counting-sort per pass for
stability", a stable sort of the positions by their digit `d`. -/
def counting_sort_pass (d : Nat → Nat) : List Nat → List Nat
  | [] => []
  | a :: l => stable_insert d a (counting_sort_pass d l)

/-- Modelled from the spec: `mf_radix_sort_index` of `gtools_sort.c`, which is not
under `src/`; section 4.2: "stably sort `index[0..N)` (initialized to
`0..N-1`) by key ascending", by an "LSD radix sort over the key's bit width,
processed in fixed-size digit windows ... from least- to most-significant",
with `passes = ceil(key_bits / window_bits)` for 64-bit keys. -/
def mf_radix_sort_index (ghash : Nat → Nat) (N shift : Nat) : List Nat :=
  (List.range ((64 + shift - 1) / shift)).foldl
    (fun index pass => counting_sort_pass (fun i => radix_digit shift pass (ghash i)) index)
    (List.range N)

/-- The scan of the sorted keys after position `i - 1`, whose key is `prev`:
the positions at which the key changes. -/
def panel_scan {κ : Type} [DecidableEq κ] : κ → Nat → List κ → List Nat
  | _, _, [] => []
  | prev, i, k :: ks =>
    if k = prev then panel_scan k (i + 1) ks else i :: panel_scan k (i + 1) ks

/-- Modelled from the spec: `mf_panelsetup` and `mf_panelsetup128` of
`gtools_sort.c`, which are not under `src/`; section 4.3: "single linear scan
of the sorted key sequence; whenever the key changes ... relative to the
previous row, start a new group. Produces `info[0..J]` and `J`. ... Fails only
if `N == 0`". The result is `none` on failure, else `info` and `J`. -/
def mf_panelsetup {κ : Type} [DecidableEq κ] (keys : List κ) : Option (List Nat × Nat) :=
  match keys with
  | [] => none
  | k :: ks =>
    let starts := 0 :: panel_scan k 1 ks
    some (starts ++ [keys.length], starts.length)

/-- Modelled from the spec: the reduction `sum` among those of `mf_switch_fun`
in `gtools_math.c`, which is not under `src/`; section 8: the engine "sums
directly" the entries `buffer[start .. end)`. -/
def mf_sum (buffer : Nat → ST_double) (start end_ : Nat) : ST_double :=
  (List.range' start (end_ - start)).foldl (fun acc i => acc + buffer i) 0

/-! ## The plugin entry point (gcollapse.c, lines 65-698) -/

/-- How a run of `stata_call` ends before its last line: with a `return (rc)`
on the host as it is then, or in an operation that C leaves undefined. -/
inductive Stop where
  | rc (code : Nat) (h : Host)
  | undefined

/-- The result of `stata_call`: the status code returned and the host at that
point, or no defined result. -/
inductive Outcome where
  | returned (rc : Nat) (h : Host)
  | undefined

/-- A host access inside `stata_call`: `if ( (rc = access) ) return (rc);`. -/
def try_host {α : Type} (h : Host) (r : Except Nat α) : Except Stop α :=
  match r with
  | .error rc => .error (Stop.rc rc h)
  | .ok a => .ok a

/-- The array `x[i]` for `i < n` of the `int` casts of the doubles `xs`. -/
def int_array (xs : List ST_double) (n : Nat) : List Int :=
  (List.range n).map (fun i => to_int (xs.getD i 0))

/-- Lines 80-372 of `stata_call`: the parameters, the keys, the sorted order
`index` and the group table `info` with `J`. -/
def stata_setup (hash128 : List ByVal → Nat × Nat) (h : Host) :
    Except Stop (Locals × (Nat → Nat) × (Nat → Nat) × Nat) := do
  let in1 := h.in1
  let in2 := h.in2
  let N := (sub_size_t in2 in1 + 1) % 2 ^ 64
  let byvars_k_int := sf_get_vector_length h "__gtools_byk"
  if byvars_k_int < 0 then throw (Stop.rc 198 h)
  let byvars_k := byvars_k_int.toNat
  let collapse_from := byvars_k + 1
  let _ ← try_host h (SF_scal_use h "__gtools_verbose")
  let _ ← try_host h (SF_scal_use h "__gtools_benchmark")
  let byvars_lens_double ← try_host h (sf_get_vector h "__gtools_byk")
  let byvars_mins_double ← try_host h (sf_get_vector h "__gtools_bymin")
  let byvars_maxs_double ← try_host h (sf_get_vector h "__gtools_bymax")
  let byvars_lens := int_array byvars_lens_double byvars_k
  let byvars_mins := int_array byvars_mins_double byvars_k
  let byvars_maxs := int_array byvars_maxs_double byvars_k
  let byvars_kstr := (byvars_lens.filter (fun l => decide (l > 0))).length
  let byvars_knum := byvars_k - byvars_kstr
  let integers_ok ←
    match integers_ok_check byvars_k byvars_lens byvars_mins byvars_maxs with
    | none => throw Stop.undefined
    | some b => pure b
  let k_targets_double ← try_host h (SF_scal_use h "__gtools_k_targets")
  let _ ← try_host h (SF_scal_use h "__gtools_k_vars")
  let _ ← try_host h (SF_scal_use h "__gtools_k_stats")
  let k_uniq_vars_double ← try_host h (SF_scal_use h "__gtools_k_uniq_vars")
  let _ ← try_host h (SF_scal_use h "__gtools_k_uniq_stats")
  let _ ← try_host h (SF_scal_use h "__gtools_l_targets")
  let _ ← try_host h (SF_scal_use h "__gtools_l_vars")
  let _ ← try_host h (SF_scal_use h "__gtools_l_stats")
  let _ ← try_host h (SF_scal_use h "__gtools_l_uniq_vars")
  let _ ← try_host h (SF_scal_use h "__gtools_l_uniq_stats")
  let k_targets := to_uint64 k_targets_double
  let k_uniq_vars := to_uint64 k_uniq_vars_double
  let _ ← try_host h (SF_macro_use h "_gtools_targets")
  let _ ← try_host h (SF_macro_use h "_gtools_vars")
  let stats ← try_host h (SF_macro_use h "_gtools_stats")
  let _ ← try_host h (SF_macro_use h "_gtools_uniq_vars")
  let _ ← try_host h (SF_macro_use h "_gtools_uniq_stats")
  let targets_from := collapse_from + k_uniq_vars
  let str_from := targets_from + k_targets
  let pos_targets_double ← try_host h (sf_get_vector h "__gtools_outpos")
  let str_byvars_double ←
    if byvars_kstr > 0 then try_host h (sf_get_vector h "__gtools_strpos") else pure []
  let num_byvars_double ←
    if byvars_knum > 0 then try_host h (sf_get_vector h "__gtools_numpos") else pure []
  let p : Locals :=
    { collapse_from := collapse_from
      k_uniq_vars := k_uniq_vars
      k_targets := k_targets
      targets_from := targets_from
      str_from := str_from
      byvars_kstr := byvars_kstr
      byvars_knum := byvars_knum
      pos_targets := fun k => to_size_t (to_int (pos_targets_double.getD k 0))
      str_byvars := fun k => to_size_t (to_int (str_byvars_double.getD k 0))
      num_byvars := fun k => to_size_t (to_int (num_byvars_double.getD k 0))
      stat := fun k => stats.getD k "" }
  if integers_ok then
    let ghash1 ←
      if byvars_k > 1 then
        try_host h (sf_get_varlist_bijection h 1 byvars_k in1 N byvars_mins byvars_maxs)
      else try_host h (sf_get_variable_ashash h 1 in1 N (byvars_mins.getD 0 0))
    let index := mf_radix_sort_index ghash1 N RADIX_SHIFT
    match mf_panelsetup (index.map ghash1) with
    | none => throw Stop.undefined
    | some (info, J) => pure (p, fun i => index.getD i 0, fun j => info.getD j 0, J)
  else
    let ghash ← try_host h (sf_get_varlist_hash hash128 h 1 byvars_k in1 N byvars_lens)
    let index := mf_radix_sort_index (fun i => (ghash i).1) N RADIX_SHIFT
    match mf_panelsetup (index.map ghash) with
    | none => throw Stop.undefined
    | some (info, J) => pure (p, fun i => index.getD i 0, fun j => info.getD j 0, J)

/-- The plugin entry point `stata_call`. The numeric reductions of
`gtools_math.c` and the 128-bit hash of `gtools_hash.c` are the parameters
`mf_switch_fun` and `hash128`; printing and timing are left out. -/
def stata_call (mf_switch_fun : String → (Nat → ST_double) → Nat → Nat → ST_double)
    (hash128 : List ByVal → Nat × Nat) (h : Host) : Outcome :=
  match stata_setup hash128 h with
  | .error (Stop.rc rc h') => Outcome.returned rc h'
  | .error Stop.undefined => Outcome.undefined
  | .ok (p, index, info, J) =>
    Outcome.returned (collapse_data mf_switch_fun p index info J h).1
      (collapse_data mf_switch_fun p index info J h).2

/-! ## Reference implementation: grouping with a mapping and summing directly -/

/-- By-values of the six-row example, `[1,1,2,2,3,3]`. -/
def ex_by : List (Option ST_double) := [some 1, some 1, some 2, some 2, some 3, some 3]

/-- Source values of the six-row example, `[10,20,5,5,100,0]`. -/
def ex_src : List (Option ST_double) := [some 10, some 20, some 5, some 5, some 100, some 0]

/-- Source values with the two rows of the second group missing. -/
def ex_src_missing : List (Option ST_double) := [some 10, some 20, none, none, some 100, some 0]

/-- A host whose rows `1..6` hold `ex_by` in variable `1` and `src` in
variable `2`, whose parameters describe one integer by-variable with values in
`1..3` and one target with statistic `sum`, and all of whose accesses
succeed. -/
def ex_host (src : List (Option ST_double)) : Host where
  in1 := 1
  in2 := 6
  vec_len := fun _ => 1
  vec_rc := fun _ => 0
  vec := fun name =>
    if name = "__gtools_byk" then [-1]
    else if name = "__gtools_bymin" then [1]
    else if name = "__gtools_bymax" then [3]
    else if name = "__gtools_outpos" then [0]
    else if name = "__gtools_numpos" then [1]
    else []
  scal_rc := fun _ => 0
  scal := fun name =>
    if name = "__gtools_k_targets" then 1
    else if name = "__gtools_k_uniq_vars" then 1
    else 0
  text_rc := fun _ => 0
  text := fun name => if name = "_gtools_stats" then ["sum"] else []
  vdata_rc := fun _ _ => 0
  num := fun var obs =>
    if var = 1 then ex_by.getD (obs - 1) none
    else if var = 2 then src.getD (obs - 1) none
    else none
  vstore_rc := fun _ _ => 0
  sdata_rc := fun _ _ => 0
  str := fun _ _ => ""
  sstore_rc := fun _ _ => 0
  scal_save_rc := fun _ => 0
  saved := fun _ => none

/-- The sorted order of the six-row example: the identity. -/
def ex_index : Nat → Nat := fun i => i

/-- The group table of the six-row example: `[0, 2, 4, 6]`. -/
def ex_info : Nat → Nat := fun j => 2 * j

/-- A numeric reduction that is never looked at. -/
def ex_mf : String → (Nat → ST_double) → Nat → Nat → ST_double := fun _ _ _ _ => 0

/-- The numeric reductions, with `mf_sum` for every statistic. -/
def ex_mf_sum : String → (Nat → ST_double) → Nat → Nat → ST_double :=
  fun _ buffer start end_ => mf_sum buffer start end_

/-- A hash that is never looked at. -/
def ex_hash128 : List ByVal → Nat × Nat := fun _ => (0, 0)

/-- The value of source variable `v` in the row visited at position `i` of the
sorted order. -/
def cell_val (h : Host) (index : Nat → Nat) (collapse_from v i : Nat) : Option ST_double :=
  h.num (v + collapse_from) (index i + h.in1)

/-- The positions `info[j] .. info[j+1]` of group `j` in `index`, in visitation
order. -/
def group_positions (info : Nat → Nat) (j : Nat) : List Nat :=
  List.range' (info j) (info (j + 1) - info j)

/-- The non-missing values of source variable `v` over group `j`, in visitation
order. -/
def group_values (h : Host) (index info : Nat → Nat) (collapse_from v j : Nat) :
    List ST_double :=
  (group_positions info j).filterMap (cell_val h index collapse_from v)

/-- The slice `all_buffer[start .. start + end)` as a list. -/
def buffer_slice (all_buffer : Nat → ST_double) (start end_ : Nat) : List ST_double :=
  (List.range end_).map (fun t => all_buffer (start + t))

/-- The group table is well formed: `info[0] = 0` and `info` is non-decreasing
over the `J` groups. -/
def info_ok (info : Nat → Nat) (J : Nat) : Prop :=
  info 0 = 0 ∧ ∀ j, j < J → info j ≤ info (j + 1)

/-- Every numeric read of the gather pass succeeds. -/
def gather_reads_ok (h : Host) (index info : Nat → Nat) (collapse_from k_uniq_vars J : Nat) :
    Prop :=
  ∀ j, j < J → ∀ i, info j ≤ i → i < info (j + 1) → ∀ k, k < k_uniq_vars →
    h.vdata_rc (k + collapse_from) (index i + h.in1) = 0

/-! ## Invariants and reference notions used in the proofs -/

/-- The slots of one group hold the lists `L v`: for every variable `v` the
count is the length of `L v` and the first entries of the slot are `L v`. -/
def SlotsInv (g : Gather) (ob os nj ku : Nat) (L : Nat → List ST_double) : Prop :=
  ∀ v, v < ku → g.all_nonmiss (os + v) = (L v).length ∧
    ∀ t, t < (L v).length → g.all_buffer (ob + nj * v + t) = (L v).getD t 0

/-- Nothing outside the slots of one group differs between `g0` and `g`. -/
def FrameInv (g0 g : Gather) (ob os nj ku : Nat) : Prop :=
  g.offset_buffer = g0.offset_buffer ∧ g.offset_source = g0.offset_source ∧
  g.offsets_buffer = g0.offsets_buffer ∧
  (∀ x, (x < ob ∨ ob + nj * ku ≤ x) → g.all_buffer x = g0.all_buffer x) ∧
  (∀ x, (x < os ∨ os + ku ≤ x) → g.all_nonmiss x = g0.all_nonmiss x)

/-- The flags of `t` are those of `g` together with the flags raised for the
row `r` (when `hit` holds) on the variables `v < m` of the group at `os`. -/
def FlagsInv (miss0 miss : Nat → Bool) (os m : Nat) (hit : Prop) (c : Nat → Option ST_double) :
    Prop :=
  ∀ x, miss x = true ↔ (miss0 x = true ∨ (hit ∧ os ≤ x ∧ x < os + m ∧ c (x - os) = none))

/-- What the gather pass has established once the groups `j' < j` are done. -/
structure OuterInv (h : Host) (index info : Nat → Nat) (cf ku : Nat) (j : Nat) (g : Gather) :
    Prop where
  offset_buffer : g.offset_buffer = info j * ku
  offset_source : g.offset_source = j * ku
  offsets : ∀ j', j' < j → g.offsets_buffer j' = info j' * ku
  count : ∀ j' v, j' < j → v < ku →
    g.all_nonmiss (j' * ku + v) = (group_values h index info cf v j').length
  values : ∀ j' v t, j' < j → v < ku → t < (group_values h index info cf v j').length →
    g.all_buffer (info j' * ku + (info (j' + 1) - info j') * v + t)
      = (group_values h index info cf v j').getD t 0
  firstmiss : ∀ j' v, j' < j → v < ku →
    (g.all_firstmiss (j' * ku + v) = true ↔
      (info j' < info (j' + 1) ∧ cell_val h index cf v (info j') = none))
  lastmiss : ∀ j' v, j' < j → v < ku →
    (g.all_lastmiss (j' * ku + v) = true ↔
      (info j' < info (j' + 1) ∧ cell_val h index cf v (info (j' + 1) - 1) = none))
  fresh : ∀ x, j * ku ≤ x →
    g.all_nonmiss x = 0 ∧ g.all_firstmiss x = false ∧ g.all_lastmiss x = false

/-- The result of the reducer body for target `k` of group `j`, run on the
freshly initialised `output` and `outmiss`. -/
def target_entry (mf_switch_fun : String → (Nat → ST_double) → Nat → Nat → ST_double)
    (stat : Nat → String) (pos_targets : Nat → Nat) (info : Nat → Nat) (g : Gather)
    (k_targets k_uniq_vars : Nat) (j k : Nat) : Output :=
  reduce_target mf_switch_fun stat pos_targets g (j * k_targets) (j * k_uniq_vars)
    (g.offsets_buffer j) (info (j + 1) - info j) k Output.init

/-- The group table `info[0..J]` of a key sequence: it starts at `0`, is strictly
increasing and ends at the number of rows; the key is constant on every
group and changes at every group start after the first. -/
structure PanelOk (K : List Nat) (info : Nat → Nat) (J : Nat) : Prop where
  pos : 0 < J
  zero : info 0 = 0
  last : info J = K.length
  strict : ∀ j, j < J → info j < info (j + 1)
  const : ∀ j, j < J → ∀ i, info j ≤ i → i < info (j + 1) → K.getD i 0 = K.getD (info j) 0
  change : ∀ j, j + 1 < J → K.getD (info (j + 1)) 0 ≠ K.getD (info (j + 1) - 1) 0

/-- Every data access of the host succeeds. -/
def accesses_ok (h : Host) : Prop :=
  (∀ i j, h.vdata_rc i j = 0) ∧ (∀ i j, h.vstore_rc i j = 0)
    ∧ (∀ i j, h.sdata_rc i j = 0) ∧ (∀ i j, h.sstore_rc i j = 0)

/-- The host `h'` gives the same return codes as `h` and has the same saved
scalars. -/
def same_codes (h h' : Host) : Prop :=
  h'.vdata_rc = h.vdata_rc ∧ h'.vstore_rc = h.vstore_rc ∧ h'.sdata_rc = h.sdata_rc
    ∧ h'.sstore_rc = h.sstore_rc ∧ h'.scal_save_rc = h.scal_save_rc ∧ h'.saved = h.saved

/-- A call of the plugin interface that gives a status code: the fetch of a
scalar, array or text parameter, the read or write of a cell, the save of a
scalar. `SF_in1`, `SF_in2` and `sf_get_vector_length`, which give no status
code, are the first three calls of `stata_call` and are not listed. -/
inductive Access where
  | scal_use (name : String)
  | get_vector (name : String)
  | macro_use (name : String)
  | vdata (i j : Nat)
  | sdata (i j : Nat)
  | vstore (i j : Nat) (z : Option ST_double)
  | sstore (i j : Nat) (s : String)
  | scal_save (name : String) (z : ST_double)

/-- The status code the host gives to an access. -/
def Access.status (h : Host) : Access → Nat
  | .scal_use name => h.scal_rc name
  | .get_vector name => h.vec_rc name
  | .macro_use name => h.text_rc name
  | .vdata i j => h.vdata_rc i j
  | .sdata i j => h.sdata_rc i j
  | .vstore i j _ => h.vstore_rc i j
  | .sstore i j _ => h.sstore_rc i j
  | .scal_save name _ => h.scal_save_rc name

/-- The access is the save of a scalar. -/
def Access.is_save : Access → Bool
  | .scal_save _ _ => true
  | _ => false

/-- The access is a write to the host: a cell store or the save of a scalar. -/
def Access.is_write : Access → Bool
  | .vstore _ _ _ => true
  | .sstore _ _ _ => true
  | .scal_save _ _ => true
  | _ => false

/-- The host after an access: a write that the host accepts (status `0`) takes
effect, anything else leaves the host as it is. -/
def Access.effect (h : Host) (a : Access) : Host :=
  if a.status h = 0 then
    match a with
    | .vstore i j z => { h with num := Function.update h.num i (Function.update (h.num i) j z) }
    | .sstore i j s => { h with str := Function.update h.str i (Function.update (h.str i) j s) }
    | .scal_save name z => { h with saved := Function.update h.saved name (some z) }
    | _ => h
  else h

/-- The host after the accesses of a log, made in order. -/
def replay (log : List Access) (h : Host) : Host := log.foldl Access.effect h

/-- A piece of `stata_call` that makes host accesses: from the log of the
accesses made so far, it stops (with the log at that point) or gives a value
and the log extended by its own accesses. -/
abbrev Traced (α : Type) : Type := StateT (List Access) (Except (Stop × List Access)) α

/-- A host access inside `stata_call`, `if ( (rc = access) ) return (rc);`,
with the access `a` entered in the log. -/
def try_host_log {α : Type} (h : Host) (a : Access) (r : Except Nat α) : Traced α :=
  fun log =>
    match r with
    | .error rc => .error (Stop.rc rc h, log ++ [a])
    | .ok x => .ok (x, log ++ [a])

/-- The end of the run at this point, with the log as it is. -/
def stop_log {α : Type} (s : Stop) : Traced α := fun log => .error (s, log)

/-- The result of a traced piece of code without its log. -/
def unlog {ε σ : Type} (r : Except (ε × List Access) (σ × List Access)) : Except ε σ :=
  match r with
  | .error e => .error e.1
  | .ok s => .ok s.1

/-- One step of a loop that makes the single access `a`: the result `r` of the
step, with `a` entered in the log. -/
def traced {ε σ : Type} (a : Access) (r : Except ε σ) (log : List Access) :
    Except (ε × List Access) (σ × List Access) :=
  match r with
  | .error e => .error (e, log ++ [a])
  | .ok s => .ok (s, log ++ [a])

/-- A call inside `stata_call` of a function that makes host accesses,
`if ( (rc = f (...)) ) return (rc);`, with the log of the accesses of `f`. -/
def try_call_log {α : Type} (h : Host)
    (r : List Access → Except (Nat × List Access) (α × List Access)) : Traced α :=
  fun log =>
    match r log with
    | .error e => .error (Stop.rc e.1 h, e.2)
    | .ok x => .ok x

/-- The accesses of `sf_get_variable_ashash`: one `SF_vdata` per row. -/
def sf_get_variable_ashash_log (h : Host) (k in1 N : Nat) (min : Int) (log : List Access) :
    Except (Nat × List Access) ((Nat → Nat) × List Access) :=
  for_loop
    (fun i (s : (Nat → Nat) × List Access) =>
      traced (Access.vdata k (i + in1))
        (match SF_vdata h k (i + in1) with
        | .error rc => .error rc
        | .ok z => .ok (Function.update s.1 i (ashash_key z min)))
        s.2)
    (List.range N) (fun _ => 0, log)

/-- The accesses of `sf_get_varlist_bijection`: one `SF_vdata` per row and
column. -/
def sf_get_varlist_bijection_log (h : Host) (k1 k2 in1 N : Nat) (mins maxs : List Int)
    (log : List Access) : Except (Nat × List Access) ((Nat → Nat) × List Access) :=
  for_loop
    (fun i (s : (Nat → Nat) × List Access) =>
      match for_loop
          (fun c (t : Nat × List Access) =>
            traced (Access.vdata (k1 + c) (i + in1))
              (match SF_vdata h (k1 + c) (i + in1) with
              | .error rc => .error rc
              | .ok none => .ok t.1
              | .ok (some z) =>
                .ok ((t.1 + mul_size_t (to_uint64 (z - (mins.getD c 0 : ℚ)))
                  (bijection_stride (k2 + 1 - k1) mins maxs c)) % 2 ^ 64))
              t.2)
          (List.range (k2 + 1 - k1)) (0, s.2) with
      | .error e => .error e
      | .ok t => .ok (Function.update s.1 i t.1, t.2))
    (List.range N) (fun _ => 0, log)

/-- The accesses of `sf_get_varlist_hash`: per row and column one `SF_sdata`
for a text column, one `SF_vdata` for a numeric one. -/
def sf_get_varlist_hash_log (hash128 : List ByVal → Nat × Nat) (h : Host) (k1 k2 in1 N : Nat)
    (byvars_lens : List Int) (log : List Access) :
    Except (Nat × List Access) ((Nat → Nat × Nat) × List Access) :=
  for_loop
    (fun i (s : (Nat → Nat × Nat) × List Access) =>
      match for_loop
          (fun c (t : List ByVal × List Access) =>
            if byvars_lens.getD c 0 > 0 then
              traced (Access.sdata (k1 + c) (i + in1))
                (match SF_sdata h (k1 + c) (i + in1) with
                | .error rc => .error rc
                | .ok s => .ok (t.1 ++ [ByVal.str s]))
                t.2
            else
              traced (Access.vdata (k1 + c) (i + in1))
                (match SF_vdata h (k1 + c) (i + in1) with
                | .error rc => .error rc
                | .ok z => .ok (t.1 ++ [ByVal.num z]))
                t.2)
          (List.range (k2 + 1 - k1)) ([], s.2) with
      | .error e => .error e
      | .ok t => .ok (Function.update s.1 i (hash128 t.1), t.2))
    (List.range N) (fun _ => (0, 0), log)

/-- Lines 80-372 of `stata_call` with the log of the accesses made: the text
of `stata_setup`, each access entered in the log when it is made. -/
def stata_setup_log (hash128 : List ByVal → Nat × Nat) (h : Host) :
    Traced (Locals × (Nat → Nat) × (Nat → Nat) × Nat) := do
  let in1 := h.in1
  let in2 := h.in2
  let N := (sub_size_t in2 in1 + 1) % 2 ^ 64
  let byvars_k_int := sf_get_vector_length h "__gtools_byk"
  if byvars_k_int < 0 then stop_log (Stop.rc 198 h)
  let byvars_k := byvars_k_int.toNat
  let collapse_from := byvars_k + 1
  let _ ← try_host_log h (Access.scal_use "__gtools_verbose") (SF_scal_use h "__gtools_verbose")
  let _ ← try_host_log h (Access.scal_use "__gtools_benchmark")
    (SF_scal_use h "__gtools_benchmark")
  let byvars_lens_double ← try_host_log h (Access.get_vector "__gtools_byk")
    (sf_get_vector h "__gtools_byk")
  let byvars_mins_double ← try_host_log h (Access.get_vector "__gtools_bymin")
    (sf_get_vector h "__gtools_bymin")
  let byvars_maxs_double ← try_host_log h (Access.get_vector "__gtools_bymax")
    (sf_get_vector h "__gtools_bymax")
  let byvars_lens := int_array byvars_lens_double byvars_k
  let byvars_mins := int_array byvars_mins_double byvars_k
  let byvars_maxs := int_array byvars_maxs_double byvars_k
  let byvars_kstr := (byvars_lens.filter (fun l => decide (l > 0))).length
  let byvars_knum := byvars_k - byvars_kstr
  let integers_ok ←
    match integers_ok_check byvars_k byvars_lens byvars_mins byvars_maxs with
    | none => stop_log Stop.undefined
    | some b => pure b
  let k_targets_double ← try_host_log h (Access.scal_use "__gtools_k_targets")
    (SF_scal_use h "__gtools_k_targets")
  let _ ← try_host_log h (Access.scal_use "__gtools_k_vars") (SF_scal_use h "__gtools_k_vars")
  let _ ← try_host_log h (Access.scal_use "__gtools_k_stats") (SF_scal_use h "__gtools_k_stats")
  let k_uniq_vars_double ← try_host_log h (Access.scal_use "__gtools_k_uniq_vars")
    (SF_scal_use h "__gtools_k_uniq_vars")
  let _ ← try_host_log h (Access.scal_use "__gtools_k_uniq_stats")
    (SF_scal_use h "__gtools_k_uniq_stats")
  let _ ← try_host_log h (Access.scal_use "__gtools_l_targets")
    (SF_scal_use h "__gtools_l_targets")
  let _ ← try_host_log h (Access.scal_use "__gtools_l_vars") (SF_scal_use h "__gtools_l_vars")
  let _ ← try_host_log h (Access.scal_use "__gtools_l_stats") (SF_scal_use h "__gtools_l_stats")
  let _ ← try_host_log h (Access.scal_use "__gtools_l_uniq_vars")
    (SF_scal_use h "__gtools_l_uniq_vars")
  let _ ← try_host_log h (Access.scal_use "__gtools_l_uniq_stats")
    (SF_scal_use h "__gtools_l_uniq_stats")
  let k_targets := to_uint64 k_targets_double
  let k_uniq_vars := to_uint64 k_uniq_vars_double
  let _ ← try_host_log h (Access.macro_use "_gtools_targets") (SF_macro_use h "_gtools_targets")
  let _ ← try_host_log h (Access.macro_use "_gtools_vars") (SF_macro_use h "_gtools_vars")
  let stats ← try_host_log h (Access.macro_use "_gtools_stats") (SF_macro_use h "_gtools_stats")
  let _ ← try_host_log h (Access.macro_use "_gtools_uniq_vars")
    (SF_macro_use h "_gtools_uniq_vars")
  let _ ← try_host_log h (Access.macro_use "_gtools_uniq_stats")
    (SF_macro_use h "_gtools_uniq_stats")
  let targets_from := collapse_from + k_uniq_vars
  let str_from := targets_from + k_targets
  let pos_targets_double ← try_host_log h (Access.get_vector "__gtools_outpos")
    (sf_get_vector h "__gtools_outpos")
  let str_byvars_double ←
    if byvars_kstr > 0 then
      try_host_log h (Access.get_vector "__gtools_strpos") (sf_get_vector h "__gtools_strpos")
    else pure []
  let num_byvars_double ←
    if byvars_knum > 0 then
      try_host_log h (Access.get_vector "__gtools_numpos") (sf_get_vector h "__gtools_numpos")
    else pure []
  let p : Locals :=
    { collapse_from := collapse_from
      k_uniq_vars := k_uniq_vars
      k_targets := k_targets
      targets_from := targets_from
      str_from := str_from
      byvars_kstr := byvars_kstr
      byvars_knum := byvars_knum
      pos_targets := fun k => to_size_t (to_int (pos_targets_double.getD k 0))
      str_byvars := fun k => to_size_t (to_int (str_byvars_double.getD k 0))
      num_byvars := fun k => to_size_t (to_int (num_byvars_double.getD k 0))
      stat := fun k => stats.getD k "" }
  if integers_ok then
    let ghash1 ←
      if byvars_k > 1 then
        try_call_log h
          (sf_get_varlist_bijection_log h 1 byvars_k in1 N byvars_mins byvars_maxs)
      else try_call_log h (sf_get_variable_ashash_log h 1 in1 N (byvars_mins.getD 0 0))
    let index := mf_radix_sort_index ghash1 N RADIX_SHIFT
    match mf_panelsetup (index.map ghash1) with
    | none => stop_log Stop.undefined
    | some (info, J) => pure (p, fun i => index.getD i 0, fun j => info.getD j 0, J)
  else
    let ghash ← try_call_log h (sf_get_varlist_hash_log hash128 h 1 byvars_k in1 N byvars_lens)
    let index := mf_radix_sort_index (fun i => (ghash i).1) N RADIX_SHIFT
    match mf_panelsetup (index.map ghash) with
    | none => stop_log Stop.undefined
    | some (info, J) => pure (p, fun i => index.getD i 0, fun j => info.getD j 0, J)

/-- The accesses of `gather_row`: one `SF_vdata` per source variable. -/
def gather_row_log (h : Host) (index : Nat → Nat) (collapse_from k_uniq_vars start end_ nj : Nat)
    (i : Nat) (s : Gather × List Access) : Except (Nat × List Access) (Gather × List Access) :=
  for_loop
    (fun k (s : Gather × List Access) =>
      traced (Access.vdata (k + collapse_from) (index i + h.in1))
        (gather_cell h collapse_from (index i + h.in1) i start end_ nj k s.1) s.2)
    (List.range k_uniq_vars) s

/-- The accesses of `gather_group`: those of its rows, in order. -/
def gather_group_log (h : Host) (index info : Nat → Nat) (collapse_from k_uniq_vars : Nat)
    (j : Nat) (s : Gather × List Access) : Except (Nat × List Access) (Gather × List Access) :=
  let start := info j
  let end_ := info (j + 1)
  let nj := end_ - start
  match for_loop (gather_row_log h index collapse_from k_uniq_vars start end_ nj)
      (List.range' start (end_ - start)) s with
  | .error e => .error e
  | .ok s' =>
    .ok ({ s'.1 with
      offsets_buffer := Function.update s'.1.offsets_buffer j s'.1.offset_buffer
      offset_buffer := s'.1.offset_buffer + nj * k_uniq_vars
      offset_source := s'.1.offset_source + k_uniq_vars }, s'.2)

/-- The gather pass with the log of its accesses. -/
def gather_log (h : Host) (index info : Nat → Nat) (collapse_from k_uniq_vars J : Nat)
    (log : List Access) : Except (Nat × List Access) (Gather × List Access) :=
  for_loop (gather_group_log h index info collapse_from k_uniq_vars) (List.range J)
    (Gather.init, log)

/-- The accesses of `byread_str`: `SF_sdata`, then `SF_sstore` of the text
read. -/
def byread_str_log (in1 : Nat) (index info str_byvars : Nat → Nat) (str_from j : Nat) (k : Nat)
    (s : ByRead × List Access) : Except ((Nat × Host) × List Access) (ByRead × List Access) :=
  match SF_sdata s.1.host (str_byvars k) (index (info j) + in1) with
  | .error rc =>
    .error ((rc, s.1.host), s.2 ++ [Access.sdata (str_byvars k) (index (info j) + in1)])
  | .ok x =>
    traced (Access.sstore (k + str_from) (j + 1) x)
      (byread_str in1 index info str_byvars str_from j k s.1)
      (s.2 ++ [Access.sdata (str_byvars k) (index (info j) + in1)])

/-- The accesses of `byread_group`: those of the text by-variables, then one
`SF_vdata` per numeric by-variable. -/
def byread_group_log (in1 : Nat) (index info str_byvars num_byvars : Nat → Nat)
    (str_from byvars_kstr byvars_knum : Nat) (j : Nat) (s : ByRead × List Access) :
    Except ((Nat × Host) × List Access) (ByRead × List Access) :=
  match for_loop (byread_str_log in1 index info str_byvars str_from j)
      (List.range byvars_kstr) s with
  | .error e => .error e
  | .ok s1 =>
    match for_loop
        (fun k (s : ByRead × List Access) =>
          traced (Access.vdata (num_byvars k) (index (info j) + in1))
            (byread_num in1 index info num_byvars j k s.1) s.2)
        (List.range byvars_knum) s1 with
    | .error e => .error e
    | .ok s2 => .ok ({ s2.1 with offset_bynum := s2.1.offset_bynum + byvars_knum }, s2.2)

/-- The loop of lines 558-575 with the log of its accesses. -/
def byread_log (in1 : Nat) (index info str_byvars num_byvars : Nat → Nat)
    (str_from byvars_kstr byvars_knum J : Nat) (h : Host) (log : List Access) :
    Except ((Nat × Host) × List Access) (ByRead × List Access) :=
  for_loop
    (byread_group_log in1 index info str_byvars num_byvars str_from byvars_kstr byvars_knum)
    (List.range J)
    ({ host := h, bynum := fun _ => 0, bymiss := fun _ => false, offset_bynum := 0, s := "" },
      log)

/-- The value stored for target `k` by `store_target`. -/
def store_target_value (stat : Nat → String) (pos_targets nmfreq : Nat → Nat)
    (outmiss : Nat → Bool) (k : Nat) (t : Store) : Option ST_double :=
  if outmiss (t.offset + k) then none
  else if mf_strcmp_wrapper (stat k) "percent" then
    some (t.output (t.offset + k) / (nmfreq (pos_targets k) : ℚ))
  else some (t.output (t.offset + k))

/-- The accesses of `store_str`: `SF_sdata`, then `SF_sstore` of the text
read. -/
def store_str_log (str_byvars : Nat → Nat) (str_from j : Nat) (k : Nat)
    (s : Store × List Access) : Except ((Nat × Host) × List Access) (Store × List Access) :=
  match SF_sdata s.1.host (k + str_from) (j + 1) with
  | .error rc => .error ((rc, s.1.host), s.2 ++ [Access.sdata (k + str_from) (j + 1)])
  | .ok x =>
    traced (Access.sstore (str_byvars k) (j + 1) x) (store_str str_byvars str_from j k s.1)
      (s.2 ++ [Access.sdata (k + str_from) (j + 1)])

/-- The accesses of `store_group`: one `SF_vstore` per target, those of the
text by-variables, one `SF_vstore` per numeric by-variable. -/
def store_group_log (stat : Nat → String) (pos_targets nmfreq str_byvars num_byvars : Nat → Nat)
    (outmiss : Nat → Bool) (bynum : Nat → ST_double) (bymiss : Nat → Bool)
    (targets_from str_from k_targets byvars_kstr byvars_knum : Nat) (j : Nat)
    (s : Store × List Access) : Except ((Nat × Host) × List Access) (Store × List Access) :=
  match for_loop
      (fun k (s : Store × List Access) =>
        traced
          (Access.vstore (k + targets_from) (j + 1)
            (store_target_value stat pos_targets nmfreq outmiss k s.1))
          (store_target stat pos_targets nmfreq outmiss targets_from j k s.1) s.2)
      (List.range k_targets) s with
  | .error e => .error e
  | .ok s1 =>
    match for_loop (store_str_log str_byvars str_from j) (List.range byvars_kstr) s1 with
    | .error e => .error e
    | .ok s2 =>
      match for_loop
          (fun k (s : Store × List Access) =>
            traced
              (Access.vstore (num_byvars k) (j + 1)
                (if bymiss (s.1.offset_bynum + k) then none
                  else some (bynum (s.1.offset_bynum + k))))
              (store_num num_byvars bynum bymiss j k s.1) s.2)
          (List.range byvars_knum) s2 with
      | .error e => .error e
      | .ok s3 =>
        .ok ({ s3.1 with
          offset := s3.1.offset + k_targets
          offset_bynum := s3.1.offset_bynum + byvars_knum }, s3.2)

/-- The loop of lines 671-688 with the log of its accesses. -/
def store_log (stat : Nat → String) (pos_targets nmfreq str_byvars num_byvars : Nat → Nat)
    (o : Output) (bynum : Nat → ST_double) (bymiss : Nat → Bool)
    (targets_from str_from k_targets byvars_kstr byvars_knum J : Nat) (s : String) (h : Host)
    (log : List Access) : Except ((Nat × Host) × List Access) (Store × List Access) :=
  for_loop
    (store_group_log stat pos_targets nmfreq str_byvars num_byvars o.outmiss bynum bymiss
      targets_from str_from k_targets byvars_kstr byvars_knum)
    (List.range J)
    ({ host := h, output := o.output, offset := 0, offset_bynum := 0, s := s }, log)

/-- Lines 374-697 of `stata_call` with the log of the accesses made: the text
of `collapse_data`, each access entered in the log when it is made. -/
def collapse_data_log (mf_switch_fun : String → (Nat → ST_double) → Nat → Nat → ST_double)
    (p : Locals) (index info : Nat → Nat) (J : Nat) (h : Host) (log : List Access) :
    (Nat × Host) × List Access :=
  match gather_log h index info p.collapse_from p.k_uniq_vars J log with
  | .error e => ((e.1, h), e.2)
  | .ok g =>
    let nmfreq := nmfreq_of g.1.all_nonmiss p.k_uniq_vars J
    let o := reduce mf_switch_fun p.stat p.pos_targets info g.1 p.k_targets p.k_uniq_vars J
    match byread_log h.in1 index info p.str_byvars p.num_byvars p.str_from p.byvars_kstr
        p.byvars_knum J h g.2 with
    | .error e => e
    | .ok b =>
      match store_log p.stat p.pos_targets nmfreq p.str_byvars p.num_byvars o b.1.bynum
          b.1.bymiss p.targets_from p.str_from p.k_targets p.byvars_kstr p.byvars_knum J b.1.s
          b.1.host b.2 with
      | .error e => e
      | .ok t =>
        match SF_scal_save t.1.host "__gtools_J" (J : ℚ) with
        | .error _ => ((0, t.1.host), t.2 ++ [Access.scal_save "__gtools_J" (J : ℚ)])
        | .ok h' => ((0, h'), t.2 ++ [Access.scal_save "__gtools_J" (J : ℚ)])

/-- The plugin entry point with the log of the host accesses it makes, in the
order in which it makes them. -/
def stata_call_log (mf_switch_fun : String → (Nat → ST_double) → Nat → Nat → ST_double)
    (hash128 : List ByVal → Nat × Nat) (h : Host) : Outcome × List Access :=
  match stata_setup_log hash128 h [] with
  | .error (Stop.rc rc h', log) => (Outcome.returned rc h', log)
  | .error (Stop.undefined, log) => (Outcome.undefined, log)
  | .ok ((p, index, info, J), log) =>
    (Outcome.returned (collapse_data_log mf_switch_fun p index info J h log).1.1
      (collapse_data_log mf_switch_fun p index info J h log).1.2,
      (collapse_data_log mf_switch_fun p index info J h log).2)

/-! ## Properties of a log of accesses -/

/-- Every access of the log succeeded on the host `h0`, and none is the save
of a scalar. -/
def AllOk (h0 : Host) (log : List Access) : Prop :=
  ∀ a ∈ log, a.status h0 = 0 ∧ a.is_save = false

/-- The log ends with an access that failed with status `rc`; the accesses
before it all succeeded, and no access of the log is the save of a scalar. -/
def Fails (h0 : Host) (rc : Nat) (log : List Access) : Prop :=
  ∃ pre a, log = pre ++ [a] ∧ AllOk h0 pre ∧ a.is_save = false ∧ a.status h0 = rc ∧ rc ≠ 0

/-- A property of the result of a piece of code: `Err` of what it stops with,
`Inv` of what it gives. -/
def Post {ε σ : Type} (Err : ε → Prop) (Inv : σ → Prop) : Except ε σ → Prop
  | .error e => Err e
  | .ok s => Inv s

/-- What holds of a traced piece of lines 80-372, run on the host `h0`: a
value comes with a log of successful accesses; a `return (rc)` leaves the host
as it is and comes with a log that ends in the access that failed with `rc`,
or is the `return (198)` of line 88; an undefined operation comes with a log
of successful accesses. -/
def SetupPost {α : Type} (h0 : Host) : Except (Stop × List Access) (α × List Access) → Prop
  | .ok s => AllOk h0 s.2 ∧ h0 = replay s.2 h0
  | .error (Stop.rc rc h', log) =>
    h' = h0 ∧ h0 = replay log h0 ∧ (Fails h0 rc log ∨ (rc = 198 ∧ AllOk h0 log))
  | .error (Stop.undefined, log) => AllOk h0 log

/-- The traced code `m`, run on the host `h0`, gives the result `e` whatever
the log it starts from, and its log is as `SetupPost` says. -/
structure Sim {α : Type} (h0 : Host) (m : Traced α) (e : Except Stop α) : Prop where
  run : ∀ log, unlog (m log) = e
  post : ∀ log, AllOk h0 log → h0 = replay log h0 → SetupPost h0 (m log)

/-- What holds of a run of `stata_call` on the host `h0` and of the log of its
accesses. When the run returns, the host is the entry host after the accesses
of the log, and one of three holds: the log ends in the access that failed
with the status returned; or the status is the `198` of line 88 and every
access succeeded; or the status is `0`, the log ends in the save of
`__gtools_J` and every access before it succeeded. When the run has no
defined result, every access of the log succeeded. -/
def CallPost (h0 : Host) : Outcome × List Access → Prop
  | (Outcome.returned rc h', log) =>
    h' = replay log h0
      ∧ (Fails h0 rc log ∨ (rc = 198 ∧ AllOk h0 log)
        ∨ (rc = 0 ∧ ∃ pre z, log = pre ++ [Access.scal_save "__gtools_J" z] ∧ AllOk h0 pre))
  | (Outcome.undefined, log) => AllOk h0 log

/-! ## Example hosts for the failure cases -/

/-- The six-row example on a host that refuses the fetch of the scalar
`__gtools_k_targets` with status `7`. -/
def ex_host_fetch_fails : Host :=
  { ex_host ex_src with
    scal_rc := fun name => if name = "__gtools_k_targets" then 7 else 0 }

/-- A hash of the by-values of a row for the examples: the numerator of a sole
numeric by-value. -/
def ex_hash_num : List ByVal → Nat × Nat
  | [ByVal.num (some z)] => (z.num.toNat, 0)
  | _ => (0, 0)

/-- The six-row example with the by-variable announced as a non-integer
numeric variable (length entry `0`), so that hash mode is used, on a host that
accepts every access but the store of the by-value of the first group,
`SF_vstore (1, 1, .)`, which it refuses with status `7`. -/
def ex_host_store_fails : Host :=
  { ex_host ex_src with
    vec := fun name =>
      if name = "__gtools_byk" then [0]
      else if name = "__gtools_bymin" then [1]
      else if name = "__gtools_bymax" then [3]
      else if name = "__gtools_outpos" then [0]
      else if name = "__gtools_numpos" then [1]
      else []
    vstore_rc := fun i j => if i = 1 ∧ j = 1 then 7 else 0 }

/-- A host that announces two integer by-variables, the first with values in
`0..3` and the second constant `5`, and accepts every access. -/
def ex_host_constant_by : Host :=
  { ex_host ex_src with
    vec_len := fun _ => 2
    vec := fun name =>
      if name = "__gtools_byk" then [-1, -1]
      else if name = "__gtools_bymin" then [0, 5]
      else if name = "__gtools_bymax" then [3, 5]
      else if name = "__gtools_outpos" then [0]
      else if name = "__gtools_numpos" then [1, 2]
      else [] }

/-! ## Loops -/

theorem for_loop_range_inv {σ ε : Type} (body : Nat → σ → Except ε σ) (Inv : Nat → σ → Prop) :
    ∀ (n a : Nat) (s s' : σ), Inv a s →
      (∀ i t t', a ≤ i → i < a + n → Inv i t → body i t = .ok t' → Inv (i + 1) t') →
      for_loop body (List.range' a n) s = .ok s' → Inv (a + n) s' := by
  intro n
  induction n with
  | zero =>
    intro a s s' h0 _ hrun
    simp [for_loop] at hrun
    subst hrun
    simpa using h0
  | succ n ih =>
    intro a s s' h0 hstep hrun
    rw [List.range'_succ] at hrun
    simp only [for_loop] at hrun
    cases hb : body a s with
    | error e => rw [hb] at hrun; simp at hrun
    | ok s1 =>
      rw [hb] at hrun
      simp only at hrun
      have h1 : Inv (a + 1) s1 := hstep a s s1 (le_refl a) (by omega) h0 hb
      have := ih (a + 1) s1 s' h1
        (fun i t t' hai hin => hstep i t t' (by omega) (by omega)) hrun
      have e : a + 1 + n = a + (n + 1) := by omega
      rw [e] at this
      exact this

theorem for_loop_range_ok {σ ε : Type} (body : Nat → σ → Except ε σ) :
    ∀ (n a : Nat) (s : σ),
      (∀ i t, a ≤ i → i < a + n → ∃ t', body i t = .ok t') →
      ∃ s', for_loop body (List.range' a n) s = .ok s' := by
  intro n
  induction n with
  | zero => intro a s _; exact ⟨s, by simp [for_loop]⟩
  | succ n ih =>
    intro a s hok
    obtain ⟨s1, hs1⟩ := hok a s (le_refl a) (by omega)
    obtain ⟨s2, hs2⟩ := ih (a + 1) s1 (fun i t hai hin => hok i t (by omega) (by omega))
    refine ⟨s2, ?_⟩
    rw [List.range'_succ]
    simp only [for_loop, hs1]
    exact hs2

/-! ## The gather pass: buffers and counts -/

theorem FrameInv.refl (g : Gather) (ob os nj ku : Nat) : FrameInv g g ob os nj ku :=
  ⟨rfl, rfl, rfl, fun _ _ => rfl, fun _ _ => rfl⟩

theorem FrameInv.trans {g0 g1 g2 : Gather} {ob os nj ku : Nat}
    (h01 : FrameInv g0 g1 ob os nj ku) (h12 : FrameInv g1 g2 ob os nj ku) :
    FrameInv g0 g2 ob os nj ku := by
  obtain ⟨a1, a2, a3, a4, a5⟩ := h01
  obtain ⟨b1, b2, b3, b4, b5⟩ := h12
  exact ⟨b1.trans a1, b2.trans a2, b3.trans a3, fun x hx => (b4 x hx).trans (a4 x hx),
    fun x hx => (b5 x hx).trans (a5 x hx)⟩

theorem slot_index_ne {ob nj v k t c : Nat} (hvk : v ≠ k) (ht : t < nj) (hc : c < nj) :
    ob + nj * v + t ≠ ob + nj * k + c := by
  rcases Nat.lt_or_gt_of_ne hvk with hlt | hgt
  · have h1 : nj * (v + 1) ≤ nj * k := Nat.mul_le_mul_left nj hlt
    have h2 : nj * (v + 1) = nj * v + nj := Nat.mul_succ nj v
    omega
  · have h1 : nj * (k + 1) ≤ nj * v := Nat.mul_le_mul_left nj hgt
    have h2 : nj * (k + 1) = nj * k + nj := Nat.mul_succ nj k
    omega

theorem slot_index_lt (ob : Nat) {nj ku k c : Nat} (hk : k < ku) (hc : c < nj) :
    ob + nj * k + c < ob + nj * ku := by
  have h1 : nj * (k + 1) ≤ nj * ku := Nat.mul_le_mul_left nj hk
  have h2 : nj * (k + 1) = nj * k + nj := Nat.mul_succ nj k
  omega

theorem gather_put_slots (i start end_ nj ku k : Nat) (z : Option ST_double) (g : Gather)
    (L : Nat → List ST_double)
    (hS : SlotsInv g g.offset_buffer g.offset_source nj ku L) (hk : k < ku)
    (hlen : ∀ v, v < ku → (L v).length ≤ nj) (hlt : (L k).length < nj) :
    SlotsInv (gather_put i start end_ nj k z g) g.offset_buffer g.offset_source nj ku
        (fun v => if v = k then L k ++ z.toList else L v)
      ∧ FrameInv g (gather_put i start end_ nj k z g) g.offset_buffer g.offset_source nj ku := by
  cases z with
  | none =>
    refine ⟨?_, rfl, rfl, rfl, fun _ _ => rfl, fun _ _ => rfl⟩
    intro v hv
    have := hS v hv
    by_cases hvk : v = k
    · subst hvk; simpa [gather_put] using this
    · simpa [gather_put, hvk] using this
  | some z =>
    refine ⟨?_, rfl, rfl, rfl, ?_, ?_⟩
    · intro v hv
      obtain ⟨hc, hb⟩ := hS v hv
      by_cases hvk : v = k
      · subst hvk
        simp only [gather_put, if_true, Function.update_same, Option.toList, List.length_append,
          List.length_singleton]
        refine ⟨by rw [hc], ?_⟩
        intro t ht
        by_cases htl : t < (L v).length
        · rw [Function.update_noteq (by rw [hc]; omega)]
          rw [hb t htl]
          simp [List.getD_eq_getElem?_getD, List.getElem?_append_left htl]
        · have : t = (L v).length := by omega
          subst this
          rw [hc, Function.update_same]
          simp [List.getD_eq_getElem?_getD]
      · simp only [gather_put, hvk, if_false]
        rw [Function.update_noteq (by omega)]
        refine ⟨hc, ?_⟩
        intro t ht
        rw [Function.update_noteq]
        · exact hb t ht
        · have := hlen v hv
          obtain ⟨hck, _⟩ := hS k hk
          rw [hck]
          exact slot_index_ne hvk (by omega) hlt
    · intro x hx
      simp only [gather_put]
      rw [Function.update_noteq]
      obtain ⟨hck, _⟩ := hS k hk
      have := slot_index_lt g.offset_buffer hk hlt
      rw [hck]
      omega
    · intro x hx
      simp only [gather_put]
      rw [Function.update_noteq]
      omega

theorem SlotsInv.congr {g : Gather} {ob os nj ku : Nat} {L L' : Nat → List ST_double}
    (hS : SlotsInv g ob os nj ku L) (hL : ∀ v, v < ku → L v = L' v) :
    SlotsInv g ob os nj ku L' := by
  intro v hv
  rw [← hL v hv]
  exact hS v hv

theorem SF_vdata_ok {h : Host} {i j : Nat} {z : Option ST_double}
    (hz : SF_vdata h i j = .ok z) : h.vdata_rc i j = 0 ∧ z = h.num i j := by
  unfold SF_vdata at hz
  split at hz
  · rename_i hrc
    exact ⟨hrc, by cases hz; rfl⟩
  · cases hz

theorem gather_cell_ok {h : Host} {cf sel i start end_ nj k : Nat} {g g' : Gather}
    (hrun : gather_cell h cf sel i start end_ nj k g = .ok g') :
    g' = gather_put i start end_ nj k (h.num (k + cf) sel) g := by
  unfold gather_cell at hrun
  cases hz : SF_vdata h (k + cf) sel with
  | error rc => rw [hz] at hrun; cases hrun
  | ok z =>
    rw [hz] at hrun
    cases hrun
    rw [(SF_vdata_ok hz).2]

theorem gather_row_slots (h : Host) (index : Nat → Nat) (cf ku start end_ nj i : Nat)
    (g g' : Gather) (L : Nat → List ST_double)
    (hS : SlotsInv g g.offset_buffer g.offset_source nj ku L)
    (hlen : ∀ v, v < ku → (L v).length < nj)
    (hrun : gather_row h index cf ku start end_ nj i g = .ok g') :
    SlotsInv g' g.offset_buffer g.offset_source nj ku
        (fun v => L v ++ (cell_val h index cf v i).toList)
      ∧ FrameInv g g' g.offset_buffer g.offset_source nj ku := by
  unfold gather_row at hrun
  rw [List.range_eq_range'] at hrun
  have key := for_loop_range_inv
    (gather_cell h cf (index i + h.in1) i start end_ nj)
    (fun m t =>
      SlotsInv t g.offset_buffer g.offset_source nj ku
          (fun v => if v < m then L v ++ (cell_val h index cf v i).toList else L v)
        ∧ FrameInv g t g.offset_buffer g.offset_source nj ku)
    ku 0 g g' ⟨hS.congr (fun v _ => by simp), FrameInv.refl _ _ _ _ _⟩
    (by
      intro k t t' _ hk ⟨hSt, hFt⟩ hb
      have hk : k < ku := by omega
      have e := gather_cell_ok hb
      subst e
      obtain ⟨f1, f2, _⟩ := hFt
      have hSt' : SlotsInv t t.offset_buffer t.offset_source nj ku
          (fun v => if v < k then L v ++ (cell_val h index cf v i).toList else L v) := by
        rw [f1, f2]; exact hSt
      have hl : ∀ v, v < ku →
          ((fun v => if v < k then L v ++ (cell_val h index cf v i).toList else L v) v).length
            ≤ nj := by
        intro v hv
        have := hlen v hv
        by_cases hvk : v < k
        · simp only [hvk, if_true, List.length_append]
          have : (cell_val h index cf v i).toList.length ≤ 1 := by
            cases cell_val h index cf v i <;> simp [Option.toList]
          omega
        · simp only [hvk, if_false]; omega
      have hlt : ((fun v => if v < k then L v ++ (cell_val h index cf v i).toList else L v)
          k).length < nj := by
        simp only [lt_irrefl, if_false]
        exact hlen k hk
      obtain ⟨r1, r2⟩ := gather_put_slots i start end_ nj ku k (h.num (k + cf) (index i + h.in1))
        t _ hSt' hk hl hlt
      rw [f1, f2] at r1 r2
      refine ⟨r1.congr ?_, FrameInv.trans ⟨f1, f2, ‹_›⟩ r2⟩
      intro v _
      by_cases hvk : v = k
      · subst hvk; simp [cell_val]
      · have : (v < k + 1) = (v < k) := by
          apply propext; constructor <;> intro <;> omega
        simp [hvk, this])
    hrun
  obtain ⟨k1, k2⟩ := key
  refine ⟨k1.congr ?_, k2⟩
  intro v hv
  have : v < 0 + ku := by omega
  simp only [this, if_true]

theorem filterMap_range'_succ {α : Type} (f : Nat → Option α) (start i : Nat) (hi : start ≤ i) :
    (List.range' start (i + 1 - start)).filterMap f
      = (List.range' start (i - start)).filterMap f ++ (f i).toList := by
  have e : i + 1 - start = (i - start) + 1 := by omega
  rw [e, List.range'_concat, List.filterMap_append]
  have e2 : start + 1 * (i - start) = i := by omega
  rw [e2]
  cases hf : f i <;> simp [List.filterMap_cons, hf, Option.toList]

theorem gather_rows_slots (h : Host) (index : Nat → Nat) (cf ku start end_ nj : Nat)
    (g g' : Gather)
    (h0 : ∀ v, v < ku → g.all_nonmiss (g.offset_source + v) = 0)
    (hrun : for_loop (gather_row h index cf ku start end_ nj) (List.range' start nj) g
      = .ok g') :
    SlotsInv g' g.offset_buffer g.offset_source nj ku
        (fun v => (List.range' start nj).filterMap (cell_val h index cf v))
      ∧ FrameInv g g' g.offset_buffer g.offset_source nj ku := by
  have key := for_loop_range_inv
    (gather_row h index cf ku start end_ nj)
    (fun i t =>
      SlotsInv t g.offset_buffer g.offset_source nj ku
          (fun v => (List.range' start (i - start)).filterMap (cell_val h index cf v))
        ∧ FrameInv g t g.offset_buffer g.offset_source nj ku)
    nj start g g'
    ⟨by
      intro v hv
      simp [h0 v hv], FrameInv.refl _ _ _ _ _⟩
    (by
      intro i t t' hi1 hi2 ⟨hSt, hFt⟩ hb
      obtain ⟨f1, f2, f3⟩ := hFt
      have hSt' : SlotsInv t t.offset_buffer t.offset_source nj ku
          (fun v => (List.range' start (i - start)).filterMap (cell_val h index cf v)) := by
        rw [f1, f2]; exact hSt
      have hl : ∀ v, v < ku →
          ((List.range' start (i - start)).filterMap (cell_val h index cf v)).length < nj := by
        intro v _
        have := List.length_filterMap_le (cell_val h index cf v) (List.range' start (i - start))
        rw [List.length_range'] at this
        omega
      obtain ⟨r1, r2⟩ := gather_row_slots h index cf ku start end_ nj i t t' _ hSt' hl hb
      rw [f1, f2] at r1 r2
      refine ⟨r1.congr ?_, FrameInv.trans ⟨f1, f2, f3⟩ r2⟩
      intro v _
      exact (filterMap_range'_succ _ start i hi1).symm)
    hrun
  obtain ⟨k1, k2⟩ := key
  refine ⟨k1.congr ?_, k2⟩
  intro v _
  have : start + nj - start = nj := by omega
  simp only [this]

/-! ## The gather pass: first-row and last-row flags -/

theorem gather_put_firstmiss (i start end_ nj k : Nat) (z : Option ST_double) (g : Gather)
    (x : Nat) :
    (gather_put i start end_ nj k z g).all_firstmiss x = true ↔
      (g.all_firstmiss x = true ∨ (i = start ∧ x = g.offset_source + k ∧ z = none)) := by
  cases z with
  | none =>
    by_cases hi : i = start
    · by_cases hx : x = g.offset_source + k
      · simp [gather_put, hi, hx]
      · simp [gather_put, hi, hx, Function.update_noteq hx]
    · simp [gather_put, hi]
  | some z => simp [gather_put]

theorem gather_put_lastmiss (i start end_ nj k : Nat) (z : Option ST_double) (g : Gather)
    (x : Nat) :
    (gather_put i start end_ nj k z g).all_lastmiss x = true ↔
      (g.all_lastmiss x = true ∨ (i = end_ - 1 ∧ x = g.offset_source + k ∧ z = none)) := by
  cases z with
  | none =>
    by_cases hi : i = end_ - 1
    · by_cases hx : x = g.offset_source + k
      · simp [gather_put, hi, hx]
      · simp [gather_put, hi, hx, Function.update_noteq hx]
    · simp [gather_put, hi]
  | some z => simp [gather_put]

theorem gather_put_offset_source (i start end_ nj k : Nat) (z : Option ST_double) (g : Gather) :
    (gather_put i start end_ nj k z g).offset_source = g.offset_source := by
  cases z <;> rfl

theorem gather_row_flags (h : Host) (index : Nat → Nat) (cf ku start end_ nj i : Nat)
    (g g' : Gather) (hrun : gather_row h index cf ku start end_ nj i g = .ok g') :
    FlagsInv g.all_firstmiss g'.all_firstmiss g.offset_source ku (i = start)
        (fun v => cell_val h index cf v i)
      ∧ FlagsInv g.all_lastmiss g'.all_lastmiss g.offset_source ku (i = end_ - 1)
        (fun v => cell_val h index cf v i)
      ∧ g'.offset_source = g.offset_source := by
  unfold gather_row at hrun
  rw [List.range_eq_range'] at hrun
  have key := for_loop_range_inv
    (gather_cell h cf (index i + h.in1) i start end_ nj)
    (fun m t =>
      FlagsInv g.all_firstmiss t.all_firstmiss g.offset_source m (i = start)
          (fun v => cell_val h index cf v i)
        ∧ FlagsInv g.all_lastmiss t.all_lastmiss g.offset_source m (i = end_ - 1)
          (fun v => cell_val h index cf v i)
        ∧ t.offset_source = g.offset_source)
    ku 0 g g'
    ⟨fun x => ⟨fun hx => Or.inl hx, fun hx => hx.elim id (fun hc => by omega)⟩,
      fun x => ⟨fun hx => Or.inl hx, fun hx => hx.elim id (fun hc => by omega)⟩, rfl⟩
    (by
      intro k t t' _ _ ⟨hF, hL, hos⟩ hb
      have e := gather_cell_ok hb
      subst e
      refine ⟨?_, ?_, ?_⟩
      · intro x
        rw [gather_put_firstmiss, hF x, hos]
        have hc : cell_val h index cf k i = h.num (k + cf) (index i + h.in1) := rfl
        constructor
        · rintro (h1 | ⟨h1, h2, h3⟩)
          · rcases h1 with h1 | ⟨a, b, c, d⟩
            · exact Or.inl h1
            · exact Or.inr ⟨a, b, by omega, d⟩
          · refine Or.inr ⟨h1, by omega, by omega, ?_⟩
            have : x - g.offset_source = k := by omega
            simp only [this, hc, h3]
        · rintro (h1 | ⟨a, b, c, d⟩)
          · exact Or.inl (Or.inl h1)
          · by_cases hx : x = g.offset_source + k
            · refine Or.inr ⟨a, hx, ?_⟩
              have : x - g.offset_source = k := by omega
              simp only [this, hc] at d
              exact d
            · exact Or.inl (Or.inr ⟨a, b, by omega, d⟩)
      · intro x
        rw [gather_put_lastmiss, hL x, hos]
        have hc : cell_val h index cf k i = h.num (k + cf) (index i + h.in1) := rfl
        constructor
        · rintro (h1 | ⟨h1, h2, h3⟩)
          · rcases h1 with h1 | ⟨a, b, c, d⟩
            · exact Or.inl h1
            · exact Or.inr ⟨a, b, by omega, d⟩
          · refine Or.inr ⟨h1, by omega, by omega, ?_⟩
            have : x - g.offset_source = k := by omega
            simp only [this, hc, h3]
        · rintro (h1 | ⟨a, b, c, d⟩)
          · exact Or.inl (Or.inl h1)
          · by_cases hx : x = g.offset_source + k
            · refine Or.inr ⟨a, hx, ?_⟩
              have : x - g.offset_source = k := by omega
              simp only [this, hc] at d
              exact d
            · exact Or.inl (Or.inr ⟨a, b, by omega, d⟩)
      · rw [gather_put_offset_source, hos])
    hrun
  simpa using key

theorem gather_rows_flags (h : Host) (index : Nat → Nat) (cf ku start end_ nj : Nat)
    (g g' : Gather)
    (hrun : for_loop (gather_row h index cf ku start end_ nj) (List.range' start nj) g
      = .ok g') :
    FlagsInv g.all_firstmiss g'.all_firstmiss g.offset_source ku (0 < nj)
        (fun v => cell_val h index cf v start)
      ∧ FlagsInv g.all_lastmiss g'.all_lastmiss g.offset_source ku
        (start ≤ end_ - 1 ∧ end_ - 1 < start + nj)
        (fun v => cell_val h index cf v (end_ - 1)) := by
  have key := for_loop_range_inv
    (gather_row h index cf ku start end_ nj)
    (fun i t =>
      FlagsInv g.all_firstmiss t.all_firstmiss g.offset_source ku (start < i)
          (fun v => cell_val h index cf v start)
        ∧ FlagsInv g.all_lastmiss t.all_lastmiss g.offset_source ku
          (start ≤ end_ - 1 ∧ end_ - 1 < i)
          (fun v => cell_val h index cf v (end_ - 1))
        ∧ t.offset_source = g.offset_source)
    nj start g g'
    ⟨fun x => ⟨fun hx => Or.inl hx, fun hx => hx.elim id (fun hc => by omega)⟩, fun x => by
      constructor
      · intro hx; exact Or.inl hx
      · rintro (hx | ⟨⟨a, b⟩, _⟩)
        · exact hx
        · omega, rfl⟩
    (by
      intro i t t' hi1 hi2 ⟨hF, hL, hos⟩ hb
      obtain ⟨r1, r2, r3⟩ := gather_row_flags h index cf ku start end_ nj i t t' hb
      rw [hos] at r1 r2 r3
      refine ⟨?_, ?_, r3⟩
      · intro x
        rw [r1 x, hF x]
        constructor
        · rintro (h1 | ⟨a, b, c, d⟩)
          · rcases h1 with h1 | ⟨a, b, c, d⟩
            · exact Or.inl h1
            · exact Or.inr ⟨by omega, b, c, d⟩
          · subst a
            exact Or.inr ⟨by omega, b, c, d⟩
        · rintro (h1 | ⟨a, b, c, d⟩)
          · exact Or.inl (Or.inl h1)
          · by_cases hs : i = start
            · subst hs
              exact Or.inr ⟨rfl, b, c, d⟩
            · exact Or.inl (Or.inr ⟨by omega, b, c, d⟩)
      · intro x
        rw [r2 x, hL x]
        constructor
        · rintro (h1 | ⟨a, b, c, d⟩)
          · rcases h1 with h1 | ⟨a, b, c, d⟩
            · exact Or.inl h1
            · exact Or.inr ⟨⟨a.1, by omega⟩, b, c, d⟩
          · exact Or.inr ⟨⟨by omega, by omega⟩, b, c, by rw [← a]; exact d⟩
        · rintro (h1 | ⟨a, b, c, d⟩)
          · exact Or.inl (Or.inl h1)
          · by_cases hs : i = end_ - 1
            · exact Or.inr ⟨hs, b, c, by rw [hs]; exact d⟩
            · exact Or.inl (Or.inr ⟨⟨a.1, by omega⟩, b, c, d⟩))
    hrun
  obtain ⟨k1, k2, _⟩ := key
  refine ⟨?_, k2⟩
  intro x
  rw [k1 x]
  constructor
  · rintro (h1 | ⟨a, b⟩)
    · exact Or.inl h1
    · exact Or.inr ⟨by omega, b⟩
  · rintro (h1 | ⟨a, b⟩)
    · exact Or.inl h1
    · exact Or.inr ⟨by omega, b⟩

/-! ## The gather pass: all groups -/

theorem info_ok.le {info : Nat → Nat} {J : Nat} (hinfo : info_ok info J) :
    ∀ b a, a ≤ b → b ≤ J → info a ≤ info b := by
  intro b
  induction b with
  | zero => intro a ha _; have : a = 0 := by omega
            subst this; exact le_refl _
  | succ b ih =>
    intro a ha hb
    rcases Nat.lt_or_ge a (b + 1) with h1 | h1
    · exact le_trans (ih a (by omega) (by omega)) (hinfo.2 b (by omega))
    · have : a = b + 1 := by omega
      subst this; exact le_refl _

theorem group_values_length_le (h : Host) (index info : Nat → Nat) (cf v j : Nat) :
    (group_values h index info cf v j).length ≤ info (j + 1) - info j := by
  unfold group_values group_positions
  have := List.length_filterMap_le (cell_val h index cf v)
    (List.range' (info j) (info (j + 1) - info j))
  rw [List.length_range'] at this
  exact this

theorem gather_group_inv (h : Host) (index info : Nat → Nat) (cf ku J j : Nat)
    (hinfo : info_ok info J) (hj : j < J) (g g' : Gather)
    (hI : OuterInv h index info cf ku j g)
    (hrun : gather_group h index info cf ku j g = .ok g') :
    OuterInv h index info cf ku (j + 1) g' := by
  unfold gather_group at hrun
  simp only at hrun
  cases hr : for_loop (gather_row h index cf ku (info j) (info (j + 1))
      (info (j + 1) - info j)) (List.range' (info j) (info (j + 1) - info j)) g with
  | error rc => rw [hr] at hrun; cases hrun
  | ok g1 =>
    rw [hr] at hrun
    simp only [Except.ok.injEq] at hrun
    subst hrun
    have hmono := hinfo.2 j hj
    have hfresh0 : ∀ v, v < ku → g.all_nonmiss (g.offset_source + v) = 0 := by
      intro v _
      rw [hI.offset_source]
      exact (hI.fresh _ (by omega)).1
    obtain ⟨hS, hF1, hF2, hF3, hF4, hF5⟩ := gather_rows_slots h index cf ku (info j) (info (j + 1))
      (info (j + 1) - info j) g g1 hfresh0 hr
    obtain ⟨hfl, hll⟩ := gather_rows_flags h index cf ku (info j) (info (j + 1))
      (info (j + 1) - info j) g g1 hr
    rw [hI.offset_buffer, hI.offset_source] at hS
    rw [hI.offset_buffer] at hF4
    rw [hI.offset_source] at hF5 hfl hll
    have hmul : ∀ j', j' < j → (j' + 1) * ku ≤ j * ku := fun j' hj' =>
      Nat.mul_le_mul_right ku hj'
    have hsucc : ∀ a, (a + 1) * ku = a * ku + ku := fun a => Nat.succ_mul a ku
    have hsub : (info (j + 1) - info j) * ku = info (j + 1) * ku - info j * ku :=
      Nat.sub_mul _ _ _
    have hle : info j * ku ≤ info (j + 1) * ku := Nat.mul_le_mul_right ku hmono
    constructor
    · show g1.offset_buffer + (info (j + 1) - info j) * ku = info (j + 1) * ku
      rw [hF1, hI.offset_buffer]; omega
    · show g1.offset_source + ku = (j + 1) * ku
      rw [hF2, hI.offset_source, hsucc]
    · intro j' hj'
      show Function.update g1.offsets_buffer j g1.offset_buffer j' = info j' * ku
      by_cases e : j' = j
      · subst e; rw [Function.update_same, hF1, hI.offset_buffer]
      · rw [Function.update_noteq e, hF3]; exact hI.offsets j' (by omega)
    · intro j' v hj' hv
      show g1.all_nonmiss (j' * ku + v) = _
      by_cases e : j' = j
      · subst e; exact (hS v hv).1
      · have h1 : j' < j := by omega
        have := hmul j' h1
        have := hsucc j'
        rw [hF5 _ (Or.inl (by omega))]
        exact hI.count j' v h1 hv
    · intro j' v t hj' hv ht
      show g1.all_buffer _ = _
      by_cases e : j' = j
      · subst e; exact (hS v hv).2 t ht
      · have h1 : j' < j := by omega
        have hlen := group_values_length_le h index info cf v j'
        have hm' := hinfo.2 j' (by omega)
        have hjj := hinfo.le j (j' + 1) (by omega) (by omega)
        have a1 : (info (j' + 1) - info j') * (v + 1) ≤ (info (j' + 1) - info j') * ku :=
          Nat.mul_le_mul_left _ hv
        have a2 : (info (j' + 1) - info j') * (v + 1)
            = (info (j' + 1) - info j') * v + (info (j' + 1) - info j') := Nat.mul_succ _ _
        have a3 : (info (j' + 1) - info j') * ku = info (j' + 1) * ku - info j' * ku :=
          Nat.sub_mul _ _ _
        have a4 : info j' * ku ≤ info (j' + 1) * ku := Nat.mul_le_mul_right ku hm'
        have a5 : info (j' + 1) * ku ≤ info j * ku := Nat.mul_le_mul_right ku hjj
        rw [hF4 _ (Or.inl (by omega))]
        exact hI.values j' v t h1 hv ht
    · intro j' v hj' hv
      show g1.all_firstmiss (j' * ku + v) = true ↔ _
      rw [hfl (j' * ku + v)]
      by_cases e : j' = j
      · subst e
        have hf := (hI.fresh (j' * ku + v) (by omega)).2.1
        have e2 : j' * ku + v - j' * ku = v := by omega
        simp only [hf, e2]
        constructor
        · rintro (h1 | ⟨a, _, _, d⟩)
          · cases h1
          · exact ⟨by omega, d⟩
        · rintro ⟨a, d⟩
          exact Or.inr ⟨by omega, by omega, by omega, d⟩
      · have h1 : j' < j := by omega
        have := hmul j' h1
        have := hsucc j'
        rw [hI.firstmiss j' v h1 hv]
        constructor
        · rintro (h2 | ⟨_, b, _⟩)
          · exact h2
          · omega
        · intro h2; exact Or.inl h2
    · intro j' v hj' hv
      show g1.all_lastmiss (j' * ku + v) = true ↔ _
      rw [hll (j' * ku + v)]
      by_cases e : j' = j
      · subst e
        have hf := (hI.fresh (j' * ku + v) (by omega)).2.2
        have e2 : j' * ku + v - j' * ku = v := by omega
        simp only [hf, e2]
        constructor
        · rintro (h1 | ⟨a, _, _, d⟩)
          · cases h1
          · exact ⟨by omega, d⟩
        · rintro ⟨a, d⟩
          exact Or.inr ⟨by omega, by omega, by omega, d⟩
      · have h1 : j' < j := by omega
        have := hmul j' h1
        have := hsucc j'
        rw [hI.lastmiss j' v h1 hv]
        constructor
        · rintro (h2 | ⟨_, b, _⟩)
          · exact h2
          · omega
        · intro h2; exact Or.inl h2
    · intro x hx
      have := hsucc j
      obtain ⟨f1, f2, f3⟩ := hI.fresh x (by omega)
      refine ⟨?_, ?_, ?_⟩
      · show g1.all_nonmiss x = 0
        rw [hF5 _ (Or.inr (by omega))]; exact f1
      · show g1.all_firstmiss x = false
        rw [Bool.eq_false_iff]
        intro hc
        rcases (hfl x).1 hc with h2 | ⟨_, _, c, _⟩
        · rw [f2] at h2; cases h2
        · omega
      · show g1.all_lastmiss x = false
        rw [Bool.eq_false_iff]
        intro hc
        rcases (hll x).1 hc with h2 | ⟨_, _, c, _⟩
        · rw [f3] at h2; cases h2
        · omega

theorem gather_inv (h : Host) (index info : Nat → Nat) (cf ku J : Nat)
    (hinfo : info_ok info J) (g : Gather) (hrun : gather h index info cf ku J = .ok g) :
    OuterInv h index info cf ku J g := by
  unfold gather at hrun
  rw [List.range_eq_range'] at hrun
  have key := for_loop_range_inv (gather_group h index info cf ku)
    (fun j t => OuterInv h index info cf ku j t) J 0 Gather.init g
    { offset_buffer := by simp [Gather.init, hinfo.1]
      offset_source := by simp [Gather.init]
      offsets := fun j' hj' => by omega
      count := fun j' _ hj' => by omega
      values := fun j' _ _ hj' => by omega
      firstmiss := fun j' _ hj' => by omega
      lastmiss := fun j' _ hj' => by omega
      fresh := fun x _ => ⟨rfl, rfl, rfl⟩ }
    (fun j t t' _ hj hI hb => gather_group_inv h index info cf ku J j hinfo (by omega) t t' hI hb)
    hrun
  simpa using key

theorem gather_total (h : Host) (index info : Nat → Nat) (cf ku J : Nat)
    (hok : gather_reads_ok h index info cf ku J) :
    ∃ g, gather h index info cf ku J = .ok g := by
  unfold gather
  rw [List.range_eq_range']
  apply for_loop_range_ok
  intro j t _ hj
  have hj : j < J := by omega
  unfold gather_group
  simp only
  obtain ⟨t1, ht1⟩ := for_loop_range_ok
    (gather_row h index cf ku (info j) (info (j + 1)) (info (j + 1) - info j))
    (info (j + 1) - info j) (info j) t
    (by
      intro i u hi1 hi2
      unfold gather_row
      rw [List.range_eq_range']
      apply for_loop_range_ok
      intro k w _ hk
      have hrc := hok j hj i hi1 (by omega) k (by omega)
      refine ⟨gather_put i (info j) (info (j + 1)) (info (j + 1) - info j) k
        (h.num (k + cf) (index i + h.in1)) w, ?_⟩
      simp [gather_cell, SF_vdata, hrc])
  rw [ht1]
  exact ⟨_, rfl⟩

/-! ## The reducer: the entry written for one (group, target) pair -/

theorem foldl_range_inv {σ : Type} (f : σ → Nat → σ) (Inv : Nat → σ → Prop) (n : Nat) (s : σ)
    (h0 : Inv 0 s) (hstep : ∀ i t, i < n → Inv i t → Inv (i + 1) (f t i)) :
    Inv n ((List.range n).foldl f s) := by
  induction n with
  | zero => simpa using h0
  | succ n ih =>
    rw [List.range_succ, List.foldl_append]
    simp only [List.foldl_cons, List.foldl_nil]
    exact hstep n _ (by omega) (ih (fun i t hi => hstep i t (by omega)))

theorem reduce_target_frame (mf : String → (Nat → ST_double) → Nat → Nat → ST_double)
    (stat : Nat → String) (pos : Nat → Nat) (g : Gather) (offset os ob nj k : Nat) (o : Output)
    (x : Nat) (hx : x ≠ offset + k) :
    (reduce_target mf stat pos g offset os ob nj k o).output x = o.output x
      ∧ (reduce_target mf stat pos g offset os ob nj k o).outmiss x = o.outmiss x := by
  unfold reduce_target
  simp only
  cases reduce_branch (stat k) (g.all_firstmiss (os + pos k)) (g.all_lastmiss (os + pos k))
    (g.all_nonmiss (os + pos k)) <;> simp [Function.update_noteq hx]

theorem reduce_target_at (mf : String → (Nat → ST_double) → Nat → Nat → ST_double)
    (stat : Nat → String) (pos : Nat → Nat) (g : Gather) (offset os ob nj k : Nat) (o : Output)
    (h1 : o.output (offset + k) = 0) (h2 : o.outmiss (offset + k) = false) :
    (reduce_target mf stat pos g offset os ob nj k o).output (offset + k)
        = (reduce_target mf stat pos g offset os ob nj k Output.init).output (offset + k)
      ∧ (reduce_target mf stat pos g offset os ob nj k o).outmiss (offset + k)
        = (reduce_target mf stat pos g offset os ob nj k Output.init).outmiss (offset + k) := by
  unfold reduce_target
  simp only
  cases reduce_branch (stat k) (g.all_firstmiss (os + pos k)) (g.all_lastmiss (os + pos k))
    (g.all_nonmiss (os + pos k)) <;> simp [h1, h2, Output.init]

theorem reduce_group_at (mf : String → (Nat → ST_double) → Nat → Nat → ST_double)
    (stat : Nat → String) (pos info : Nat → Nat) (g : Gather) (kt ku j : Nat) (o : Output)
    (hfresh : ∀ x, j * kt ≤ x → o.output x = 0 ∧ o.outmiss x = false) :
    (∀ k, k < kt →
      (reduce_group mf stat pos info g kt ku j o).output (j * kt + k)
          = (target_entry mf stat pos info g kt ku j k).output (j * kt + k)
        ∧ (reduce_group mf stat pos info g kt ku j o).outmiss (j * kt + k)
          = (target_entry mf stat pos info g kt ku j k).outmiss (j * kt + k))
      ∧ ∀ x, (x < j * kt ∨ j * kt + kt ≤ x) →
        (reduce_group mf stat pos info g kt ku j o).output x = o.output x
          ∧ (reduce_group mf stat pos info g kt ku j o).outmiss x = o.outmiss x := by
  unfold reduce_group
  exact foldl_range_inv _
    (fun m t =>
      (∀ k, k < m →
        t.output (j * kt + k) = (target_entry mf stat pos info g kt ku j k).output (j * kt + k)
          ∧ t.outmiss (j * kt + k)
            = (target_entry mf stat pos info g kt ku j k).outmiss (j * kt + k))
        ∧ ∀ x, (x < j * kt ∨ j * kt + m ≤ x) → t.output x = o.output x ∧ t.outmiss x = o.outmiss x)
    kt o ⟨fun k hk => by omega, fun x _ => ⟨rfl, rfl⟩⟩
    (by
      intro m t _ ⟨hdone, hrest⟩
      refine ⟨?_, ?_⟩
      · intro k hk
        by_cases e : k = m
        · subst e
          obtain ⟨r1, r2⟩ := hrest (j * kt + k) (Or.inr (le_refl _))
          obtain ⟨f1, f2⟩ := hfresh (j * kt + k) (by omega)
          exact reduce_target_at mf stat pos g (j * kt) (j * ku) (g.offsets_buffer j)
            (info (j + 1) - info j) k t (r1.trans f1) (r2.trans f2)
        · obtain ⟨r1, r2⟩ := reduce_target_frame mf stat pos g (j * kt) (j * ku)
            (g.offsets_buffer j) (info (j + 1) - info j) m t (j * kt + k) (by omega)
          rw [r1, r2]
          exact hdone k (by omega)
      · intro x hx
        obtain ⟨r1, r2⟩ := reduce_target_frame mf stat pos g (j * kt) (j * ku)
          (g.offsets_buffer j) (info (j + 1) - info j) m t x (by omega)
        rw [r1, r2]
        exact hrest x (by omega))

theorem reduce_at (mf : String → (Nat → ST_double) → Nat → Nat → ST_double)
    (stat : Nat → String) (pos info : Nat → Nat) (g : Gather) (kt ku J : Nat)
    (j k : Nat) (hj : j < J) (hk : k < kt) :
    (reduce mf stat pos info g kt ku J).output (j * kt + k)
        = (target_entry mf stat pos info g kt ku j k).output (j * kt + k)
      ∧ (reduce mf stat pos info g kt ku J).outmiss (j * kt + k)
        = (target_entry mf stat pos info g kt ku j k).outmiss (j * kt + k) := by
  unfold reduce
  have key := foldl_range_inv
    (fun o j => reduce_group mf stat pos info g kt ku j o)
    (fun m t =>
      (∀ j' k', j' < m → k' < kt →
        t.output (j' * kt + k')
            = (target_entry mf stat pos info g kt ku j' k').output (j' * kt + k')
          ∧ t.outmiss (j' * kt + k')
            = (target_entry mf stat pos info g kt ku j' k').outmiss (j' * kt + k'))
        ∧ ∀ x, m * kt ≤ x → t.output x = 0 ∧ t.outmiss x = false)
    J Output.init ⟨fun j' k' hj' => by omega, fun x _ => ⟨rfl, rfl⟩⟩
    (by
      intro m t _ ⟨hdone, hfresh⟩
      obtain ⟨g1, g2⟩ := reduce_group_at mf stat pos info g kt ku m t hfresh
      have hs : (m + 1) * kt = m * kt + kt := Nat.succ_mul m kt
      refine ⟨?_, ?_⟩
      · intro j' k' hj' hk'
        by_cases e : j' = m
        · subst e; exact g1 k' hk'
        · have h1 : j' < m := by omega
          have h2 : (j' + 1) * kt ≤ m * kt := Nat.mul_le_mul_right kt h1
          have h3 : (j' + 1) * kt = j' * kt + kt := Nat.succ_mul j' kt
          obtain ⟨r1, r2⟩ := g2 (j' * kt + k') (Or.inl (by omega))
          rw [r1, r2]
          exact hdone j' k' h1 hk'
      · intro x hx
        obtain ⟨r1, r2⟩ := g2 x (Or.inr (by omega))
        rw [r1, r2]
        exact hfresh x (by omega))
  exact key.1 j k hj hk

/-! ## Facts about one slot after the gather pass -/

theorem slot_bound {info : Nat → Nat} {J ku j v : Nat} (hinfo : info_ok info J) (hj : j < J)
    (hv : v < ku) :
    info j * ku + (info (j + 1) - info j) * v + (info (j + 1) - info j) ≤ info J * ku := by
  have h1 := hinfo.2 j hj
  have h2 := hinfo.le J (j + 1) (by omega) (le_refl _)
  have a1 : (info (j + 1) - info j) * (v + 1) ≤ (info (j + 1) - info j) * ku :=
    Nat.mul_le_mul_left _ hv
  have a2 : (info (j + 1) - info j) * (v + 1)
      = (info (j + 1) - info j) * v + (info (j + 1) - info j) := Nat.mul_succ _ _
  have a3 : (info (j + 1) - info j) * ku = info (j + 1) * ku - info j * ku := Nat.sub_mul _ _ _
  have a4 : info j * ku ≤ info (j + 1) * ku := Nat.mul_le_mul_right ku h1
  have a5 : info (j + 1) * ku ≤ info J * ku := Nat.mul_le_mul_right ku h2
  omega

theorem group_values_first (h : Host) (index info : Nat → Nat) (cf v j : Nat) (z : ST_double)
    (hne : info j < info (j + 1)) (hz : cell_val h index cf v (info j) = some z) :
    0 < (group_values h index info cf v j).length
      ∧ (group_values h index info cf v j).getD 0 0 = z := by
  unfold group_values group_positions
  have e : info (j + 1) - info j = (info (j + 1) - info j - 1) + 1 := by omega
  rw [e, List.range'_succ, List.filterMap_cons_some hz]
  simp

theorem group_values_last (h : Host) (index info : Nat → Nat) (cf v j : Nat) (z : ST_double)
    (hne : info j < info (j + 1)) (hz : cell_val h index cf v (info (j + 1) - 1) = some z) :
    0 < (group_values h index info cf v j).length
      ∧ (group_values h index info cf v j).getD
          ((group_values h index info cf v j).length - 1) 0 = z := by
  unfold group_values group_positions
  have e : info (j + 1) - info j = (info (j + 1) - info j - 1) + 1 := by omega
  have e2 : info j + 1 * (info (j + 1) - info j - 1) = info (j + 1) - 1 := by omega
  rw [e, List.range'_concat, List.filterMap_append, e2]
  simp [List.filterMap_cons, hz, List.getD_eq_getElem?_getD]

theorem last_index_eq {start end_ : Nat} (h1 : 0 < end_) (h2 : start + end_ ≤ 2 ^ 64) :
    last_index start end_ = start + end_ - 1 := by
  unfold last_index
  have e : start + end_ + (2 ^ 64 - 1) = (start + end_ - 1) + 2 ^ 64 := by omega
  rw [e, Nat.add_mod_right, Nat.mod_eq_of_lt (by omega)]

theorem buffer_slice_getElem? (buf : Nat → ST_double) (start end_ t : Nat) (ht : t < end_) :
    (buffer_slice buf start end_)[t]? = some (buf (start + t)) := by
  unfold buffer_slice
  simp [List.getElem?_map, List.getElem?_range ht]

/-! ## Host accesses -/

theorem perm_stable_insert (d : Nat → Nat) (a : Nat) (l : List Nat) :
    (stable_insert d a l).Perm (a :: l) := by
  induction l with
  | nil => exact List.Perm.refl _
  | cons b l ih =>
    unfold stable_insert
    by_cases hab : d a ≤ d b
    · rw [if_pos hab]
    · rw [if_neg hab]
      exact (List.Perm.cons b ih).trans (List.Perm.swap a b l)

theorem perm_counting_sort_pass (d : Nat → Nat) (l : List Nat) :
    (counting_sort_pass d l).Perm l := by
  induction l with
  | nil => exact List.Perm.refl _
  | cons a l ih =>
    unfold counting_sort_pass
    exact (perm_stable_insert d a _).trans (List.Perm.cons a ih)

theorem perm_mf_radix_sort_index (g : Nat → Nat) (N shift : Nat) :
    (mf_radix_sort_index g N shift).Perm (List.range N) := by
  unfold mf_radix_sort_index
  generalize (List.range ((64 + shift - 1) / shift)) = passes
  induction passes using List.reverseRecOn with
  | nil => exact List.Perm.refl _
  | append_singleton ps p ih =>
    rw [List.foldl_append]
    simp only [List.foldl_cons, List.foldl_nil]
    exact (perm_counting_sort_pass _ _).trans ih

/-! ## The group locator -/

theorem same_codes.ok {h h' : Host} (a : same_codes h h') (hok : accesses_ok h) :
    accesses_ok h' := by
  obtain ⟨a1, a2, a3, a4, _, _⟩ := a
  obtain ⟨b1, b2, b3, b4⟩ := hok
  exact ⟨fun i j => by rw [a1]; exact b1 i j, fun i j => by rw [a2]; exact b2 i j,
    fun i j => by rw [a3]; exact b3 i j, fun i j => by rw [a4]; exact b4 i j⟩

theorem PanelOk.info_ok {K : List Nat} {info : Nat → Nat} {J : Nat} (hp : PanelOk K info J) :
    info_ok info J :=
  ⟨hp.zero, fun j hj => Nat.le_of_lt (hp.strict j hj)⟩

theorem mem_sorted_index (gh : Nat → Nat) (N : Nat) (i : Nat) :
    i ∈ mf_radix_sort_index gh N RADIX_SHIFT ↔ i < N := by
  rw [(perm_mf_radix_sort_index gh N RADIX_SHIFT).mem_iff, List.mem_range]

theorem getD_sorted_index_lt (gh : Nat → Nat) (N : Nat) (t : Nat) (ht : t < N) :
    (mf_radix_sort_index gh N RADIX_SHIFT).getD t 0 < N := by
  have hlen : (mf_radix_sort_index gh N RADIX_SHIFT).length = N := by
    rw [(perm_mf_radix_sort_index gh N RADIX_SHIFT).length_eq, List.length_range]
  rw [List.getD_eq_getElem _ 0 (by rw [hlen]; exact ht)]
  exact (mem_sorted_index gh N _).1 (List.getElem_mem _)

theorem AllOk.nil (h0 : Host) : AllOk h0 [] := by
  intro a ha
  cases ha

theorem AllOk.snoc {h0 : Host} {log : List Access} {a : Access} (hl : AllOk h0 log)
    (h1 : a.status h0 = 0) (h2 : a.is_save = false) : AllOk h0 (log ++ [a]) := by
  intro b hb
  rcases List.mem_append.1 hb with hb | hb
  · exact hl b hb
  · rw [List.mem_singleton] at hb
    subst hb
    exact ⟨h1, h2⟩

theorem replay_snoc (log : List Access) (a : Access) (h : Host) :
    replay (log ++ [a]) h = Access.effect (replay log h) a := by
  unfold replay
  rw [List.foldl_append]
  rfl

theorem effect_status (h : Host) (a b : Access) : b.status (Access.effect h a) = b.status h := by
  unfold Access.effect
  split
  · cases a <;> cases b <;> rfl
  · rfl

theorem replay_status (log : List Access) (h : Host) (b : Access) :
    b.status (replay log h) = b.status h := by
  induction log using List.reverseRecOn with
  | nil => rfl
  | append_singleton l a ih => rw [replay_snoc, effect_status, ih]

theorem effect_of_fail {h : Host} {a : Access} (hf : a.status h ≠ 0) : Access.effect h a = h := by
  unfold Access.effect
  rw [if_neg hf]

theorem for_loop_post {ι σ ε : Type} (body : ι → σ → Except ε σ) (Err : ε → Prop)
    (Inv : σ → Prop) (hstep : ∀ i s, Inv s → Post Err Inv (body i s)) :
    ∀ (l : List ι) (s : σ), Inv s → Post Err Inv (for_loop body l s) := by
  intro l
  induction l with
  | nil => intro s hs; exact hs
  | cons i is ih =>
    intro s hs
    have h1 := hstep i s hs
    simp only [for_loop]
    cases hr : body i s with
    | error e =>
      rw [hr] at h1
      exact h1
    | ok s' =>
      rw [hr] at h1
      exact ih s' h1

/-- One step that makes the access `a` on the current host `hc`, which is the
entry host after the accesses of the log: the step fails exactly with the
status of `a`, and the host after it is the current host after `a`. -/
theorem traced_post {ε σ : Type} (h0 hc : Host) (code : ε → Nat) (hostE : ε → Host)
    (hostS : σ → Host) (a : Access) (r : Except ε σ) (log : List Access)
    (hlog : AllOk h0 log) (hcur : hc = replay log h0) (hP : a.is_save = false)
    (herr : ∀ e, r = .error e → a.status hc = code e ∧ code e ≠ 0 ∧ hostE e = hc)
    (hok : ∀ s, r = .ok s → a.status hc = 0 ∧ hostS s = Access.effect hc a) :
    Post (fun e : ε × List Access => Fails h0 (code e.1) e.2 ∧ hostE e.1 = replay e.2 h0)
      (fun s : σ × List Access => AllOk h0 s.2 ∧ hostS s.1 = replay s.2 h0)
      (traced a r log) := by
  have hst : a.status hc = a.status h0 := by rw [hcur, replay_status]
  cases r with
  | error e =>
    obtain ⟨h1, h2, h3⟩ := herr e rfl
    refine ⟨⟨log, a, rfl, hlog, hP, ?_, h2⟩, ?_⟩
    · rw [← hst, h1]
    · show hostE e = replay (log ++ [a]) h0
      rw [replay_snoc, ← hcur, h3, effect_of_fail (by rw [h1]; exact h2)]
  | ok s =>
    obtain ⟨h1, h2⟩ := hok s rfl
    refine ⟨hlog.snoc (by rw [← hst, h1]) hP, ?_⟩
    show hostS s = replay (log ++ [a]) h0
    rw [replay_snoc, ← hcur, h2]

/-! ## The accesses of the key encoder -/

theorem SF_vdata_cases (h : Host) (i j : Nat) :
    (h.vdata_rc i j = 0 ∧ SF_vdata h i j = .ok (h.num i j))
      ∨ (h.vdata_rc i j ≠ 0 ∧ SF_vdata h i j = .error (h.vdata_rc i j)) := by
  unfold SF_vdata
  by_cases hc : h.vdata_rc i j = 0
  · exact Or.inl ⟨hc, by rw [if_pos hc]⟩
  · exact Or.inr ⟨hc, by rw [if_neg hc]⟩

theorem SF_sdata_cases (h : Host) (i j : Nat) :
    (h.sdata_rc i j = 0 ∧ SF_sdata h i j = .ok (h.str i j))
      ∨ (h.sdata_rc i j ≠ 0 ∧ SF_sdata h i j = .error (h.sdata_rc i j)) := by
  unfold SF_sdata
  by_cases hc : h.sdata_rc i j = 0
  · exact Or.inl ⟨hc, by rw [if_pos hc]⟩
  · exact Or.inr ⟨hc, by rw [if_neg hc]⟩

theorem effect_vdata (h : Host) (i j : Nat) : Access.effect h (Access.vdata i j) = h := by
  unfold Access.effect
  split <;> rfl

theorem effect_sdata (h : Host) (i j : Nat) : Access.effect h (Access.sdata i j) = h := by
  unfold Access.effect
  split <;> rfl

/-- A step that reads one numeric cell of the host `h`. -/
theorem vdata_step_post {σ : Type} (h0 h : Host) (i j : Nat) (f : Option ST_double → σ)
    (log : List Access) (hlog : AllOk h0 log) (hcur : h = replay log h0) :
    Post (fun e : Nat × List Access => Fails h0 e.1 e.2 ∧ h = replay e.2 h0)
      (fun s : σ × List Access => AllOk h0 s.2 ∧ h = replay s.2 h0)
      (traced (Access.vdata i j)
        (match SF_vdata h i j with
        | .error rc => .error rc
        | .ok z => .ok (f z))
        log) := by
  refine traced_post h0 h (fun e => e) (fun _ => h) (fun _ => h) _ _ log hlog hcur rfl ?_ ?_
  · intro e he
    rcases SF_vdata_cases h i j with ⟨_, h2⟩ | ⟨h1, h2⟩
    · rw [h2] at he; cases he
    · rw [h2] at he
      cases he
      exact ⟨rfl, h1, rfl⟩
  · intro s hs
    rcases SF_vdata_cases h i j with ⟨h1, _⟩ | ⟨_, h2⟩
    · exact ⟨h1, (effect_vdata h i j).symm⟩
    · rw [h2] at hs; cases hs

/-- A step that reads one text cell of the host `h`. -/
theorem sdata_step_post {σ : Type} (h0 h : Host) (i j : Nat) (f : String → σ)
    (log : List Access) (hlog : AllOk h0 log) (hcur : h = replay log h0) :
    Post (fun e : Nat × List Access => Fails h0 e.1 e.2 ∧ h = replay e.2 h0)
      (fun s : σ × List Access => AllOk h0 s.2 ∧ h = replay s.2 h0)
      (traced (Access.sdata i j)
        (match SF_sdata h i j with
        | .error rc => .error rc
        | .ok z => .ok (f z))
        log) := by
  refine traced_post h0 h (fun e => e) (fun _ => h) (fun _ => h) _ _ log hlog hcur rfl ?_ ?_
  · intro e he
    rcases SF_sdata_cases h i j with ⟨_, h2⟩ | ⟨h1, h2⟩
    · rw [h2] at he; cases he
    · rw [h2] at he
      cases he
      exact ⟨rfl, h1, rfl⟩
  · intro s hs
    rcases SF_sdata_cases h i j with ⟨h1, _⟩ | ⟨_, h2⟩
    · exact ⟨h1, (effect_sdata h i j).symm⟩
    · rw [h2] at hs; cases hs

theorem sf_get_variable_ashash_post (h0 h : Host) (k in1 N : Nat) (min : Int)
    (log : List Access) (hlog : AllOk h0 log) (hcur : h = replay log h0) :
    Post (fun e : Nat × List Access => Fails h0 e.1 e.2 ∧ h = replay e.2 h0)
      (fun s : (Nat → Nat) × List Access => AllOk h0 s.2 ∧ h = replay s.2 h0)
      (sf_get_variable_ashash_log h k in1 N min log) := by
  unfold sf_get_variable_ashash_log
  refine for_loop_post _ _ _ ?_ _ _ ⟨hlog, hcur⟩
  intro i s hs
  exact vdata_step_post h0 h k (i + in1) (fun z => Function.update s.1 i (ashash_key z min))
    s.2 hs.1 hs.2

theorem sf_get_varlist_bijection_post (h0 h : Host) (k1 k2 in1 N : Nat) (mins maxs : List Int)
    (log : List Access) (hlog : AllOk h0 log) (hcur : h = replay log h0) :
    Post (fun e : Nat × List Access => Fails h0 e.1 e.2 ∧ h = replay e.2 h0)
      (fun s : (Nat → Nat) × List Access => AllOk h0 s.2 ∧ h = replay s.2 h0)
      (sf_get_varlist_bijection_log h k1 k2 in1 N mins maxs log) := by
  unfold sf_get_varlist_bijection_log
  refine for_loop_post _ _ _ ?_ _ _ ⟨hlog, hcur⟩
  intro i s hs
  have h1 := for_loop_post
    (fun c (t : Nat × List Access) =>
      traced (Access.vdata (k1 + c) (i + in1))
        (match SF_vdata h (k1 + c) (i + in1) with
        | .error rc => .error rc
        | .ok none => .ok t.1
        | .ok (some z) =>
          .ok ((t.1 + mul_size_t (to_uint64 (z - (mins.getD c 0 : ℚ)))
            (bijection_stride (k2 + 1 - k1) mins maxs c)) % 2 ^ 64))
        t.2)
    (fun e : Nat × List Access => Fails h0 e.1 e.2 ∧ h = replay e.2 h0)
    (fun t : Nat × List Access => AllOk h0 t.2 ∧ h = replay t.2 h0)
    (by
      intro c t ht
      have := vdata_step_post h0 h (k1 + c) (i + in1)
        (fun z => match z with
          | none => t.1
          | some z => (t.1 + mul_size_t (to_uint64 (z - (mins.getD c 0 : ℚ)))
            (bijection_stride (k2 + 1 - k1) mins maxs c)) % 2 ^ 64)
        t.2 ht.1 ht.2
      beta_reduce
      rcases SF_vdata_cases h (k1 + c) (i + in1) with ⟨_, h2⟩ | ⟨_, h2⟩
      · rw [h2] at this ⊢
        cases hz : h.num (k1 + c) (i + in1) <;> rw [hz] at this <;> exact this
      · rw [h2] at this ⊢
        exact this)
    (List.range (k2 + 1 - k1)) (0, s.2) hs
  simp only at h1 ⊢
  revert h1
  cases for_loop
    (fun c (t : Nat × List Access) =>
      traced (Access.vdata (k1 + c) (i + in1))
        (match SF_vdata h (k1 + c) (i + in1) with
        | .error rc => .error rc
        | .ok none => .ok t.1
        | .ok (some z) =>
          .ok ((t.1 + mul_size_t (to_uint64 (z - (mins.getD c 0 : ℚ)))
            (bijection_stride (k2 + 1 - k1) mins maxs c)) % 2 ^ 64))
        t.2)
    (List.range (k2 + 1 - k1)) (0, s.2) with
  | error e => exact fun h1 => h1
  | ok t => exact fun h1 => h1

theorem sf_get_varlist_hash_post (hash128 : List ByVal → Nat × Nat) (h0 h : Host)
    (k1 k2 in1 N : Nat) (byvars_lens : List Int) (log : List Access) (hlog : AllOk h0 log)
    (hcur : h = replay log h0) :
    Post (fun e : Nat × List Access => Fails h0 e.1 e.2 ∧ h = replay e.2 h0)
      (fun s : (Nat → Nat × Nat) × List Access => AllOk h0 s.2 ∧ h = replay s.2 h0)
      (sf_get_varlist_hash_log hash128 h k1 k2 in1 N byvars_lens log) := by
  unfold sf_get_varlist_hash_log
  refine for_loop_post _ _ _ ?_ _ _ ⟨hlog, hcur⟩
  intro i s hs
  have h1 := for_loop_post
    (fun c (t : List ByVal × List Access) =>
      if byvars_lens.getD c 0 > 0 then
        traced (Access.sdata (k1 + c) (i + in1))
          (match SF_sdata h (k1 + c) (i + in1) with
          | .error rc => .error rc
          | .ok s => .ok (t.1 ++ [ByVal.str s]))
          t.2
      else
        traced (Access.vdata (k1 + c) (i + in1))
          (match SF_vdata h (k1 + c) (i + in1) with
          | .error rc => .error rc
          | .ok z => .ok (t.1 ++ [ByVal.num z]))
          t.2)
    (fun e : Nat × List Access => Fails h0 e.1 e.2 ∧ h = replay e.2 h0)
    (fun t : List ByVal × List Access => AllOk h0 t.2 ∧ h = replay t.2 h0)
    (by
      intro c t ht
      simp only
      split
      · exact sdata_step_post h0 h (k1 + c) (i + in1) (fun s => t.1 ++ [ByVal.str s]) t.2
          ht.1 ht.2
      · exact vdata_step_post h0 h (k1 + c) (i + in1) (fun z => t.1 ++ [ByVal.num z]) t.2
          ht.1 ht.2)
    (List.range (k2 + 1 - k1)) ([], s.2) hs
  simp only at h1 ⊢
  revert h1
  cases for_loop
    (fun c (t : List ByVal × List Access) =>
      if byvars_lens.getD c 0 > 0 then
        traced (Access.sdata (k1 + c) (i + in1))
          (match SF_sdata h (k1 + c) (i + in1) with
          | .error rc => .error rc
          | .ok s => .ok (t.1 ++ [ByVal.str s]))
          t.2
      else
        traced (Access.vdata (k1 + c) (i + in1))
          (match SF_vdata h (k1 + c) (i + in1) with
          | .error rc => .error rc
          | .ok z => .ok (t.1 ++ [ByVal.num z]))
          t.2)
    (List.range (k2 + 1 - k1)) ([], s.2) with
  | error e => exact fun h1 => h1
  | ok t => exact fun h1 => h1

/-! ## The logged run gives the result of the run -/

theorem unlog_traced {ε σ : Type} (a : Access) (r : Except ε σ) (log : List Access) :
    unlog (traced a r log) = r := by
  cases r <;> rfl

theorem for_loop_unlog {ι σ ε : Type}
    (bodyL : ι → σ × List Access → Except (ε × List Access) (σ × List Access))
    (body : ι → σ → Except ε σ) (hb : ∀ i s, unlog (bodyL i s) = body i s.1) :
    ∀ (l : List ι) (s : σ × List Access), unlog (for_loop bodyL l s) = for_loop body l s.1 := by
  intro l
  induction l with
  | nil => intro s; rfl
  | cons i is ih =>
    intro s
    have h1 := hb i s
    simp only [for_loop]
    cases hr : bodyL i s with
    | error e =>
      rw [hr] at h1
      simp only [unlog] at h1
      rw [← h1]
      rfl
    | ok s' =>
      rw [hr] at h1
      simp only [unlog] at h1
      rw [← h1]
      exact ih s'

theorem sf_get_variable_ashash_unlog (h : Host) (k in1 N : Nat) (min : Int)
    (log : List Access) :
    unlog (sf_get_variable_ashash_log h k in1 N min log) = sf_get_variable_ashash h k in1 N min := by
  unfold sf_get_variable_ashash_log sf_get_variable_ashash
  refine for_loop_unlog _ _ ?_ _ _
  intro i s
  exact unlog_traced _ _ _

theorem sf_get_varlist_bijection_unlog (h : Host) (k1 k2 in1 N : Nat) (mins maxs : List Int)
    (log : List Access) :
    unlog (sf_get_varlist_bijection_log h k1 k2 in1 N mins maxs log)
      = sf_get_varlist_bijection h k1 k2 in1 N mins maxs := by
  unfold sf_get_varlist_bijection_log sf_get_varlist_bijection
  refine for_loop_unlog _ _ (fun i s => ?_) _ _
  have h1 := for_loop_unlog
    (fun c (t : Nat × List Access) =>
      traced (Access.vdata (k1 + c) (i + in1))
        (match SF_vdata h (k1 + c) (i + in1) with
        | .error rc => .error rc
        | .ok none => .ok t.1
        | .ok (some z) =>
          .ok ((t.1 + mul_size_t (to_uint64 (z - (mins.getD c 0 : ℚ)))
            (bijection_stride (k2 + 1 - k1) mins maxs c)) % 2 ^ 64))
        t.2)
    (fun c (acc : Nat) =>
      match SF_vdata h (k1 + c) (i + in1) with
      | .error rc => .error rc
      | .ok none => .ok acc
      | .ok (some z) =>
        .ok ((acc + mul_size_t (to_uint64 (z - (mins.getD c 0 : ℚ)))
          (bijection_stride (k2 + 1 - k1) mins maxs c)) % 2 ^ 64))
    (fun c t => unlog_traced _ _ _) (List.range (k2 + 1 - k1)) (0, s.2)
  simp only at h1 ⊢
  rw [← h1]
  cases for_loop
    (fun c (t : Nat × List Access) =>
      traced (Access.vdata (k1 + c) (i + in1))
        (match SF_vdata h (k1 + c) (i + in1) with
        | .error rc => .error rc
        | .ok none => .ok t.1
        | .ok (some z) =>
          .ok ((t.1 + mul_size_t (to_uint64 (z - (mins.getD c 0 : ℚ)))
            (bijection_stride (k2 + 1 - k1) mins maxs c)) % 2 ^ 64))
        t.2)
    (List.range (k2 + 1 - k1)) (0, s.2) <;> rfl

theorem sf_get_varlist_hash_unlog (hash128 : List ByVal → Nat × Nat) (h : Host)
    (k1 k2 in1 N : Nat) (byvars_lens : List Int) (log : List Access) :
    unlog (sf_get_varlist_hash_log hash128 h k1 k2 in1 N byvars_lens log)
      = sf_get_varlist_hash hash128 h k1 k2 in1 N byvars_lens := by
  unfold sf_get_varlist_hash_log sf_get_varlist_hash
  refine for_loop_unlog _ _ (fun i s => ?_) _ _
  have h1 := for_loop_unlog
    (fun c (t : List ByVal × List Access) =>
      if byvars_lens.getD c 0 > 0 then
        traced (Access.sdata (k1 + c) (i + in1))
          (match SF_sdata h (k1 + c) (i + in1) with
          | .error rc => .error rc
          | .ok s => .ok (t.1 ++ [ByVal.str s]))
          t.2
      else
        traced (Access.vdata (k1 + c) (i + in1))
          (match SF_vdata h (k1 + c) (i + in1) with
          | .error rc => .error rc
          | .ok z => .ok (t.1 ++ [ByVal.num z]))
          t.2)
    (fun c (acc : List ByVal) =>
      if byvars_lens.getD c 0 > 0 then
        match SF_sdata h (k1 + c) (i + in1) with
        | .error rc => .error rc
        | .ok s => .ok (acc ++ [ByVal.str s])
      else
        match SF_vdata h (k1 + c) (i + in1) with
        | .error rc => .error rc
        | .ok z => .ok (acc ++ [ByVal.num z]))
    (fun c t => by
      simp only
      split
      · exact unlog_traced _ _ _
      · exact unlog_traced _ _ _)
    (List.range (k2 + 1 - k1)) ([], s.2)
  simp only at h1 ⊢
  rw [← h1]
  cases for_loop
    (fun c (t : List ByVal × List Access) =>
      if byvars_lens.getD c 0 > 0 then
        traced (Access.sdata (k1 + c) (i + in1))
          (match SF_sdata h (k1 + c) (i + in1) with
          | .error rc => .error rc
          | .ok s => .ok (t.1 ++ [ByVal.str s]))
          t.2
      else
        traced (Access.vdata (k1 + c) (i + in1))
          (match SF_vdata h (k1 + c) (i + in1) with
          | .error rc => .error rc
          | .ok z => .ok (t.1 ++ [ByVal.num z]))
          t.2)
    (List.range (k2 + 1 - k1)) ([], s.2) <;> rfl

/-! ## The accesses of the gather pass -/

theorem gather_row_unlog (h : Host) (index : Nat → Nat) (cf ku start end_ nj i : Nat)
    (s : Gather × List Access) :
    unlog (gather_row_log h index cf ku start end_ nj i s)
      = gather_row h index cf ku start end_ nj i s.1 := by
  unfold gather_row_log gather_row
  refine for_loop_unlog _ _ ?_ _ _
  intro k t
  exact unlog_traced _ _ _

theorem gather_group_unlog (h : Host) (index info : Nat → Nat) (cf ku j : Nat)
    (s : Gather × List Access) :
    unlog (gather_group_log h index info cf ku j s) = gather_group h index info cf ku j s.1 := by
  unfold gather_group_log gather_group
  have h1 := for_loop_unlog
    (gather_row_log h index cf ku (info j) (info (j + 1)) (info (j + 1) - info j))
    (gather_row h index cf ku (info j) (info (j + 1)) (info (j + 1) - info j))
    (gather_row_unlog h index cf ku _ _ _)
    (List.range' (info j) (info (j + 1) - info j)) s
  simp only
  rw [← h1]
  cases for_loop (gather_row_log h index cf ku (info j) (info (j + 1)) (info (j + 1) - info j))
    (List.range' (info j) (info (j + 1) - info j)) s <;> rfl

theorem gather_unlog (h : Host) (index info : Nat → Nat) (cf ku J : Nat) (log : List Access) :
    unlog (gather_log h index info cf ku J log) = gather h index info cf ku J := by
  unfold gather_log gather
  exact for_loop_unlog _ _ (gather_group_unlog h index info cf ku) _ _

theorem gather_post (h0 h : Host) (index info : Nat → Nat) (cf ku J : Nat) (log : List Access)
    (hlog : AllOk h0 log) (hcur : h = replay log h0) :
    Post (fun e : Nat × List Access => Fails h0 e.1 e.2 ∧ h = replay e.2 h0)
      (fun s : Gather × List Access => AllOk h0 s.2 ∧ h = replay s.2 h0)
      (gather_log h index info cf ku J log) := by
  unfold gather_log
  refine for_loop_post _ _ _ ?_ _ _ ⟨hlog, hcur⟩
  intro j s hs
  unfold gather_group_log
  have h1 := for_loop_post
    (gather_row_log h index cf ku (info j) (info (j + 1)) (info (j + 1) - info j))
    (fun e : Nat × List Access => Fails h0 e.1 e.2 ∧ h = replay e.2 h0)
    (fun s : Gather × List Access => AllOk h0 s.2 ∧ h = replay s.2 h0)
    (by
      intro i t ht
      unfold gather_row_log
      refine for_loop_post _ _ _ ?_ _ _ ht
      intro k u hu
      unfold gather_cell
      exact vdata_step_post h0 h (k + cf) (index i + h.in1)
        (fun z => gather_put i (info j) (info (j + 1)) (info (j + 1) - info j) k z u.1)
        u.2 hu.1 hu.2)
    (List.range' (info j) (info (j + 1) - info j)) s hs
  simp only
  revert h1
  cases for_loop (gather_row_log h index cf ku (info j) (info (j + 1)) (info (j + 1) - info j))
    (List.range' (info j) (info (j + 1) - info j)) s with
  | error e => exact fun h1 => h1
  | ok t => exact fun h1 => h1

/-! ## The accesses of the loop of the representative by-values -/

theorem SF_vstore_cases (h : Host) (i j : Nat) (z : Option ST_double) :
    (h.vstore_rc i j = 0 ∧ SF_vstore h i j z = .ok (Access.effect h (Access.vstore i j z)))
      ∨ (h.vstore_rc i j ≠ 0 ∧ SF_vstore h i j z = .error (h.vstore_rc i j)) := by
  unfold SF_vstore
  by_cases hc : h.vstore_rc i j = 0
  · refine Or.inl ⟨hc, ?_⟩
    rw [if_pos hc]
    unfold Access.effect
    exact congrArg Except.ok (if_pos (show Access.status h (Access.vstore i j z) = 0 from hc)).symm
  · exact Or.inr ⟨hc, by rw [if_neg hc]⟩

theorem SF_sstore_cases (h : Host) (i j : Nat) (s : String) :
    (h.sstore_rc i j = 0 ∧ SF_sstore h i j s = .ok (Access.effect h (Access.sstore i j s)))
      ∨ (h.sstore_rc i j ≠ 0 ∧ SF_sstore h i j s = .error (h.sstore_rc i j)) := by
  unfold SF_sstore
  by_cases hc : h.sstore_rc i j = 0
  · refine Or.inl ⟨hc, ?_⟩
    rw [if_pos hc]
    unfold Access.effect
    exact congrArg Except.ok (if_pos (show Access.status h (Access.sstore i j s) = 0 from hc)).symm
  · exact Or.inr ⟨hc, by rw [if_neg hc]⟩

theorem byread_str_unlog (in1 : Nat) (index info str_byvars : Nat → Nat) (str_from j k : Nat)
    (s : ByRead × List Access) :
    unlog (byread_str_log in1 index info str_byvars str_from j k s)
      = byread_str in1 index info str_byvars str_from j k s.1 := by
  unfold byread_str_log
  rcases SF_sdata_cases s.1.host (str_byvars k) (index (info j) + in1) with ⟨_, h2⟩ | ⟨_, h2⟩
  · rw [h2]
    exact unlog_traced _ _ _
  · rw [h2]
    unfold byread_str
    rw [h2]
    rfl

theorem byread_group_unlog (in1 : Nat) (index info str_byvars num_byvars : Nat → Nat)
    (str_from kstr knum j : Nat) (s : ByRead × List Access) :
    unlog (byread_group_log in1 index info str_byvars num_byvars str_from kstr knum j s)
      = byread_group in1 index info str_byvars num_byvars str_from kstr knum j s.1 := by
  unfold byread_group_log byread_group
  have h1 := for_loop_unlog (byread_str_log in1 index info str_byvars str_from j)
    (byread_str in1 index info str_byvars str_from j)
    (byread_str_unlog in1 index info str_byvars str_from j) (List.range kstr) s
  rw [← h1]
  cases hr : for_loop (byread_str_log in1 index info str_byvars str_from j) (List.range kstr) s with
  | error e => rfl
  | ok s1 =>
    have h2 := for_loop_unlog
      (fun k (s : ByRead × List Access) =>
        traced (Access.vdata (num_byvars k) (index (info j) + in1))
          (byread_num in1 index info num_byvars j k s.1) s.2)
      (byread_num in1 index info num_byvars j)
      (fun k t => unlog_traced _ _ _) (List.range knum) s1
    simp only [unlog]
    rw [← h2]
    cases for_loop
      (fun k (s : ByRead × List Access) =>
        traced (Access.vdata (num_byvars k) (index (info j) + in1))
          (byread_num in1 index info num_byvars j k s.1) s.2)
      (List.range knum) s1 <;> rfl

theorem byread_unlog (in1 : Nat) (index info str_byvars num_byvars : Nat → Nat)
    (str_from kstr knum J : Nat) (h : Host) (log : List Access) :
    unlog (byread_log in1 index info str_byvars num_byvars str_from kstr knum J h log)
      = byread in1 index info str_byvars num_byvars str_from kstr knum J h := by
  unfold byread_log byread
  exact for_loop_unlog _ _
    (byread_group_unlog in1 index info str_byvars num_byvars str_from kstr knum) _ _

theorem byread_str_post (h0 : Host) (in1 : Nat) (index info str_byvars : Nat → Nat)
    (str_from j k : Nat) (s : ByRead × List Access) (hs : AllOk h0 s.2 ∧ s.1.host = replay s.2 h0) :
    Post (fun e : (Nat × Host) × List Access => Fails h0 e.1.1 e.2 ∧ e.1.2 = replay e.2 h0)
      (fun s : ByRead × List Access => AllOk h0 s.2 ∧ s.1.host = replay s.2 h0)
      (byread_str_log in1 index info str_byvars str_from j k s) := by
  unfold byread_str_log
  have hst : ∀ a : Access, a.status s.1.host = a.status h0 := by
    intro a; rw [hs.2, replay_status]
  rcases SF_sdata_cases s.1.host (str_byvars k) (index (info j) + in1) with ⟨h1, h2⟩ | ⟨h1, h2⟩
  · rw [h2]
    have hl : AllOk h0 (s.2 ++ [Access.sdata (str_byvars k) (index (info j) + in1)]) :=
      hs.1.snoc (by rw [← hst]; exact h1) rfl
    have hc : s.1.host = replay (s.2 ++ [Access.sdata (str_byvars k) (index (info j) + in1)]) h0 := by
      rw [replay_snoc, ← hs.2, effect_sdata]
    refine traced_post h0 s.1.host (fun e : Nat × Host => e.1) (fun e : Nat × Host => e.2)
      (fun b : ByRead => b.host) _ _ _ hl hc ?_ ?_ ?_
    · rfl
    · intro e he
      unfold byread_str at he
      rw [h2] at he
      simp only at he
      rcases SF_sstore_cases s.1.host (k + str_from) (j + 1) (s.1.host.str (str_byvars k)
        (index (info j) + in1)) with ⟨_, h4⟩ | ⟨h3, h4⟩
      · rw [h4] at he; cases he
      · rw [h4] at he
        cases he
        exact ⟨rfl, h3, rfl⟩
    · intro b hb
      unfold byread_str at hb
      rw [h2] at hb
      simp only at hb
      rcases SF_sstore_cases s.1.host (k + str_from) (j + 1) (s.1.host.str (str_byvars k)
        (index (info j) + in1)) with ⟨h3, h4⟩ | ⟨_, h4⟩
      · rw [h4] at hb
        cases hb
        exact ⟨h3, rfl⟩
      · rw [h4] at hb; cases hb
  · rw [h2]
    refine ⟨⟨s.2, _, rfl, hs.1, rfl, ?_, h1⟩, ?_⟩
    · rw [← hst]; rfl
    · show s.1.host = replay (s.2 ++ [Access.sdata (str_byvars k) (index (info j) + in1)]) h0
      rw [replay_snoc, ← hs.2, effect_sdata]

theorem byread_num_post (h0 : Host) (in1 : Nat) (index info num_byvars : Nat → Nat) (j k : Nat)
    (s : ByRead × List Access) (hs : AllOk h0 s.2 ∧ s.1.host = replay s.2 h0) :
    Post (fun e : (Nat × Host) × List Access => Fails h0 e.1.1 e.2 ∧ e.1.2 = replay e.2 h0)
      (fun s : ByRead × List Access => AllOk h0 s.2 ∧ s.1.host = replay s.2 h0)
      (traced (Access.vdata (num_byvars k) (index (info j) + in1))
        (byread_num in1 index info num_byvars j k s.1) s.2) := by
  refine traced_post h0 s.1.host (fun e : Nat × Host => e.1) (fun e : Nat × Host => e.2)
    (fun b : ByRead => b.host) _ _ _ hs.1 hs.2 ?_ ?_ ?_
  · rfl
  · intro e he
    unfold byread_num at he
    rcases SF_vdata_cases s.1.host (num_byvars k) (index (info j) + in1) with ⟨_, h2⟩ | ⟨h1, h2⟩
    · rw [h2] at he
      cases hz : s.1.host.num (num_byvars k) (index (info j) + in1) <;> rw [hz] at he <;> cases he
    · rw [h2] at he
      cases he
      exact ⟨rfl, h1, rfl⟩
  · intro b hb
    unfold byread_num at hb
    rcases SF_vdata_cases s.1.host (num_byvars k) (index (info j) + in1) with ⟨h1, h2⟩ | ⟨_, h2⟩
    · rw [h2] at hb
      refine ⟨h1, ?_⟩
      rw [effect_vdata]
      cases hz : s.1.host.num (num_byvars k) (index (info j) + in1) <;> rw [hz] at hb <;>
        cases hb <;> rfl
    · rw [h2] at hb; cases hb

theorem byread_post (h0 : Host) (in1 : Nat) (index info str_byvars num_byvars : Nat → Nat)
    (str_from kstr knum J : Nat) (h : Host) (log : List Access) (hlog : AllOk h0 log)
    (hcur : h = replay log h0) :
    Post (fun e : (Nat × Host) × List Access => Fails h0 e.1.1 e.2 ∧ e.1.2 = replay e.2 h0)
      (fun s : ByRead × List Access => AllOk h0 s.2 ∧ s.1.host = replay s.2 h0)
      (byread_log in1 index info str_byvars num_byvars str_from kstr knum J h log) := by
  unfold byread_log
  refine for_loop_post _ _ _ ?_ _ _ ⟨hlog, hcur⟩
  intro j s hs
  unfold byread_group_log
  have h1 := for_loop_post (byread_str_log in1 index info str_byvars str_from j) _ _
    (fun k t ht => byread_str_post h0 in1 index info str_byvars str_from j k t ht)
    (List.range kstr) s hs
  revert h1
  cases for_loop (byread_str_log in1 index info str_byvars str_from j) (List.range kstr) s with
  | error e => exact fun h1 => h1
  | ok s1 =>
    intro h1
    have h2 := for_loop_post
      (fun k (s : ByRead × List Access) =>
        traced (Access.vdata (num_byvars k) (index (info j) + in1))
          (byread_num in1 index info num_byvars j k s.1) s.2) _ _
      (fun k t ht => byread_num_post h0 in1 index info num_byvars j k t ht)
      (List.range knum) s1 h1
    simp only
    revert h2
    cases for_loop
      (fun k (s : ByRead × List Access) =>
        traced (Access.vdata (num_byvars k) (index (info j) + in1))
          (byread_num in1 index info num_byvars j k s.1) s.2)
      (List.range knum) s1 with
    | error e => exact fun h2 => h2
    | ok s2 => exact fun h2 => h2

/-! ## The accesses of the output assembler -/

theorem store_target_eq (stat : Nat → String) (pos nmfreq : Nat → Nat) (outmiss : Nat → Bool)
    (targets_from j k : Nat) (t : Store) :
    store_target stat pos nmfreq outmiss targets_from j k t
      = match SF_vstore t.host (k + targets_from) (j + 1)
          (store_target_value stat pos nmfreq outmiss k t) with
        | .error rc => .error (rc, t.host)
        | .ok h' =>
          .ok { t with
            host := h'
            output :=
              if mf_strcmp_wrapper (stat k) "percent" then
                Function.update t.output (t.offset + k)
                  (t.output (t.offset + k) / (nmfreq (pos k) : ℚ))
              else t.output } := by
  unfold store_target store_target_value
  simp only
  by_cases hm : outmiss (t.offset + k) = true
  · simp only [hm, if_true]
  · by_cases hp : mf_strcmp_wrapper (stat k) "percent" = true
    · simp only [hm, hp, if_true, Function.update_same]
    · simp only [hm, hp]
      rfl

theorem store_target_post (h0 : Host) (stat : Nat → String) (pos nmfreq : Nat → Nat)
    (outmiss : Nat → Bool) (targets_from j k : Nat) (s : Store × List Access)
    (hs : AllOk h0 s.2 ∧ s.1.host = replay s.2 h0) :
    Post (fun e : (Nat × Host) × List Access => Fails h0 e.1.1 e.2 ∧ e.1.2 = replay e.2 h0)
      (fun s : Store × List Access => AllOk h0 s.2 ∧ s.1.host = replay s.2 h0)
      (traced
        (Access.vstore (k + targets_from) (j + 1) (store_target_value stat pos nmfreq outmiss k s.1))
        (store_target stat pos nmfreq outmiss targets_from j k s.1) s.2) := by
  refine traced_post h0 s.1.host (fun e : Nat × Host => e.1) (fun e : Nat × Host => e.2)
    (fun b : Store => b.host) _ _ _ hs.1 hs.2 ?_ ?_ ?_
  · rfl
  · intro e he
    rw [store_target_eq] at he
    rcases SF_vstore_cases s.1.host (k + targets_from) (j + 1)
      (store_target_value stat pos nmfreq outmiss k s.1) with ⟨_, h2⟩ | ⟨h1, h2⟩
    · rw [h2] at he; cases he
    · rw [h2] at he
      cases he
      exact ⟨rfl, h1, rfl⟩
  · intro b hb
    rw [store_target_eq] at hb
    rcases SF_vstore_cases s.1.host (k + targets_from) (j + 1)
      (store_target_value stat pos nmfreq outmiss k s.1) with ⟨h1, h2⟩ | ⟨_, h2⟩
    · rw [h2] at hb
      cases hb
      exact ⟨h1, rfl⟩
    · rw [h2] at hb; cases hb

theorem store_num_post (h0 : Host) (num_byvars : Nat → Nat) (bynum : Nat → ST_double)
    (bymiss : Nat → Bool) (j k : Nat) (s : Store × List Access)
    (hs : AllOk h0 s.2 ∧ s.1.host = replay s.2 h0) :
    Post (fun e : (Nat × Host) × List Access => Fails h0 e.1.1 e.2 ∧ e.1.2 = replay e.2 h0)
      (fun s : Store × List Access => AllOk h0 s.2 ∧ s.1.host = replay s.2 h0)
      (traced
        (Access.vstore (num_byvars k) (j + 1)
          (if bymiss (s.1.offset_bynum + k) then none else some (bynum (s.1.offset_bynum + k))))
        (store_num num_byvars bynum bymiss j k s.1) s.2) := by
  refine traced_post h0 s.1.host (fun e : Nat × Host => e.1) (fun e : Nat × Host => e.2)
    (fun b : Store => b.host) _ _ _ hs.1 hs.2 ?_ ?_ ?_
  · rfl
  · intro e he
    unfold store_num at he
    simp only at he
    rcases SF_vstore_cases s.1.host (num_byvars k) (j + 1)
      (if bymiss (s.1.offset_bynum + k) then none else some (bynum (s.1.offset_bynum + k)))
      with ⟨_, h2⟩ | ⟨h1, h2⟩
    · rw [h2] at he; cases he
    · rw [h2] at he
      cases he
      exact ⟨rfl, h1, rfl⟩
  · intro b hb
    unfold store_num at hb
    simp only at hb
    rcases SF_vstore_cases s.1.host (num_byvars k) (j + 1)
      (if bymiss (s.1.offset_bynum + k) then none else some (bynum (s.1.offset_bynum + k)))
      with ⟨h1, h2⟩ | ⟨_, h2⟩
    · rw [h2] at hb
      cases hb
      exact ⟨h1, rfl⟩
    · rw [h2] at hb; cases hb

theorem store_str_unlog (str_byvars : Nat → Nat) (str_from j k : Nat) (s : Store × List Access) :
    unlog (store_str_log str_byvars str_from j k s) = store_str str_byvars str_from j k s.1 := by
  unfold store_str_log
  rcases SF_sdata_cases s.1.host (k + str_from) (j + 1) with ⟨_, h2⟩ | ⟨_, h2⟩
  · rw [h2]
    exact unlog_traced _ _ _
  · rw [h2]
    unfold store_str
    rw [h2]
    rfl

theorem store_str_post (h0 : Host) (str_byvars : Nat → Nat) (str_from j k : Nat)
    (s : Store × List Access) (hs : AllOk h0 s.2 ∧ s.1.host = replay s.2 h0) :
    Post (fun e : (Nat × Host) × List Access => Fails h0 e.1.1 e.2 ∧ e.1.2 = replay e.2 h0)
      (fun s : Store × List Access => AllOk h0 s.2 ∧ s.1.host = replay s.2 h0)
      (store_str_log str_byvars str_from j k s) := by
  unfold store_str_log
  have hst : ∀ a : Access, a.status s.1.host = a.status h0 := by
    intro a; rw [hs.2, replay_status]
  rcases SF_sdata_cases s.1.host (k + str_from) (j + 1) with ⟨h1, h2⟩ | ⟨h1, h2⟩
  · rw [h2]
    have hl : AllOk h0 (s.2 ++ [Access.sdata (k + str_from) (j + 1)]) :=
      hs.1.snoc (by rw [← hst]; exact h1) rfl
    have hc : s.1.host = replay (s.2 ++ [Access.sdata (k + str_from) (j + 1)]) h0 := by
      rw [replay_snoc, ← hs.2, effect_sdata]
    refine traced_post h0 s.1.host (fun e : Nat × Host => e.1) (fun e : Nat × Host => e.2)
      (fun b : Store => b.host) _ _ _ hl hc ?_ ?_ ?_
    · rfl
    · intro e he
      unfold store_str at he
      rw [h2] at he
      simp only at he
      rcases SF_sstore_cases s.1.host (str_byvars k) (j + 1)
        (s.1.host.str (k + str_from) (j + 1)) with ⟨_, h4⟩ | ⟨h3, h4⟩
      · rw [h4] at he; cases he
      · rw [h4] at he
        cases he
        exact ⟨rfl, h3, rfl⟩
    · intro b hb
      unfold store_str at hb
      rw [h2] at hb
      simp only at hb
      rcases SF_sstore_cases s.1.host (str_byvars k) (j + 1)
        (s.1.host.str (k + str_from) (j + 1)) with ⟨h3, h4⟩ | ⟨_, h4⟩
      · rw [h4] at hb
        cases hb
        exact ⟨h3, rfl⟩
      · rw [h4] at hb; cases hb
  · rw [h2]
    refine ⟨⟨s.2, _, rfl, hs.1, rfl, ?_, h1⟩, ?_⟩
    · rw [← hst]; rfl
    · show s.1.host = replay (s.2 ++ [Access.sdata (k + str_from) (j + 1)]) h0
      rw [replay_snoc, ← hs.2, effect_sdata]

theorem store_group_unlog (stat : Nat → String) (pos nmfreq str_byvars num_byvars : Nat → Nat)
    (outmiss : Nat → Bool) (bynum : Nat → ST_double) (bymiss : Nat → Bool)
    (targets_from str_from kt kstr knum j : Nat) (s : Store × List Access) :
    unlog (store_group_log stat pos nmfreq str_byvars num_byvars outmiss bynum bymiss
        targets_from str_from kt kstr knum j s)
      = store_group stat pos nmfreq str_byvars num_byvars outmiss bynum bymiss targets_from
          str_from kt kstr knum j s.1 := by
  unfold store_group_log store_group
  have h1 := for_loop_unlog
    (fun k (s : Store × List Access) =>
      traced
        (Access.vstore (k + targets_from) (j + 1) (store_target_value stat pos nmfreq outmiss k s.1))
        (store_target stat pos nmfreq outmiss targets_from j k s.1) s.2)
    (store_target stat pos nmfreq outmiss targets_from j)
    (fun k t => unlog_traced _ _ _) (List.range kt) s
  rw [← h1]
  cases for_loop
    (fun k (s : Store × List Access) =>
      traced
        (Access.vstore (k + targets_from) (j + 1) (store_target_value stat pos nmfreq outmiss k s.1))
        (store_target stat pos nmfreq outmiss targets_from j k s.1) s.2)
    (List.range kt) s with
  | error e => rfl
  | ok s1 =>
    have h2 := for_loop_unlog (store_str_log str_byvars str_from j)
      (store_str str_byvars str_from j) (store_str_unlog str_byvars str_from j)
      (List.range kstr) s1
    simp only [unlog]
    rw [← h2]
    cases for_loop (store_str_log str_byvars str_from j) (List.range kstr) s1 with
    | error e => rfl
    | ok s2 =>
      have h3 := for_loop_unlog
        (fun k (s : Store × List Access) =>
          traced
            (Access.vstore (num_byvars k) (j + 1)
              (if bymiss (s.1.offset_bynum + k) then none
                else some (bynum (s.1.offset_bynum + k))))
            (store_num num_byvars bynum bymiss j k s.1) s.2)
        (store_num num_byvars bynum bymiss j)
        (fun k t => unlog_traced _ _ _) (List.range knum) s2
      simp only [unlog]
      rw [← h3]
      cases for_loop
        (fun k (s : Store × List Access) =>
          traced
            (Access.vstore (num_byvars k) (j + 1)
              (if bymiss (s.1.offset_bynum + k) then none
                else some (bynum (s.1.offset_bynum + k))))
            (store_num num_byvars bynum bymiss j k s.1) s.2)
        (List.range knum) s2 <;> rfl

theorem store_unlog (stat : Nat → String) (pos nmfreq str_byvars num_byvars : Nat → Nat)
    (o : Output) (bynum : Nat → ST_double) (bymiss : Nat → Bool)
    (targets_from str_from kt kstr knum J : Nat) (s0 : String) (h : Host) (log : List Access) :
    unlog (store_log stat pos nmfreq str_byvars num_byvars o bynum bymiss targets_from str_from
        kt kstr knum J s0 h log)
      = store stat pos nmfreq str_byvars num_byvars o bynum bymiss targets_from str_from
          kt kstr knum J s0 h := by
  unfold store_log store
  exact for_loop_unlog _ _
    (store_group_unlog stat pos nmfreq str_byvars num_byvars o.outmiss bynum bymiss targets_from
      str_from kt kstr knum) _ _

theorem store_post (h0 : Host) (stat : Nat → String)
    (pos nmfreq str_byvars num_byvars : Nat → Nat)
    (o : Output) (bynum : Nat → ST_double) (bymiss : Nat → Bool)
    (targets_from str_from kt kstr knum J : Nat) (s0 : String) (h : Host) (log : List Access)
    (hlog : AllOk h0 log) (hcur : h = replay log h0) :
    Post (fun e : (Nat × Host) × List Access => Fails h0 e.1.1 e.2 ∧ e.1.2 = replay e.2 h0)
      (fun s : Store × List Access => AllOk h0 s.2 ∧ s.1.host = replay s.2 h0)
      (store_log stat pos nmfreq str_byvars num_byvars o bynum bymiss targets_from str_from
        kt kstr knum J s0 h log) := by
  unfold store_log
  refine for_loop_post _ _ _ ?_ _ _ ⟨hlog, hcur⟩
  intro j s hs
  unfold store_group_log
  have h1 := for_loop_post
    (fun k (s : Store × List Access) =>
      traced
        (Access.vstore (k + targets_from) (j + 1)
          (store_target_value stat pos nmfreq o.outmiss k s.1))
        (store_target stat pos nmfreq o.outmiss targets_from j k s.1) s.2) _ _
    (fun k t ht => store_target_post h0 stat pos nmfreq o.outmiss targets_from j k t ht)
    (List.range kt) s hs
  revert h1
  cases for_loop
    (fun k (s : Store × List Access) =>
      traced
        (Access.vstore (k + targets_from) (j + 1)
          (store_target_value stat pos nmfreq o.outmiss k s.1))
        (store_target stat pos nmfreq o.outmiss targets_from j k s.1) s.2)
    (List.range kt) s with
  | error e => exact fun h1 => h1
  | ok s1 =>
    intro h1
    have h2 := for_loop_post (store_str_log str_byvars str_from j) _ _
      (fun k t ht => store_str_post h0 str_byvars str_from j k t ht) (List.range kstr) s1 h1
    simp only
    revert h2
    cases for_loop (store_str_log str_byvars str_from j) (List.range kstr) s1 with
    | error e => exact fun h2 => h2
    | ok s2 =>
      intro h2
      have h3 := for_loop_post
        (fun k (s : Store × List Access) =>
          traced
            (Access.vstore (num_byvars k) (j + 1)
              (if bymiss (s.1.offset_bynum + k) then none
                else some (bynum (s.1.offset_bynum + k))))
            (store_num num_byvars bynum bymiss j k s.1) s.2) _ _
        (fun k t ht => store_num_post h0 num_byvars bynum bymiss j k t ht)
        (List.range knum) s2 h2
      simp only
      revert h3
      cases for_loop
        (fun k (s : Store × List Access) =>
          traced
            (Access.vstore (num_byvars k) (j + 1)
              (if bymiss (s.1.offset_bynum + k) then none
                else some (bynum (s.1.offset_bynum + k))))
            (store_num num_byvars bynum bymiss j k s.1) s.2)
        (List.range knum) s2 with
      | error e => exact fun h3 => h3
      | ok s3 => exact fun h3 => h3

/-! ## The traced setup -/

theorem Sim.pure_ {α : Type} (h0 : Host) (a : α) : Sim h0 (pure a : Traced α) (pure a) :=
  ⟨fun _ => rfl, fun _ h1 h2 => ⟨h1, h2⟩⟩

theorem Sim.bind_ {α β : Type} {h0 : Host} {m : Traced α} {e : Except Stop α}
    {f : α → Traced β} {g : α → Except Stop β} (hm : Sim h0 m e)
    (hf : ∀ a, Sim h0 (f a) (g a)) : Sim h0 (m >>= f) (e >>= g) := by
  constructor
  · intro log
    have h1 := hm.run log
    show unlog (StateT.bind m f log) = _
    unfold StateT.bind
    cases hr : m log with
    | error x =>
      rw [hr] at h1
      simp only [unlog] at h1
      rw [← h1]
      rfl
    | ok x =>
      rw [hr] at h1
      simp only [unlog] at h1
      rw [← h1]
      exact (hf x.1).run x.2
  · intro log hl hc
    have h1 := hm.post log hl hc
    show SetupPost h0 (StateT.bind m f log)
    unfold StateT.bind
    cases hr : m log with
    | error x =>
      rw [hr] at h1
      obtain ⟨s, l⟩ := x
      cases s with
      | rc code h' => exact h1
      | undefined => exact h1
    | ok x =>
      rw [hr] at h1
      exact (hf x.1).post x.2 h1.1 h1.2

theorem Sim.stop_undefined {α : Type} (h0 : Host) :
    Sim h0 (stop_log Stop.undefined : Traced α) (throw Stop.undefined) :=
  ⟨fun _ => rfl, fun _ h1 _ => h1⟩

theorem Sim.stop_198 {α : Type} (h0 : Host) :
    Sim h0 (stop_log (Stop.rc 198 h0) : Traced α) (throw (Stop.rc 198 h0)) :=
  ⟨fun _ => rfl, fun _ h1 h2 => ⟨rfl, h2, Or.inr ⟨rfl, h1⟩⟩⟩

theorem Sim.stop_bind {α β : Type} {h0 : Host} {s : Stop} {f : α → Traced β}
    {g : α → Except Stop β} (hs : Sim h0 (stop_log s : Traced β) (throw s)) :
    Sim h0 (stop_log s >>= f) (throw s >>= g) :=
  ⟨fun _ => rfl, fun log h1 h2 => hs.post log h1 h2⟩

theorem SF_scal_use_cases (h : Host) (name : String) :
    (h.scal_rc name = 0 ∧ SF_scal_use h name = .ok (h.scal name))
      ∨ (h.scal_rc name ≠ 0 ∧ SF_scal_use h name = .error (h.scal_rc name)) := by
  unfold SF_scal_use
  by_cases hc : h.scal_rc name = 0
  · exact Or.inl ⟨hc, by rw [if_pos hc]⟩
  · exact Or.inr ⟨hc, by rw [if_neg hc]⟩

theorem SF_macro_use_cases (h : Host) (name : String) :
    (h.text_rc name = 0 ∧ SF_macro_use h name = .ok (h.text name))
      ∨ (h.text_rc name ≠ 0 ∧ SF_macro_use h name = .error (h.text_rc name)) := by
  unfold SF_macro_use
  by_cases hc : h.text_rc name = 0
  · exact Or.inl ⟨hc, by rw [if_pos hc]⟩
  · exact Or.inr ⟨hc, by rw [if_neg hc]⟩

theorem sf_get_vector_cases (h : Host) (name : String) :
    (h.vec_rc name = 0 ∧ sf_get_vector h name = .ok (h.vec name))
      ∨ (h.vec_rc name ≠ 0 ∧ sf_get_vector h name = .error (h.vec_rc name)) := by
  unfold sf_get_vector
  by_cases hc : h.vec_rc name = 0
  · exact Or.inl ⟨hc, by rw [if_pos hc]⟩
  · exact Or.inr ⟨hc, by rw [if_neg hc]⟩

/-- A parameter fetch: an access `a` without effect on the host, whose result
`r` fails exactly with the status of `a`. -/
theorem Sim.fetch_ {α : Type} (h0 : Host) (a : Access) (r : Except Nat α)
    (hsave : a.is_save = false) (heff : Access.effect h0 a = h0)
    (hr : (a.status h0 = 0 ∧ ∃ x, r = .ok x) ∨ (a.status h0 ≠ 0 ∧ r = .error (a.status h0))) :
    Sim h0 (try_host_log h0 a r) (try_host h0 r) := by
  constructor
  · intro log
    unfold try_host_log try_host
    cases r <;> rfl
  · intro log hl hc
    unfold try_host_log
    rcases hr with ⟨h1, x, hx⟩ | ⟨h1, hx⟩
    · rw [hx]
      refine ⟨hl.snoc h1 hsave, ?_⟩
      show h0 = replay (log ++ [a]) h0
      rw [replay_snoc, ← hc, heff]
    · rw [hx]
      refine ⟨rfl, ?_, Or.inl ⟨log, a, rfl, hl, hsave, rfl, h1⟩⟩
      show h0 = replay (log ++ [a]) h0
      rw [replay_snoc, ← hc, heff]

theorem Sim.scal_ (h0 : Host) (name : String) :
    Sim h0 (try_host_log h0 (Access.scal_use name) (SF_scal_use h0 name))
      (try_host h0 (SF_scal_use h0 name)) := by
  refine Sim.fetch_ h0 _ _ rfl ?_ ?_
  · unfold Access.effect
    split <;> rfl
  · rcases SF_scal_use_cases h0 name with ⟨h1, h2⟩ | ⟨h1, h2⟩
    · exact Or.inl ⟨h1, _, h2⟩
    · exact Or.inr ⟨h1, h2⟩

theorem Sim.macro_ (h0 : Host) (name : String) :
    Sim h0 (try_host_log h0 (Access.macro_use name) (SF_macro_use h0 name))
      (try_host h0 (SF_macro_use h0 name)) := by
  refine Sim.fetch_ h0 _ _ rfl ?_ ?_
  · unfold Access.effect
    split <;> rfl
  · rcases SF_macro_use_cases h0 name with ⟨h1, h2⟩ | ⟨h1, h2⟩
    · exact Or.inl ⟨h1, _, h2⟩
    · exact Or.inr ⟨h1, h2⟩

theorem Sim.vector_ (h0 : Host) (name : String) :
    Sim h0 (try_host_log h0 (Access.get_vector name) (sf_get_vector h0 name))
      (try_host h0 (sf_get_vector h0 name)) := by
  refine Sim.fetch_ h0 _ _ rfl ?_ ?_
  · unfold Access.effect
    split <;> rfl
  · rcases sf_get_vector_cases h0 name with ⟨h1, h2⟩ | ⟨h1, h2⟩
    · exact Or.inl ⟨h1, _, h2⟩
    · exact Or.inr ⟨h1, h2⟩

/-- A call of a key reader. -/
theorem Sim.call_ {α : Type} (h0 : Host)
    (rL : List Access → Except (Nat × List Access) (α × List Access)) (r : Except Nat α)
    (hr : ∀ log, unlog (rL log) = r)
    (hp : ∀ log, AllOk h0 log → h0 = replay log h0 →
      Post (fun e : Nat × List Access => Fails h0 e.1 e.2 ∧ h0 = replay e.2 h0)
        (fun s : α × List Access => AllOk h0 s.2 ∧ h0 = replay s.2 h0) (rL log)) :
    Sim h0 (try_call_log h0 rL) (try_host h0 r) := by
  constructor
  · intro log
    have h1 := hr log
    unfold try_call_log try_host
    cases hx : rL log with
    | error e =>
      rw [hx] at h1
      simp only [unlog] at h1
      rw [← h1]
      rfl
    | ok x =>
      rw [hx] at h1
      simp only [unlog] at h1
      rw [← h1]
      rfl
  · intro log hl hc
    have h1 := hp log hl hc
    unfold try_call_log
    cases hx : rL log with
    | error e =>
      rw [hx] at h1
      exact ⟨rfl, h1.2, Or.inl h1.1⟩
    | ok x =>
      rw [hx] at h1
      exact h1

/-- The traced setup gives the result of `stata_setup`, and its log is as
`SetupPost` says: the proof follows the text of the two definitions, one
access at a time. -/
theorem stata_setup_sim (hash128 : List ByVal → Nat × Nat) (h : Host) :
    Sim h (stata_setup_log hash128 h) (stata_setup hash128 h) := by
  unfold stata_setup_log stata_setup
  lift_lets
  intro in1 in2 N kint byk cfrom jpL jp
  have key1 : ∀ y, Sim h (jpL y) (jp y) := by
    intro y
    unfold jpL jp
    repeat (first
      | refine Sim.bind_ (Sim.scal_ _ _) (fun _ => ?_)
      | refine Sim.bind_ (Sim.macro_ _ _) (fun _ => ?_)
      | refine Sim.bind_ (Sim.vector_ _ _) (fun _ => ?_))
    lift_lets
    intro bmaxs jpL2 jp2
    have key2 : ∀ b, Sim h (jpL2 b) (jp2 b) := by
      intro b
      unfold jpL2 jp2
      repeat (first
        | refine Sim.bind_ (Sim.scal_ _ _) (fun _ => ?_)
        | refine Sim.bind_ (Sim.macro_ _ _) (fun _ => ?_)
        | refine Sim.bind_ (Sim.vector_ _ _) (fun _ => ?_))
      lift_lets
      intro jpL3 jp3
      have key3 : ∀ sd, Sim h (jpL3 sd) (jp3 sd) := by
        intro sd
        unfold jpL3 jp3
        lift_lets
        intro jpL4 jp4
        have key4 : ∀ nd, Sim h (jpL4 nd) (jp4 nd) := by
          intro nd
          unfold jpL4 jp4
          lift_lets
          intro p jpL5 jp5
          have key5 : ∀ g, Sim h (jpL5 g) (jp5 g) := by
            intro g
            unfold jpL5 jp5
            lift_lets
            intro index
            split
            · exact Sim.stop_undefined _
            · exact Sim.pure_ _ _
          split
          · split
            · exact Sim.bind_
                (Sim.call_ _ _ _ (sf_get_varlist_bijection_unlog _ _ _ _ _ _ _)
                  (sf_get_varlist_bijection_post _ _ _ _ _ _ _ _)) key5
            · exact Sim.bind_ (Sim.call_ _ _ _ (sf_get_variable_ashash_unlog _ _ _ _ _)
                (sf_get_variable_ashash_post _ _ _ _ _ _)) key5
          · refine Sim.bind_ (Sim.call_ _ _ _ (sf_get_varlist_hash_unlog _ _ _ _ _ _ _)
              (sf_get_varlist_hash_post _ _ _ _ _ _ _ _)) ?_
            intro g
            lift_lets
            intro index
            split
            · exact Sim.stop_undefined _
            · exact Sim.pure_ _ _
        split
        · exact Sim.bind_ (Sim.vector_ _ _) key4
        · exact Sim.bind_ (Sim.pure_ _ _) key4
      split
      · exact Sim.bind_ (Sim.vector_ _ _) key3
      · exact Sim.bind_ (Sim.pure_ _ _) key3
    split
    · exact Sim.stop_bind (Sim.stop_undefined _)
    · exact Sim.bind_ (Sim.pure_ _ _) key2
  split
  · exact Sim.stop_bind (Sim.stop_198 _)
  · exact Sim.bind_ (Sim.pure_ _ _) key1

/-! ## The accesses of the collapse phase and of the whole run -/

theorem SF_scal_save_cases (h : Host) (name : String) (z : ST_double) :
    (h.scal_save_rc name = 0
        ∧ SF_scal_save h name z = .ok (Access.effect h (Access.scal_save name z)))
      ∨ (h.scal_save_rc name ≠ 0 ∧ SF_scal_save h name z = .error (h.scal_save_rc name)) := by
  unfold SF_scal_save
  by_cases hc : h.scal_save_rc name = 0
  · refine Or.inl ⟨hc, ?_⟩
    rw [if_pos hc]
    unfold Access.effect
    exact congrArg Except.ok (if_pos (show Access.status h (Access.scal_save name z) = 0 from hc)).symm
  · exact Or.inr ⟨hc, by rw [if_neg hc]⟩

theorem collapse_data_unlog (mf : String → (Nat → ST_double) → Nat → Nat → ST_double)
    (p : Locals) (index info : Nat → Nat) (J : Nat) (h : Host) (log : List Access) :
    (collapse_data_log mf p index info J h log).1 = collapse_data mf p index info J h := by
  unfold collapse_data_log collapse_data
  have h1 := gather_unlog h index info p.collapse_from p.k_uniq_vars J log
  rw [← h1]
  cases gather_log h index info p.collapse_from p.k_uniq_vars J log with
  | error e => rfl
  | ok g =>
    simp only [unlog]
    have h2 := byread_unlog h.in1 index info p.str_byvars p.num_byvars p.str_from p.byvars_kstr
      p.byvars_knum J h g.2
    rw [← h2]
    cases byread_log h.in1 index info p.str_byvars p.num_byvars p.str_from p.byvars_kstr
      p.byvars_knum J h g.2 with
    | error e => rfl
    | ok b =>
      simp only [unlog]
      have h3 := store_unlog p.stat p.pos_targets (nmfreq_of g.1.all_nonmiss p.k_uniq_vars J)
        p.str_byvars p.num_byvars
        (reduce mf p.stat p.pos_targets info g.1 p.k_targets p.k_uniq_vars J) b.1.bynum
        b.1.bymiss p.targets_from p.str_from p.k_targets p.byvars_kstr p.byvars_knum J b.1.s
        b.1.host b.2
      rw [← h3]
      cases store_log p.stat p.pos_targets (nmfreq_of g.1.all_nonmiss p.k_uniq_vars J)
        p.str_byvars p.num_byvars
        (reduce mf p.stat p.pos_targets info g.1 p.k_targets p.k_uniq_vars J) b.1.bynum
        b.1.bymiss p.targets_from p.str_from p.k_targets p.byvars_kstr p.byvars_knum J b.1.s
        b.1.host b.2 with
      | error e => rfl
      | ok t =>
        simp only [unlog]
        cases SF_scal_save t.1.host "__gtools_J" (J : ℚ) <;> rfl

theorem collapse_data_post (mf : String → (Nat → ST_double) → Nat → Nat → ST_double)
    (p : Locals) (index info : Nat → Nat) (J : Nat) (h : Host) (log : List Access)
    (hlog : AllOk h log) (hcur : h = replay log h) :
    CallPost h
      (Outcome.returned (collapse_data_log mf p index info J h log).1.1
        (collapse_data_log mf p index info J h log).1.2,
        (collapse_data_log mf p index info J h log).2) := by
  unfold collapse_data_log
  have h1 := gather_post h h index info p.collapse_from p.k_uniq_vars J log hlog hcur
  revert h1
  cases gather_log h index info p.collapse_from p.k_uniq_vars J log with
  | error e =>
    intro h1
    exact ⟨h1.2, Or.inl h1.1⟩
  | ok g =>
    intro h1
    have h2 := byread_post h h.in1 index info p.str_byvars p.num_byvars p.str_from
      p.byvars_kstr p.byvars_knum J h g.2 h1.1 h1.2
    simp only
    revert h2
    cases byread_log h.in1 index info p.str_byvars p.num_byvars p.str_from p.byvars_kstr
      p.byvars_knum J h g.2 with
    | error e =>
      intro h2
      exact ⟨h2.2, Or.inl h2.1⟩
    | ok b =>
      intro h2
      have h3 := store_post h p.stat p.pos_targets
        (nmfreq_of g.1.all_nonmiss p.k_uniq_vars J) p.str_byvars p.num_byvars
        (reduce mf p.stat p.pos_targets info g.1 p.k_targets p.k_uniq_vars J) b.1.bynum
        b.1.bymiss p.targets_from p.str_from p.k_targets p.byvars_kstr p.byvars_knum J b.1.s
        b.1.host b.2 h2.1 h2.2
      simp only
      revert h3
      cases store_log p.stat p.pos_targets (nmfreq_of g.1.all_nonmiss p.k_uniq_vars J)
        p.str_byvars p.num_byvars
        (reduce mf p.stat p.pos_targets info g.1 p.k_targets p.k_uniq_vars J) b.1.bynum
        b.1.bymiss p.targets_from p.str_from p.k_targets p.byvars_kstr p.byvars_knum J b.1.s
        b.1.host b.2 with
      | error e =>
        intro h3
        exact ⟨h3.2, Or.inl h3.1⟩
      | ok t =>
        intro h3
        simp only
        rcases SF_scal_save_cases t.1.host "__gtools_J" (J : ℚ) with ⟨_, h5⟩ | ⟨h4, h5⟩
        · rw [h5]
          refine ⟨?_, Or.inr (Or.inr ⟨rfl, t.2, _, rfl, h3.1⟩)⟩
          show Access.effect t.1.host _ = replay (t.2 ++ [_]) h
          rw [replay_snoc, ← h3.2]
        · rw [h5]
          refine ⟨?_, Or.inr (Or.inr ⟨rfl, t.2, _, rfl, h3.1⟩)⟩
          show t.1.host = replay (t.2 ++ [_]) h
          rw [replay_snoc, ← h3.2]
          exact (@effect_of_fail t.1.host (Access.scal_save "__gtools_J" (J : ℚ)) h4).symm

theorem stata_call_log_fst (mf : String → (Nat → ST_double) → Nat → Nat → ST_double)
    (hash128 : List ByVal → Nat × Nat) (h : Host) :
    (stata_call_log mf hash128 h).1 = stata_call mf hash128 h := by
  unfold stata_call_log stata_call
  have h1 := (stata_setup_sim hash128 h).run []
  rw [← h1]
  cases hr : stata_setup_log hash128 h [] with
  | error e =>
    obtain ⟨s, l⟩ := e
    cases s <;> rfl
  | ok x =>
    obtain ⟨⟨p, index, info, J⟩, l⟩ := x
    simp only [unlog]
    rw [collapse_data_unlog]

theorem stata_call_log_post (mf : String → (Nat → ST_double) → Nat → Nat → ST_double)
    (hash128 : List ByVal → Nat × Nat) (h : Host) :
    CallPost h (stata_call_log mf hash128 h) := by
  unfold stata_call_log
  have h1 := (stata_setup_sim hash128 h).post [] (AllOk.nil h) rfl
  revert h1
  cases hr : stata_setup_log hash128 h [] with
  | error e =>
    obtain ⟨s, l⟩ := e
    cases s with
    | rc code h' =>
      intro h1
      obtain ⟨e1, e2, e3⟩ := h1
      refine ⟨by rw [e1]; exact e2, ?_⟩
      rcases e3 with e3 | e3
      · exact Or.inl e3
      · exact Or.inr (Or.inl e3)
    | undefined => exact fun h1 => h1
  | ok x =>
    obtain ⟨⟨p, index, info, J⟩, l⟩ := x
    intro h1
    exact collapse_data_post mf p index info J h l h1.1 h1.2

/-! ## The host after the accesses of a log -/

theorem Fails.last {h0 : Host} {rc : Nat} {log pre post : List Access} {a : Access}
    (hf : Fails h0 rc log) (hlog : log = pre ++ a :: post) (ha : a.status h0 ≠ 0) :
    post = [] ∧ a.status h0 = rc ∧ AllOk h0 pre ∧ a.is_save = false := by
  obtain ⟨pre0, a0, e, hpre, hsave, hst, _⟩ := hf
  rw [e] at hlog
  rcases List.eq_nil_or_concat post with hp | ⟨post', l, hp⟩
  · subst hp
    obtain ⟨e1, e2⟩ := List.append_inj' hlog rfl
    have e3 : a0 = a := by
      cases e2
      rfl
    subst e1
    subst e3
    exact ⟨rfl, hst, hpre, hsave⟩
  · exfalso
    rw [hp, List.concat_eq_append] at hlog
    have e' : pre0 ++ [a0] = (pre ++ a :: post') ++ [l] := by
      rw [hlog, List.append_assoc]
      rfl
    obtain ⟨e1, _⟩ := List.append_inj' e' rfl
    have hmem : a ∈ pre0 := by
      rw [e1]
      exact List.mem_append_right _ (List.mem_cons_self _ _)
    exact ha (hpre a hmem).1

theorem effect_saved (h : Host) (a : Access) (ha : a.is_save = false) :
    (Access.effect h a).saved = h.saved := by
  unfold Access.effect
  split
  · cases a <;> first | rfl | cases ha
  · rfl

theorem replay_saved (log : List Access) (h : Host) (hl : ∀ a ∈ log, a.is_save = false) :
    (replay log h).saved = h.saved := by
  induction log using List.reverseRecOn with
  | nil => rfl
  | append_singleton l a ih =>
    rw [replay_snoc, effect_saved _ _ (hl a (List.mem_append_right _ (List.mem_singleton.2 rfl))),
      ih (fun b hb => hl b (List.mem_append_left _ hb))]

theorem effect_num_ne (h : Host) (a : Access) (i j : Nat)
    (hne : (Access.effect h a).num i j ≠ h.num i j) :
    ∃ z, a = Access.vstore i j z ∧ a.status h = 0 := by
  unfold Access.effect at hne
  split at hne
  · rename_i hs
    cases a with
    | vstore i' j' z =>
      simp only at hne
      by_cases hi : i = i'
      · subst hi
        rw [Function.update_same] at hne
        by_cases hj : j = j'
        · subst hj
          exact ⟨z, rfl, hs⟩
        · rw [Function.update_noteq hj] at hne
          exact absurd rfl hne
      · rw [Function.update_noteq hi] at hne
        exact absurd rfl hne
    | _ => exact absurd rfl hne
  · exact absurd rfl hne

theorem effect_str_ne (h : Host) (a : Access) (i j : Nat)
    (hne : (Access.effect h a).str i j ≠ h.str i j) :
    ∃ s, a = Access.sstore i j s ∧ a.status h = 0 := by
  unfold Access.effect at hne
  split at hne
  · rename_i hs
    cases a with
    | sstore i' j' z =>
      simp only at hne
      by_cases hi : i = i'
      · subst hi
        rw [Function.update_same] at hne
        by_cases hj : j = j'
        · subst hj
          exact ⟨z, rfl, hs⟩
        · rw [Function.update_noteq hj] at hne
          exact absurd rfl hne
      · rw [Function.update_noteq hi] at hne
        exact absurd rfl hne
    | _ => exact absurd rfl hne
  · exact absurd rfl hne

theorem replay_num_ne (log : List Access) (h : Host) (i j : Nat)
    (hne : (replay log h).num i j ≠ h.num i j) :
    ∃ z, Access.vstore i j z ∈ log ∧ h.vstore_rc i j = 0 := by
  induction log using List.reverseRecOn with
  | nil => exact absurd rfl hne
  | append_singleton l a ih =>
    rw [replay_snoc] at hne
    by_cases hc : (Access.effect (replay l h) a).num i j = (replay l h).num i j
    · rw [hc] at hne
      obtain ⟨z, hz, hrc⟩ := ih hne
      exact ⟨z, List.mem_append_left _ hz, hrc⟩
    · obtain ⟨z, hz, hrc⟩ := effect_num_ne _ _ _ _ hc
      rw [replay_status] at hrc
      subst hz
      exact ⟨z, List.mem_append_right _ (List.mem_singleton.2 rfl), hrc⟩

theorem replay_str_ne (log : List Access) (h : Host) (i j : Nat)
    (hne : (replay log h).str i j ≠ h.str i j) :
    ∃ s, Access.sstore i j s ∈ log ∧ h.sstore_rc i j = 0 := by
  induction log using List.reverseRecOn with
  | nil => exact absurd rfl hne
  | append_singleton l a ih =>
    rw [replay_snoc] at hne
    by_cases hc : (Access.effect (replay l h) a).str i j = (replay l h).str i j
    · rw [hc] at hne
      obtain ⟨z, hz, hrc⟩ := ih hne
      exact ⟨z, List.mem_append_left _ hz, hrc⟩
    · obtain ⟨z, hz, hrc⟩ := effect_str_ne _ _ _ _ hc
      rw [replay_status] at hrc
      subst hz
      exact ⟨z, List.mem_append_right _ (List.mem_singleton.2 rfl), hrc⟩

theorem effect_no_write (h : Host) (a : Access) (ha : a.is_write = false) :
    Access.effect h a = h := by
  unfold Access.effect
  split
  · cases a <;> first | rfl | cases ha
  · rfl

theorem replay_no_write (log : List Access) (h : Host) (hl : ∀ a ∈ log, a.is_write = false) :
    replay log h = h := by
  induction log using List.reverseRecOn with
  | nil => rfl
  | append_singleton l a ih =>
    rw [replay_snoc, ih (fun b hb => hl b (List.mem_append_left _ hb)),
      effect_no_write _ _ (hl a (List.mem_append_right _ (List.mem_singleton.2 rfl)))]

theorem Fails.no_save {h0 : Host} {rc : Nat} {log : List Access} (hf : Fails h0 rc log) :
    ∀ a ∈ log, a.is_save = false := by
  obtain ⟨pre, a0, e, hpre, hsave, _, _⟩ := hf
  intro a ha
  rw [e] at ha
  rcases List.mem_append.1 ha with ha | ha
  · exact (hpre a ha).2
  · rw [List.mem_singleton] at ha
    subst ha
    exact hsave

/-! ## An empty row range -/

/-- An update `worst *= range` of line 163 is made only after the test of
line 157 has failed, and is then the exact product, at most `ULONG_MAX`. -/
theorem worst_update_exact (worst range : Nat) (hr : range ≠ 0)
    (ht : ¬ worst > ULONG_MAX / range) :
    mul_size_t worst range = worst * range ∧ worst * range ≤ ULONG_MAX := by
  have h1 : worst ≤ ULONG_MAX / range := Nat.le_of_not_gt ht
  have h2 : worst * range ≤ ULONG_MAX :=
    (Nat.le_div_iff_mul_le (Nat.pos_of_ne_zero hr)).1 h1
  refine ⟨?_, h2⟩
  unfold mul_size_t
  apply Nat.mod_eq_of_lt
  unfold ULONG_MAX at h2
  omega

/-! ## Theorems -/

/-- C1 (evaluation of the code at the failing input): for the three all-integer
by-columns with minima `0, 0, 0` and maxima `2147483646, 7, 2147483646` the
pre-check leaves `integers_ok = 1` although the exact product of the three
ranges exceeds `ULONG_MAX`: the loop multiplies by the range of column 1
twice and never by the range of the last column. -/
theorem C1_integers_ok_despite_overflow :
    integers_ok_check 3 [-1, -1, -1] [0, 0, 0] [2147483646, 7, 2147483646] = some true
      ∧ (ULONG_MAX : Int) < range_product 3 [0, 0, 0] [2147483646, 7, 2147483646] := by
  decide

/-- C3: for a non-empty group `j` and a target `k` on source variable
`pos_targets[k]`, after the gather pass and the reducer: if the statistic is
`first`, the output is flagged missing exactly when the variable is missing in
the group's first row in sorted order, and otherwise the output is that row's
value, which is the entry at index `0` of the slice
`all_buffer[start .. start + end)`; if the statistic is `last`, the same holds
with the group's last row and the entry at index `end - 1`. -/
theorem C3_first_last (mf : String → (Nat → ST_double) → Nat → Nat → ST_double)
    (h : Host) (index info : Nat → Nat) (stat : Nat → String) (pos_targets : Nat → Nat)
    (collapse_from k_uniq_vars k_targets J j k : Nat)
    (hinfo : info_ok info J)
    (hreads : gather_reads_ok h index info collapse_from k_uniq_vars J)
    (hsize : info J * k_uniq_vars ≤ 2 ^ 64)
    (hj : j < J) (hk : k < k_targets) (hv : pos_targets k < k_uniq_vars)
    (hne : info j < info (j + 1)) :
    ∃ g, gather h index info collapse_from k_uniq_vars J = .ok g ∧
      (stat k = "first" →
        ((reduce mf stat pos_targets info g k_targets k_uniq_vars J).outmiss (j * k_targets + k)
            = true ↔ cell_val h index collapse_from (pos_targets k) (info j) = none)
        ∧ ∀ z, cell_val h index collapse_from (pos_targets k) (info j) = some z →
          (reduce mf stat pos_targets info g k_targets k_uniq_vars J).output (j * k_targets + k)
              = z
            ∧ (buffer_slice g.all_buffer
                (g.offsets_buffer j + (info (j + 1) - info j) * pos_targets k)
                (g.all_nonmiss (j * k_uniq_vars + pos_targets k)))[0]? = some z)
      ∧ (stat k = "last" →
        ((reduce mf stat pos_targets info g k_targets k_uniq_vars J).outmiss (j * k_targets + k)
            = true ↔ cell_val h index collapse_from (pos_targets k) (info (j + 1) - 1) = none)
        ∧ ∀ z, cell_val h index collapse_from (pos_targets k) (info (j + 1) - 1) = some z →
          (reduce mf stat pos_targets info g k_targets k_uniq_vars J).output (j * k_targets + k)
              = z
            ∧ (buffer_slice g.all_buffer
                (g.offsets_buffer j + (info (j + 1) - info j) * pos_targets k)
                (g.all_nonmiss (j * k_uniq_vars + pos_targets k)))[
                  g.all_nonmiss (j * k_uniq_vars + pos_targets k) - 1]? = some z) := by
  obtain ⟨g, hg⟩ := gather_total h index info collapse_from k_uniq_vars J hreads
  refine ⟨g, hg, ?_, ?_⟩
  all_goals
    have I := gather_inv h index info collapse_from k_uniq_vars J hinfo g hg
    obtain ⟨r1, r2⟩ := reduce_at mf stat pos_targets info g k_targets k_uniq_vars J j k hj hk
    have hF := I.firstmiss j (pos_targets k) hj hv
    have hL := I.lastmiss j (pos_targets k) hj hv
    have hC := I.count j (pos_targets k) hj hv
    have hO := I.offsets j hj
    intro hs
    rw [r1, r2]
    unfold target_entry reduce_target reduce_branch
    simp only [hs, mf_strcmp_wrapper]
  · cases hc : cell_val h index collapse_from (pos_targets k) (info j) with
    | none =>
      have hf : g.all_firstmiss (j * k_uniq_vars + pos_targets k) = true := hF.2 ⟨hne, hc⟩
      simp [hf, Output.init]
    | some z =>
      have hf : g.all_firstmiss (j * k_uniq_vars + pos_targets k) = false := by
        rw [Bool.eq_false_iff]; intro hx; have := (hF.1 hx).2; rw [hc] at this; cases this
      obtain ⟨q1, q2⟩ := group_values_first h index info collapse_from (pos_targets k) j z hne hc
      have hval := I.values j (pos_targets k) 0 hj hv q1
      rw [q2] at hval
      have e0 : g.all_buffer (g.offsets_buffer j + (info (j + 1) - info j) * pos_targets k) = z := by
        rw [hO]; simpa using hval
      simp only [hf, Output.init]
      refine ⟨by simp, ?_⟩
      intro z' hz'
      cases hz'
      refine ⟨by simp [e0], ?_⟩
      rw [buffer_slice_getElem? _ _ _ _ (by rw [hC]; exact q1)]
      simp [e0]
  · cases hc : cell_val h index collapse_from (pos_targets k) (info (j + 1) - 1) with
    | none =>
      have hf : g.all_lastmiss (j * k_uniq_vars + pos_targets k) = true := hL.2 ⟨hne, hc⟩
      simp [hf, Output.init]
    | some z =>
      have hf : g.all_lastmiss (j * k_uniq_vars + pos_targets k) = false := by
        rw [Bool.eq_false_iff]; intro hx; have := (hL.1 hx).2; rw [hc] at this; cases this
      obtain ⟨q1, q2⟩ := group_values_last h index info collapse_from (pos_targets k) j z hne hc
      have hval := I.values j (pos_targets k) _ hj hv (Nat.sub_lt q1 Nat.one_pos)
      rw [q2] at hval
      have hlen := group_values_length_le h index info collapse_from (pos_targets k) j
      have hb := slot_bound hinfo hj hv
      have hli : last_index (g.offsets_buffer j + (info (j + 1) - info j) * pos_targets k)
          (g.all_nonmiss (j * k_uniq_vars + pos_targets k))
          = g.offsets_buffer j + (info (j + 1) - info j) * pos_targets k
            + (g.all_nonmiss (j * k_uniq_vars + pos_targets k) - 1) := by
        rw [last_index_eq (by rw [hC]; exact q1) (by rw [hC, hO]; omega)]
        rw [hC]; omega
      have e0 : g.all_buffer (g.offsets_buffer j + (info (j + 1) - info j) * pos_targets k
          + (g.all_nonmiss (j * k_uniq_vars + pos_targets k) - 1)) = z := by
        rw [hO, hC]; exact hval
      simp only [hf, Output.init]
      refine ⟨by simp, ?_⟩
      intro z' hz'
      cases hz'
      refine ⟨by simp [hli, e0], ?_⟩
      rw [buffer_slice_getElem? _ _ _ _ (by rw [hC]; omega)]
      simp [e0]

theorem C3_first_last_witness :
    ∃ g, gather (ex_host ex_src) ex_index ex_info 2 1 3 = .ok g ∧
      (reduce ex_mf (fun _ => "first") (fun _ => 0) ex_info g 1 1 3).outmiss 2 = false ∧
      (reduce ex_mf (fun _ => "first") (fun _ => 0) ex_info g 1 1 3).output 2 = 100 ∧
      (reduce ex_mf (fun _ => "last") (fun _ => 0) ex_info g 1 1 3).output 2 = 0 := by
  have hinfo : info_ok ex_info 3 := ⟨rfl, fun j _ => by unfold ex_info; omega⟩
  have hreads : gather_reads_ok (ex_host ex_src) ex_index ex_info 2 1 3 :=
    fun _ _ _ _ _ _ _ => rfl
  obtain ⟨g, hg, hfirst, _⟩ := C3_first_last ex_mf (ex_host ex_src) ex_index ex_info
    (fun _ => "first") (fun _ => 0) 2 1 1 3 2 0 hinfo hreads (by decide) (by decide)
    (by decide) (by decide) (by decide)
  obtain ⟨g', hg', _, hlast⟩ := C3_first_last ex_mf (ex_host ex_src) ex_index ex_info
    (fun _ => "last") (fun _ => 0) 2 1 1 3 2 0 hinfo hreads (by decide) (by decide)
    (by decide) (by decide) (by decide)
  have e : g' = g := by rw [hg] at hg'; cases hg'; rfl
  subst e
  refine ⟨g', hg, ?_, ((hfirst rfl).2 100 rfl).1, ((hlast rfl).2 0 rfl).1⟩
  rw [Bool.eq_false_iff]
  intro hx
  have := (hfirst rfl).1.1 hx
  cases this

/-- C4 (evaluation of the code at the failing input): in the six-row example
with the source variable missing in both rows of the second group, the
non-missing buffer of that group is empty, yet for the statistic `firstnm` the
reducer leaves the missing flag of the group unset and takes as output the
never-written entry `all_buffer[start]`, which is `0`. -/
theorem C4_firstnm_empty_buffer_not_flagged :
    ∃ g, gather (ex_host ex_src_missing) ex_index ex_info 2 1 3 = .ok g ∧
      group_values (ex_host ex_src_missing) ex_index ex_info 2 0 1 = [] ∧
      g.all_nonmiss 1 = 0 ∧
      (reduce ex_mf (fun _ => "firstnm") (fun _ => 0) ex_info g 1 1 3).outmiss 1 = false ∧
      (reduce ex_mf (fun _ => "firstnm") (fun _ => 0) ex_info g 1 1 3).output 1 = 0 :=
  ⟨_, rfl, rfl, rfl, rfl, rfl⟩

/-- C5 (evaluation of the code at the failing input): in the six-row example
with the source variable missing in both rows of the second group, the
statistic `lastnm` reads for that group the index `start + end - 1 = 1`, below
the group's `start = 2`: the output is `20`, the last value of the first
group, and the missing flag is unset; and for a first group with an empty
buffer the index `0 + 0 - 1` wraps to `2 ^ 64 - 1`. -/
theorem C5_lastnm_reads_outside_slot :
    ∃ g, gather (ex_host ex_src_missing) ex_index ex_info 2 1 3 = .ok g ∧
      g.offsets_buffer 1 + (ex_info 2 - ex_info 1) * 0 = 2 ∧
      g.all_nonmiss 1 = 0 ∧
      last_index 2 0 = 1 ∧
      (reduce ex_mf (fun _ => "lastnm") (fun _ => 0) ex_info g 1 1 3).outmiss 1 = false ∧
      (reduce ex_mf (fun _ => "lastnm") (fun _ => 0) ex_info g 1 1 3).output 1 = 20 ∧
      last_index 0 0 = 2 ^ 64 - 1 :=
  ⟨_, rfl, by decide, by decide, by decide, by decide, by decide, by decide⟩

/-- C6: for a target `k` with statistic `count` on source variable
`pos_targets[k]` and a group `j`, the reducer never sets the missing flag and
the output is the number of rows of the group in which the variable is not
missing; when the variable is missing in no row of the group this is the
group's row count `info[j+1] - info[j]`. -/
theorem C6_count (mf : String → (Nat → ST_double) → Nat → Nat → ST_double)
    (h : Host) (index info : Nat → Nat) (stat : Nat → String) (pos_targets : Nat → Nat)
    (collapse_from k_uniq_vars k_targets J j k : Nat)
    (hinfo : info_ok info J)
    (hreads : gather_reads_ok h index info collapse_from k_uniq_vars J)
    (hj : j < J) (hk : k < k_targets) (hv : pos_targets k < k_uniq_vars)
    (hs : stat k = "count") :
    ∃ g, gather h index info collapse_from k_uniq_vars J = .ok g ∧
      (reduce mf stat pos_targets info g k_targets k_uniq_vars J).outmiss (j * k_targets + k)
        = false
      ∧ (reduce mf stat pos_targets info g k_targets k_uniq_vars J).output (j * k_targets + k)
        = (((group_positions info j).countP
            (fun i => (cell_val h index collapse_from (pos_targets k) i).isSome) : Nat) : ℚ)
      ∧ ((∀ i, info j ≤ i → i < info (j + 1) →
            cell_val h index collapse_from (pos_targets k) i ≠ none) →
          (reduce mf stat pos_targets info g k_targets k_uniq_vars J).output (j * k_targets + k)
            = ((info (j + 1) - info j : Nat) : ℚ)) := by
  obtain ⟨g, hg⟩ := gather_total h index info collapse_from k_uniq_vars J hreads
  have I := gather_inv h index info collapse_from k_uniq_vars J hinfo g hg
  obtain ⟨r1, r2⟩ := reduce_at mf stat pos_targets info g k_targets k_uniq_vars J j k hj hk
  have hC := I.count j (pos_targets k) hj hv
  have hout : (reduce mf stat pos_targets info g k_targets k_uniq_vars J).output
      (j * k_targets + k)
      = (((group_positions info j).countP
          (fun i => (cell_val h index collapse_from (pos_targets k) i).isSome) : Nat) : ℚ) := by
    rw [r1]
    unfold target_entry reduce_target reduce_branch
    simp only [hs, mf_strcmp_wrapper]
    simp only [decide_True, if_true, Function.update_same]
    rw [hC]
    unfold group_values
    rw [List.length_filterMap_eq_countP]
  refine ⟨g, hg, ?_, hout, ?_⟩
  · rw [r2]
    unfold target_entry reduce_target reduce_branch
    simp [hs, mf_strcmp_wrapper, Output.init]
  · intro hall
    rw [hout]
    congr 1
    have : (group_positions info j).countP
        (fun i => (cell_val h index collapse_from (pos_targets k) i).isSome)
        = (group_positions info j).length := by
      rw [List.countP_eq_length]
      intro i hi
      unfold group_positions at hi
      rw [List.mem_range'_1] at hi
      have := hall i hi.1 (by omega)
      cases hc : cell_val h index collapse_from (pos_targets k) i with
      | none => exact absurd hc this
      | some z => rfl
    rw [this]
    unfold group_positions
    rw [List.length_range']

theorem C6_count_witness :
    ∃ g, gather (ex_host ex_src_missing) ex_index ex_info 2 1 3 = .ok g ∧
      (reduce ex_mf (fun _ => "count") (fun _ => 0) ex_info g 1 1 3).outmiss 1 = false ∧
      (reduce ex_mf (fun _ => "count") (fun _ => 0) ex_info g 1 1 3).output 1 = 0 ∧
      (reduce ex_mf (fun _ => "count") (fun _ => 0) ex_info g 1 1 3).output 2 = 2 := by
  have hinfo : info_ok ex_info 3 := ⟨rfl, fun j _ => by unfold ex_info; omega⟩
  have hreads : gather_reads_ok (ex_host ex_src_missing) ex_index ex_info 2 1 3 :=
    fun _ _ _ _ _ _ _ => rfl
  obtain ⟨g, hg, h1, h2, _⟩ := C6_count ex_mf (ex_host ex_src_missing) ex_index ex_info
    (fun _ => "count") (fun _ => 0) 2 1 1 3 1 0 hinfo hreads (by decide) (by decide)
    (by decide) rfl
  obtain ⟨g', hg', _, _, h3⟩ := C6_count ex_mf (ex_host ex_src_missing) ex_index ex_info
    (fun _ => "count") (fun _ => 0) 2 1 1 3 2 0 hinfo hreads (by decide) (by decide)
    (by decide) rfl
  have e : g' = g := by rw [hg] at hg'; cases hg'; rfl
  subst e
  refine ⟨g', hg, h1, ?_, ?_⟩
  · rw [h2]; rfl
  · have := h3 (by
      intro i hi1 hi2
      have hi1 : 4 ≤ i := hi1
      have hi2 : i < 6 := hi2
      interval_cases i <;> simp [cell_val, ex_host, ex_index, ex_src_missing])
    rw [this]
    norm_num [ex_info]

/-- C8: for a target `k` on source variable `pos_targets[k]` and a group `j`,
with `end` the number of non-missing values of the variable in the group: if
the statistic is `sd` the output is flagged missing exactly when `end < 2`; if
it is none of `count`, `percent`, `first`, `last`, `firstnm`, `lastnm`, `sd`
the output is flagged missing exactly when `end = 0`; and whenever the branch
calling `mf_switch_fun` is taken the flag is not set and the output is the
result of the call on the slice `[start, start + end)`. -/
theorem C8_missing_policy (mf : String → (Nat → ST_double) → Nat → Nat → ST_double)
    (h : Host) (index info : Nat → Nat) (stat : Nat → String) (pos_targets : Nat → Nat)
    (collapse_from k_uniq_vars k_targets J j k : Nat)
    (hinfo : info_ok info J)
    (hreads : gather_reads_ok h index info collapse_from k_uniq_vars J)
    (hj : j < J) (hk : k < k_targets) (hv : pos_targets k < k_uniq_vars) :
    ∃ g, gather h index info collapse_from k_uniq_vars J = .ok g ∧
      g.all_nonmiss (j * k_uniq_vars + pos_targets k)
        = (group_values h index info collapse_from (pos_targets k) j).length
      ∧ (stat k = "sd" →
        ((reduce mf stat pos_targets info g k_targets k_uniq_vars J).outmiss (j * k_targets + k)
          = true ↔ (group_values h index info collapse_from (pos_targets k) j).length < 2))
      ∧ (stat k ∉ ["count", "percent", "first", "last", "firstnm", "lastnm", "sd"] →
        ((reduce mf stat pos_targets info g k_targets k_uniq_vars J).outmiss (j * k_targets + k)
          = true ↔ (group_values h index info collapse_from (pos_targets k) j).length = 0))
      ∧ (reduce_branch (stat k) (g.all_firstmiss (j * k_uniq_vars + pos_targets k))
            (g.all_lastmiss (j * k_uniq_vars + pos_targets k))
            (g.all_nonmiss (j * k_uniq_vars + pos_targets k)) = Branch.switch_fun →
        (reduce mf stat pos_targets info g k_targets k_uniq_vars J).outmiss (j * k_targets + k)
            = false
          ∧ (reduce mf stat pos_targets info g k_targets k_uniq_vars J).output
              (j * k_targets + k)
            = mf (stat k) g.all_buffer
                (g.offsets_buffer j + (info (j + 1) - info j) * pos_targets k)
                (g.offsets_buffer j + (info (j + 1) - info j) * pos_targets k
                  + (group_values h index info collapse_from (pos_targets k) j).length)) := by
  obtain ⟨g, hg⟩ := gather_total h index info collapse_from k_uniq_vars J hreads
  have I := gather_inv h index info collapse_from k_uniq_vars J hinfo g hg
  obtain ⟨r1, r2⟩ := reduce_at mf stat pos_targets info g k_targets k_uniq_vars J j k hj hk
  have hC := I.count j (pos_targets k) hj hv
  refine ⟨g, hg, hC, ?_, ?_, ?_⟩
  · intro hs
    rw [r2, ← hC]
    unfold target_entry reduce_target reduce_branch
    simp only [hs, mf_strcmp_wrapper]
    by_cases he : g.all_nonmiss (j * k_uniq_vars + pos_targets k) < 2
    · simp [he, Output.init]
    · have : ¬ g.all_nonmiss (j * k_uniq_vars + pos_targets k) = 0 := by omega
      simp [he, this, Output.init]
  · intro hs
    simp only [List.mem_cons, List.mem_singleton, List.not_mem_nil, or_false, not_or] at hs
    obtain ⟨h1, h2, h3, h4, h5, h6, h7⟩ := hs
    rw [r2, ← hC]
    unfold target_entry reduce_target reduce_branch
    simp only [mf_strcmp_wrapper, h1, h2, h3, h4, h5, h6, h7]
    by_cases he : g.all_nonmiss (j * k_uniq_vars + pos_targets k) = 0
    · simp [he, Output.init]
    · simp [he, Output.init]
  · intro hb
    rw [r1, r2, ← hC]
    unfold target_entry reduce_target
    simp only [hb]
    simp [Output.init]

theorem C8_missing_policy_witness :
    ∃ g, gather (ex_host ex_src_missing) ex_index ex_info 2 1 3 = .ok g ∧
      (reduce ex_mf (fun _ => "sd") (fun _ => 0) ex_info g 1 1 3).outmiss 1 = true := by
  have hinfo : info_ok ex_info 3 := ⟨rfl, fun j _ => by unfold ex_info; omega⟩
  have hreads : gather_reads_ok (ex_host ex_src_missing) ex_index ex_info 2 1 3 :=
    fun _ _ _ _ _ _ _ => rfl
  obtain ⟨g, hg, _, h1, _⟩ := C8_missing_policy ex_mf (ex_host ex_src_missing) ex_index ex_info
    (fun _ => "sd") (fun _ => 0) 2 1 1 3 1 0 hinfo hreads (by decide) (by decide) (by decide)
  exact ⟨g, hg, (h1 rfl).2 (by decide)⟩

/-- C9: with `info[0] = 0` and `info` non-decreasing, the gather pass, when
its reads succeed, ends with, for every group `j` and source variable `v`:
`offsets_buffer[j] = info[j] * k_uniq_vars`; `all_nonmiss[j*k_uniq_vars + v]`
equal to the number of rows of the group where `v` is not missing, at most the
group size; the slice of `all_buffer` of that length at
`offsets_buffer[j] + nj*v` equal to the non-missing values of `v` over the
group in visitation order; and that slice inside `all_buffer[0 .. k_uniq_vars * info[J])`. -/
theorem C9_gather_slices (h : Host) (index info : Nat → Nat)
    (collapse_from k_uniq_vars J : Nat)
    (hinfo : info_ok info J)
    (hreads : gather_reads_ok h index info collapse_from k_uniq_vars J) :
    ∃ g, gather h index info collapse_from k_uniq_vars J = .ok g ∧
      ∀ j v, j < J → v < k_uniq_vars →
        g.offsets_buffer j = info j * k_uniq_vars
        ∧ g.all_nonmiss (j * k_uniq_vars + v)
          = (group_positions info j).countP
              (fun i => (cell_val h index collapse_from v i).isSome)
        ∧ g.all_nonmiss (j * k_uniq_vars + v) ≤ info (j + 1) - info j
        ∧ buffer_slice g.all_buffer (g.offsets_buffer j + (info (j + 1) - info j) * v)
            (g.all_nonmiss (j * k_uniq_vars + v))
          = group_values h index info collapse_from v j
        ∧ g.offsets_buffer j + (info (j + 1) - info j) * v
            + g.all_nonmiss (j * k_uniq_vars + v) ≤ k_uniq_vars * info J := by
  obtain ⟨g, hg⟩ := gather_total h index info collapse_from k_uniq_vars J hreads
  have I := gather_inv h index info collapse_from k_uniq_vars J hinfo g hg
  refine ⟨g, hg, ?_⟩
  intro j v hj hv
  have hC := I.count j v hj hv
  have hO := I.offsets j hj
  have hlen := group_values_length_le h index info collapse_from v j
  refine ⟨hO, ?_, by rw [hC]; exact hlen, ?_, ?_⟩
  · rw [hC]; unfold group_values; rw [List.length_filterMap_eq_countP]
  · apply List.ext_getElem?
    intro t
    by_cases ht : t < (group_values h index info collapse_from v j).length
    · rw [buffer_slice_getElem? _ _ _ _ (by rw [hC]; exact ht), hO,
        I.values j v t hj hv ht, List.getD_eq_getElem?_getD, List.getElem?_eq_getElem ht]
      simp
    · have hbl : (buffer_slice g.all_buffer
          (g.offsets_buffer j + (info (j + 1) - info j) * v)
          (g.all_nonmiss (j * k_uniq_vars + v))).length
          = (group_values h index info collapse_from v j).length := by
        unfold buffer_slice
        rw [List.length_map, List.length_range, hC]
      rw [List.getElem?_eq_none (by omega), List.getElem?_eq_none (by omega)]
  · have := slot_bound hinfo hj hv
    rw [hO, hC, Nat.mul_comm k_uniq_vars]
    omega

theorem C9_gather_slices_witness :
    ∃ g, gather (ex_host ex_src_missing) ex_index ex_info 2 1 3 = .ok g ∧
      buffer_slice g.all_buffer (g.offsets_buffer 2 + (ex_info 3 - ex_info 2) * 0)
          (g.all_nonmiss 2) = [100, 0] := by
  have hinfo : info_ok ex_info 3 := ⟨rfl, fun j _ => by unfold ex_info; omega⟩
  have hreads : gather_reads_ok (ex_host ex_src_missing) ex_index ex_info 2 1 3 :=
    fun _ _ _ _ _ _ _ => rfl
  obtain ⟨g, hg, hall⟩ := C9_gather_slices (ex_host ex_src_missing) ex_index ex_info 2 1 3
    hinfo hreads
  obtain ⟨_, _, _, h4, _⟩ := hall 2 0 (by decide) (by decide)
  exact ⟨g, hg, h4.trans rfl⟩

/-- C12: the run of `stata_call` with the log of its host accesses gives the
result of `stata_call`, and for every access `a` of the log other than the
save of the group count (a scalar, array or text fetch, an `SF_vdata` or
`SF_sdata` read, an `SF_vstore` or `SF_sstore` write) that the host answers
with a non-zero status: `a` is the last access of the log, every access
before it succeeded, no access of the log is the save of `__gtools_J`, and
`stata_call` returns exactly the status of `a`, on the host as it is after
the accesses before `a`, with the saved scalars of the entry host. Moreover,
when `stata_call` returns `0`, every such access of the log succeeded. -/
theorem C12_fail_fast (mf : String → (Nat → ST_double) → Nat → Nat → ST_double)
    (hash128 : List ByVal → Nat × Nat) (h : Host) :
    (stata_call_log mf hash128 h).1 = stata_call mf hash128 h
      ∧ (∀ pre a post, (stata_call_log mf hash128 h).2 = pre ++ a :: post →
          a.is_save = false → a.status h ≠ 0 →
            post = [] ∧ (∀ b ∈ pre, b.status h = 0)
              ∧ (∀ b ∈ (stata_call_log mf hash128 h).2, b.is_save = false)
              ∧ ∃ h', stata_call mf hash128 h = Outcome.returned (a.status h) h'
                ∧ h' = replay pre h ∧ h'.saved = h.saved)
      ∧ (∀ h', stata_call mf hash128 h = Outcome.returned 0 h' →
          ∀ a ∈ (stata_call_log mf hash128 h).2, a.is_save = false → a.status h = 0) := by
  have hfst := stata_call_log_fst mf hash128 h
  have hpost := stata_call_log_post mf hash128 h
  refine ⟨hfst, ?_, ?_⟩
  · intro pre a post hlog hsave hfail
    have hmem : a ∈ (stata_call_log mf hash128 h).2 := by
      rw [hlog]
      exact List.mem_append_right _ (List.mem_cons_self _ _)
    rw [← hfst]
    revert hpost hlog hmem
    generalize stata_call_log mf hash128 h = r
    obtain ⟨out, log⟩ := r
    intro hpost hlog hmem
    simp only at hlog hmem ⊢
    cases out with
    | undefined => exact absurd (hpost a hmem).1 hfail
    | returned rc h' =>
      obtain ⟨hh, hcase⟩ := hpost
      rcases hcase with hf | ⟨_, hok⟩ | ⟨_, pre0, z, e, hok⟩
      · obtain ⟨e1, e2, e3, _⟩ := hf.last hlog hfail
        have hrep : replay log h = replay pre h := by
          rw [hlog, e1, replay_snoc, effect_of_fail (by rw [replay_status]; exact hfail)]
        refine ⟨e1, fun b hb => (e3 b hb).1, hf.no_save, h', ?_, ?_, ?_⟩
        · rw [e2]
        · rw [hh, hrep]
        · rw [hh]
          exact replay_saved _ _ hf.no_save
      · exact absurd (hok a hmem).1 hfail
      · exfalso
        rw [e] at hmem
        rcases List.mem_append.1 hmem with hm | hm
        · exact hfail (hok a hm).1
        · rw [List.mem_singleton] at hm
          rw [hm] at hsave
          cases hsave
  · intro h' hrun a ha hsave
    rw [← hfst] at hrun
    revert hpost ha hrun
    generalize stata_call_log mf hash128 h = r
    obtain ⟨out, log⟩ := r
    intro hpost hrun ha
    simp only at ha hrun
    subst hrun
    obtain ⟨_, hcase⟩ := hpost
    rcases hcase with hf | ⟨h198, _⟩ | ⟨_, pre0, z, e, hok⟩
    · obtain ⟨_, _, _, _, _, _, hne⟩ := hf
      exact absurd rfl hne
    · cases h198
    · rw [e] at ha
      rcases List.mem_append.1 ha with hm | hm
      · exact (hok a hm).1
      · rw [List.mem_singleton] at hm
        rw [hm] at hsave
        cases hsave

theorem C12_fail_fast_witness :
    ((stata_call_log ex_mf_sum ex_hash128 ex_host_fetch_fails).2
        = [Access.scal_use "__gtools_verbose", Access.scal_use "__gtools_benchmark",
            Access.get_vector "__gtools_byk", Access.get_vector "__gtools_bymin",
            Access.get_vector "__gtools_bymax"]
          ++ Access.scal_use "__gtools_k_targets" :: []
      ∧ (Access.scal_use "__gtools_k_targets").status ex_host_fetch_fails = 7
      ∧ ∃ h', stata_call ex_mf_sum ex_hash128 ex_host_fetch_fails = Outcome.returned 7 h'
        ∧ h'.saved = ex_host_fetch_fails.saved)
      ∧ ((stata_call_log ex_mf_sum ex_hash_num ex_host_store_fails).2
          = (stata_call_log ex_mf_sum ex_hash_num ex_host_store_fails).2.take 37
            ++ [Access.vstore 3 1
                  (some (ex_mf_sum "sum" (fun i => [(10 : ℚ), 20, 5, 5, 100, 0].getD i 0) 0 2))]
            ++ Access.vstore 1 1 (some 1) :: []
        ∧ (Access.vstore 1 1 (some 1)).status ex_host_store_fails = 7
        ∧ ∃ h', stata_call ex_mf_sum ex_hash_num ex_host_store_fails = Outcome.returned 7 h'
          ∧ h'.saved = ex_host_store_fails.saved) := by
  obtain ⟨_, _, _, h', h1, _, h3⟩ :=
    (C12_fail_fast ex_mf_sum ex_hash128 ex_host_fetch_fails).2.1
      [Access.scal_use "__gtools_verbose", Access.scal_use "__gtools_benchmark",
        Access.get_vector "__gtools_byk", Access.get_vector "__gtools_bymin",
        Access.get_vector "__gtools_bymax"]
      (Access.scal_use "__gtools_k_targets") [] rfl rfl (by decide)
  obtain ⟨_, _, _, k', k1, _, k3⟩ :=
    (C12_fail_fast ex_mf_sum ex_hash_num ex_host_store_fails).2.1
      ((stata_call_log ex_mf_sum ex_hash_num ex_host_store_fails).2.take 37
        ++ [Access.vstore 3 1
              (some (ex_mf_sum "sum" (fun i => [(10 : ℚ), 20, 5, 5, 100, 0].getD i 0) 0 2))])
      (Access.vstore 1 1 (some 1)) [] rfl rfl (by decide)
  exact ⟨⟨rfl, rfl, h', h1, h3⟩, rfl, rfl, k', k1, k3⟩

/-- C13 (amended): there is no rollback. When `stata_call` returns a non-zero
status, the host is the entry host with exactly the `SF_vstore` and
`SF_sstore` writes that completed before the failing access: the scalars
saved are those of the entry host (no group count), a numeric or text cell
differs from the entry state only where a store of the log wrote it, and the
host is unchanged when the log has no write, as when the failure is in a
parameter fetch, a key read or the gather pass. -/
theorem C13_completed_writes_stay
    (mf : String → (Nat → ST_double) → Nat → Nat → ST_double)
    (hash128 : List ByVal → Nat × Nat) (h : Host) (rc : Nat) (h' : Host)
    (hrun : stata_call mf hash128 h = Outcome.returned rc h') (hrc : rc ≠ 0) :
    h' = replay (stata_call_log mf hash128 h).2 h
      ∧ h'.saved = h.saved
      ∧ (∀ i j, h'.num i j ≠ h.num i j →
          ∃ z, Access.vstore i j z ∈ (stata_call_log mf hash128 h).2 ∧ h.vstore_rc i j = 0)
      ∧ (∀ i j, h'.str i j ≠ h.str i j →
          ∃ s, Access.sstore i j s ∈ (stata_call_log mf hash128 h).2 ∧ h.sstore_rc i j = 0)
      ∧ ((∀ a ∈ (stata_call_log mf hash128 h).2, a.is_write = false) → h' = h) := by
  have hfst := stata_call_log_fst mf hash128 h
  have hpost := stata_call_log_post mf hash128 h
  rw [← hfst] at hrun
  revert hpost hrun
  generalize stata_call_log mf hash128 h = r
  obtain ⟨out, log⟩ := r
  intro hrun hpost
  simp only at hrun ⊢
  subst hrun
  obtain ⟨hh, hcase⟩ := hpost
  have hns : ∀ a ∈ log, a.is_save = false := by
    rcases hcase with hf | ⟨_, hok⟩ | ⟨h0, _⟩
    · exact hf.no_save
    · exact fun a ha => (hok a ha).2
    · exact absurd h0 hrc
  refine ⟨hh, ?_, ?_, ?_, ?_⟩
  · rw [hh]
    exact replay_saved _ _ hns
  · intro i j hne
    rw [hh] at hne
    exact replay_num_ne _ _ _ _ hne
  · intro i j hne
    rw [hh] at hne
    exact replay_str_ne _ _ _ _ hne
  · intro hw
    rw [hh]
    exact replay_no_write _ _ hw

theorem C13_completed_writes_stay_witness :
    ∃ h', stata_call ex_mf_sum ex_hash_num ex_host_store_fails = Outcome.returned 7 h'
      ∧ h' = replay (stata_call_log ex_mf_sum ex_hash_num ex_host_store_fails).2
          ex_host_store_fails
      ∧ h'.saved = ex_host_store_fails.saved :=
  ⟨_, rfl,
    (C13_completed_writes_stay ex_mf_sum ex_hash_num ex_host_store_fails 7 _ rfl (by decide)).1,
    (C13_completed_writes_stay ex_mf_sum ex_hash_num ex_host_store_fails 7 _ rfl
      (by decide)).2.1⟩

/-- C13 (the claim fails): on the six-row example in hash mode, on a host that
refuses the store of the by-value of the first group with status `7`,
`stata_call` returns `7` after the store of the target of the first group has
taken effect: cell `(3, 1)` of the host is no longer what it was at entry. -/
theorem C13_partial_result :
    ∃ h', stata_call ex_mf_sum ex_hash_num ex_host_store_fails = Outcome.returned 7 h'
      ∧ h'.num 3 1 ≠ ex_host_store_fails.num 3 1 := by
  refine ⟨_, rfl, ?_⟩
  decide

/-- C14 (evaluation of the code at the failing input): for two integer
by-variables with ranges `0..3` and `5..5`, the divisor `range` of line 155 is
`maxs[1] - mins[1] + (1 < (byvars_k - 1)) = 5 - 5 + 0 = 0`, the test
`worst > ULONG_MAX / range` of line 157 divides by zero, and the run of
`stata_call` on a host that announces these by-variables has no defined
result. -/
theorem C14_precheck_divides_by_zero :
    to_size_t ((5 : Int) - 5 + (if (1 : Int) < ((2 : Nat) : Int) - 1 then 1 else 0)) = 0
      ∧ integers_ok_check 2 [-1, -1] [0, 5] [3, 5] = none
      ∧ stata_call ex_mf_sum ex_hash128 ex_host_constant_by = Outcome.undefined :=
  ⟨by decide, by decide, rfl⟩

end Gcollapse
